import Mathlib

/-!
# mtp::basic_fixed_string

A shallow embedding of `include/mtp/fixed_string.hpp`.

Conventions of the embedding.

* A C array `CharT a[n]` is a list of cells together with the proof that it has
  `n` cells.  Every read and write goes through `c_array.load` and
  `c_array.store`, which fail with `fault.out_of_bounds` outside `[0, n)`.
* A pointer into an array is the index of the cell it points at.
* Storage that C++ leaves uninitialised (the `_data` member before a
  constructor body runs, a local scratch array) is an argument of the
  operation, so every statement holds for whatever the storage held before.
* The preprocessor branches at the top of the header (`MTP_EXPECTS`,
  `MTP_THROW`) are selected by a `build` value.
* Index arithmetic is done on `Nat`.  In the source the loop counters written
  `auto i = 0u` have type `unsigned` and the bounds have type `std::size_t`;
  the widths of both are implementation defined and the embedding takes every
  extent to be representable in both.  The subtraction `size() - 1` of `back`
  wraps as the `std::size_t` subtraction does.
* An iterator pair `[first, last)` is the sequence of its elements together
  with the category of the iterator: multi-pass, as a pointer, or single-pass,
  as `std::istream_iterator`.
* `std::basic_string_view<CharT>{p, n}` is the list of the `n` elements
  starting at `p`; `std::char_traits`, `basic_string_view::compare`, the
  comparison operators of views and `std::swap_ranges` follow the wording of
  the C++ standard; `std::hash` of a view is an arbitrary function of the
  viewed elements.
* A `std::basic_ostream` is the sequence of characters its buffer received
  together with the state the inserter of a view reads: `width()`, `fill()`,
  the adjustment and `good()`.
* A consumer of a zero-terminated sequence reads cells from the pointer on
  until one holds `CharT{}`; `c_strcmp` is the function of the test file.
* `std::sort` with the default comparison is represented by insertion sort
  with `operator<`.
-/

namespace mtp

/-- Ways in which an operation can end without a result. -/
inductive fault where
  /-- the condition of an `MTP_EXPECTS` that expands to a check was false -/
  | contract_violation
  /-- `std::out_of_range` thrown through `MTP_THROW` -/
  | out_of_range
  /-- a read or write outside the extent of an array -/
  | out_of_bounds
  deriving DecidableEq, Repr

deriving instance DecidableEq for Except

/-- The three expansions of `MTP_EXPECTS` (header lines 4-12). -/
inductive expects_expansion where
  /-- `__assume(cond)`, MSVC -/
  | assume
  /-- `((cond) ? static_cast<void>(0) : __builtin_unreachable())`, GCC and Clang -/
  | unreachable
  /-- the empty expansion of the last `#else` -/
  | nothing
  deriving DecidableEq, Repr

/-- The preprocessor configuration the header is compiled under. -/
structure build where
  /-- which branch of lines 4-12 defines `MTP_EXPECTS` -/
  expects : expects_expansion
  /-- `!defined(MTP_NO_EXCEPTIONS) && defined(__EXCEPTIONS)` (line 14) -/
  exceptions : Bool
  deriving DecidableEq, Repr

/-- `MTP_EXPECTS(cond)`.  With the `__assume` and `__builtin_unreachable`
expansions a false condition is undefined behaviour, which constant evaluation
rejects; with the empty expansion the condition is not even evaluated. -/
def MTP_EXPECTS (b : build) (cond : Except fault Bool) : Except fault Unit :=
  match b.expects with
  | expects_expansion.nothing => Except.ok ()
  | expects_expansion.assume =>
    cond.bind fun c => if c then Except.ok () else Except.error fault.contract_violation
  | expects_expansion.unreachable =>
    cond.bind fun c => if c then Except.ok () else Except.error fault.contract_violation

/-- `MTP_THROW(except)` (lines 14-19): `throw except` when exceptions are
enabled, the empty expansion otherwise. -/
def MTP_THROW (b : build) (except : fault) : Except fault Unit :=
  if b.exceptions then Except.error except else Except.ok ()

/-- A C array `CharT a[n]`. -/
structure c_array (CharT : Type) (n : Nat) where
  /-- the elements, in index order -/
  cells : List CharT
  /-- the array has exactly `n` elements -/
  extent : cells.length = n

instance {CharT : Type} [DecidableEq CharT] {n : Nat} : DecidableEq (c_array CharT n) :=
  fun a b =>
    if h : a.cells = b.cells then isTrue (by cases a; cases b; cases h; rfl)
    else isFalse fun e => h (congrArg c_array.cells e)

/-- The read `a[i]`. -/
def c_array.load {CharT : Type} {n : Nat} (a : c_array CharT n) (i : Nat) :
    Except fault CharT :=
  match a.cells[i]? with
  | some c => Except.ok c
  | none => Except.error fault.out_of_bounds

/-- The write `a[i] = c`. -/
def c_array.store {CharT : Type} {n : Nat} (a : c_array CharT n) (i : Nat) (c : CharT) :
    Except fault (c_array CharT n) :=
  if h : i < n then
    Except.ok ⟨a.cells.set i c, by rw [List.length_set]; exact a.extent⟩
  else Except.error fault.out_of_bounds

/-- The class template `basic_fixed_string<CharT, N>`: its only member is
`CharT _data[N + 1]` (line 80). -/
structure basic_fixed_string (CharT : Type) (N : Nat) where
  /-- `CharT _data[N + 1]` -/
  _data : c_array CharT (N + 1)

instance {CharT : Type} [DecidableEq CharT] {N : Nat} :
    DecidableEq (basic_fixed_string CharT N) :=
  fun a b =>
    if h : a._data = b._data then isTrue (by cases a; cases b; cases h; rfl)
    else isFalse fun e => h (congrArg basic_fixed_string._data e)

section members

variable {CharT : Type} {N : Nat}

/-- `static constexpr std::integral_constant<size_type, N> size{}` (line 102). -/
def basic_fixed_string.size (_ : basic_fixed_string CharT N) : Nat := N

/-- `static constexpr std::integral_constant<size_type, N> length{}` (line 103). -/
def basic_fixed_string.length (_ : basic_fixed_string CharT N) : Nat := N

/-- `static constexpr std::integral_constant<size_type, N> max_size{}` (line 104). -/
def basic_fixed_string.max_size (_ : basic_fixed_string CharT N) : Nat := N

/-- `static constexpr std::bool_constant<(N == 0)> empty{}` (line 105). -/
def basic_fixed_string.empty (_ : basic_fixed_string CharT N) : Bool := decide (N = 0)

/-- `data()` (lines 247-251): the pointer to the first cell of `_data`. -/
def basic_fixed_string.data (self : basic_fixed_string CharT N) : c_array CharT (N + 1) :=
  self._data

/-- `c_str()` (lines 253-257). -/
def basic_fixed_string.c_str (self : basic_fixed_string CharT N) : c_array CharT (N + 1) :=
  self._data

/-- `std::basic_string_view<CharT>{ p, n }`: the `n` elements starting at the
first cell of `p`. -/
def basic_string_view {n : Nat} (p : c_array CharT n) (count : Nat) : List CharT :=
  p.cells.take count

/-- `view()` (lines 259-263): `std::basic_string_view<CharT>{ data(), size() }`. -/
def basic_fixed_string.view (self : basic_fixed_string CharT N) : List CharT :=
  basic_string_view self.data self.size

/-- `operator std::basic_string_view<CharT>()` (lines 265-269). -/
def basic_fixed_string.operator_string_view (self : basic_fixed_string CharT N) : List CharT :=
  self.view

/-- `basic_fixed_string() requires(N == 0) = default;` (lines 111-113).  The
constructor is trivial (the test file asserts
`is_trivially_default_constructible_v`): it initialises nothing, so the object
holds what its storage `this` held. -/
def basic_fixed_string.default_constructor (this : basic_fixed_string CharT 0) :
    basic_fixed_string CharT 0 :=
  this

/-- Zero-initialisation of the storage of an object, the first step of the
value-initialisation `basic_fixed_string<CharT, 0>{}` of a class whose default
constructor is not user-provided. -/
def basic_fixed_string.zero_initialized (CharT : Type) [Zero CharT] (N : Nat) :
    basic_fixed_string CharT N :=
  ⟨⟨List.replicate (N + 1) 0, List.length_replicate _ _⟩⟩

/-- The expression `basic_fixed_string<CharT, 0>{}`: zero-initialisation
followed by the defaulted default constructor. -/
def basic_fixed_string.value_initialized (CharT : Type) [Zero CharT] :
    basic_fixed_string CharT 0 :=
  basic_fixed_string.default_constructor (basic_fixed_string.zero_initialized CharT 0)

/-- `basic_fixed_string(basic_fixed_string const&) = default;` (line 114). -/
def basic_fixed_string.copy_constructor (other : basic_fixed_string CharT N) :
    basic_fixed_string CharT N :=
  ⟨other._data⟩

/-- `basic_fixed_string(basic_fixed_string&&) = default;` (line 116). -/
def basic_fixed_string.move_constructor (other : basic_fixed_string CharT N) :
    basic_fixed_string CharT N :=
  ⟨other._data⟩

/-- `explicit constexpr basic_fixed_string(CharTs... chars)` (lines 120-123):
`_data{ chars..., CharT{} }`.  The requires-clause `sizeof...(CharTs) == N` is
the argument `h`. -/
def basic_fixed_string.from_chars [Zero CharT] (chars : List CharT) (h : chars.length = N) :
    basic_fixed_string CharT N :=
  ⟨⟨chars ++ [0], by rw [List.length_append, h]; rfl⟩⟩

/-- `consteval basic_fixed_string(CharT const (&str)[N + 1])` (lines 125-131).
`this` is the storage of the object under construction. -/
def basic_fixed_string.from_literal [Zero CharT] [DecidableEq CharT] (b : build)
    (this : basic_fixed_string CharT N) (str : c_array CharT (N + 1)) :
    Except fault (basic_fixed_string CharT N) := do
  MTP_EXPECTS b ((str.load N).map fun c => decide (c = 0))
  let d ← (List.range (N + 1)).foldlM
    (fun (d : c_array CharT (N + 1)) i => do
      let c ← str.load i
      d.store i c)
    this._data
  pure ⟨d⟩

/-- The statement `*(it++) = c;`, also one pass of
`for (; first != last; ++it, ++first) { *it = *first; }`: the state is the
array written to and the cursor `it` into it. -/
def c_array.put {n : Nat} (st : c_array CharT n × Nat) (c : CharT) :
    Except fault (c_array CharT n × Nat) := do
  let a ← st.1.store st.2 c
  pure (a, st.2 + 1)

/-- Whether the expansion of `MTP_EXPECTS` evaluates its operand.  The
conditional expression of GCC and Clang does; `__assume` is a hint to the
optimiser that generates no code for its operand; the empty expansion drops
the operand. -/
def build.evaluates_expects (b : build) : Bool :=
  match b.expects with
  | expects_expansion.unreachable => true
  | expects_expansion.assume => false
  | expects_expansion.nothing => false

/-- An iterator and sentinel pair `[first, last)` as the constructor template
sees it: the elements the range denotes when the constructor is entered, and
whether the iterator type is multi-pass (`std::forward_iterator`, such as a
pointer) or only the `std::input_iterator` the template asks for.  A
single-pass iterator is one in the manner of `std::istream_iterator`: it holds
the element it points at and shares its source with its copies. -/
structure iterator_range (CharT : Type) where
  /-- the elements of `[first, last)`, in order -/
  elements : List CharT
  /-- the iterator type models `std::forward_iterator` -/
  multi_pass : Bool

/-- A pair of pointers into an array, as a range: the cells between them. -/
def pointer_range (cells : List CharT) : iterator_range CharT := ⟨cells, true⟩

/-- The elements still reached from `first` once `std::distance(first, last)`
has walked a copy of `first` up to `last`.  A multi-pass range is untouched.
For a single-pass range the walk has drained the shared source: `first` still
yields the element it holds and compares equal to `last` after its first
increment. -/
def iterator_range.after_distance (r : iterator_range CharT) : List CharT :=
  if r.multi_pass then r.elements else r.elements.take 1

/-- The elements the copy loop of the constructor reads, which comes after the
line `MTP_EXPECTS(std::distance(first, last) == N)`. -/
def iterator_range.remaining (b : build) (r : iterator_range CharT) : List CharT :=
  if b.evaluates_expects then r.after_distance else r.elements

/-- `constexpr basic_fixed_string(I first, S last)` (lines 133-143), for any
`std::input_iterator I`.  The value of `std::distance(first, last)` is the
number of elements of the range on entry; where the expansion of `MTP_EXPECTS`
evaluates it, the loop runs on what is left of the range afterwards.  The
cursor `it` starts at `_data`. -/
def basic_fixed_string.from_iterators [Zero CharT] (b : build)
    (this : basic_fixed_string CharT N) (r : iterator_range CharT) :
    Except fault (basic_fixed_string CharT N) := do
  MTP_EXPECTS b (Except.ok (decide (r.elements.length = N)))
  let st ← (r.remaining b).foldlM c_array.put (this._data, 0)
  let st ← c_array.put st 0
  pure ⟨st.1⟩

/-- `constexpr basic_fixed_string(std::from_range_t, R&& rg)` (lines 146-156).
`std::ranges::size(rg)` is the size of a sized range and walks nothing, so the
loop runs on the whole range `rg` in every build. -/
def basic_fixed_string.from_range [Zero CharT] (b : build)
    (this : basic_fixed_string CharT N) (rg : List CharT) :
    Except fault (basic_fixed_string CharT N) := do
  MTP_EXPECTS b (Except.ok (decide (rg.length = N)))
  let st ← rg.foldlM c_array.put (this._data, 0)
  let st ← c_array.put st 0
  pure ⟨st.1⟩

/-- `at(pos)` (lines 215-224). -/
def basic_fixed_string.at_ (b : build) (self : basic_fixed_string CharT N) (pos : Nat) :
    Except fault CharT := do
  if pos ≥ self.size then
    MTP_THROW b fault.out_of_range
  self.data.load pos

/-- The call `at(pos)` as a step on the object: the outcome of the call and the
instance after it.  The member is `const` and its body (lines 218-223) holds no
write, whether it returns or throws. -/
def basic_fixed_string.at_step (b : build) (self : basic_fixed_string CharT N) (pos : Nat) :
    Except fault CharT × basic_fixed_string CharT N :=
  (self.at_ b pos, self)

/-- `operator[](pos)` (lines 226-231). -/
def basic_fixed_string.operator_index (b : build) (self : basic_fixed_string CharT N)
    (pos : Nat) : Except fault CharT := do
  MTP_EXPECTS b (Except.ok (decide (pos ≤ self.size)))
  self.data.load pos

/-- `front()` (lines 233-238). -/
def basic_fixed_string.front (b : build) (self : basic_fixed_string CharT N) :
    Except fault CharT := do
  MTP_EXPECTS b (Except.ok (!self.empty))
  self.data.load 0

/-- The largest value of `std::size_t`, taken as 64 bits wide. -/
def SIZE_MAX : Nat := 2 ^ 64 - 1

/-- `back()` (lines 240-245).  `size() - 1` is a subtraction of `std::size_t`
values: for `size() = 0` it wraps to `SIZE_MAX`, an index outside the array. -/
def basic_fixed_string.back (b : build) (self : basic_fixed_string CharT N) :
    Except fault CharT := do
  MTP_EXPECTS b (Except.ok (!self.empty))
  self.data.load ((self.size + SIZE_MAX) % (SIZE_MAX + 1))

/-- `std::swap_ranges(first1, last1, first2)` on two arrays: for every `k` below
`last1 - first1` the cells `first1 + k` of the first array and `first2 + k` of
the second are exchanged. -/
def swap_ranges {n m : Nat} (a : c_array CharT n) (first1 last1 : Nat) (c : c_array CharT m)
    (first2 : Nat) : Except fault (c_array CharT n × c_array CharT m) :=
  (List.range (last1 - first1)).foldlM
    (fun (st : c_array CharT n × c_array CharT m) k => do
      let x ← st.1.load (first1 + k)
      let y ← st.2.load (first2 + k)
      let a1 ← st.1.store (first1 + k) y
      let c1 ← st.2.store (first2 + k) x
      pure (a1, c1))
    (a, c)

/-- `swap(fs)` (lines 275-279): `std::swap_ranges(_data, _data + size(), fs._data)`.
The result is the pair of the two objects after the call. -/
def basic_fixed_string.swap (self fs : basic_fixed_string CharT N) :
    Except fault (basic_fixed_string CharT N × basic_fixed_string CharT N) := do
  let r ← swap_ranges self._data 0 (0 + self.size) fs._data 0
  pure (⟨r.1⟩, ⟨r.2⟩)

/-- The non-member `mtp::swap(a, b)` (lines 451-456): `return a.swap(b);`. -/
def swap (a c : basic_fixed_string CharT N) :
    Except fault (basic_fixed_string CharT N × basic_fixed_string CharT N) :=
  a.swap c

/-- The loop `for (auto c : fs) { *(it++) = c; }` of the concatenations: `c`
runs over `begin() .. end()`, the cells `data()[0] .. data()[size() - 1]`. -/
def basic_fixed_string.append_to {n : Nat} (fs : basic_fixed_string CharT N)
    (st : c_array CharT n × Nat) : Except fault (c_array CharT n × Nat) :=
  (List.range fs.size).foldlM
    (fun (st : c_array CharT n × Nat) i => do
      let c ← fs.data.load i
      c_array.put st c)
    st

/-- The loop `for (auto i = 0u; i < N2 - 1; ++i) { *(it++) = lit[i]; }` of the
concatenations with a literal. -/
def c_array.append_to {N2 n : Nat} (lit : c_array CharT N2) (st : c_array CharT n × Nat) :
    Except fault (c_array CharT n × Nat) :=
  (List.range (N2 - 1)).foldlM
    (fun (st : c_array CharT n × Nat) i => do
      let c ← lit.load i
      c_array.put st c)
    st

/-- The pointer range `[str, it)` a concatenation hands to the iterator-pair
constructor: the cells of `str` below the cursor. -/
def c_array.upto {n : Nat} (st : c_array CharT n × Nat) : List CharT :=
  st.1.cells.take st.2

/-- `operator+(basic_fixed_string<CharT, N> const&, basic_fixed_string<CharT, N2> const&)`
(lines 285-299).  `str` is the scratch array `CharT str[N + N2]` and `result`
the storage of the returned object.  For `N + N2 = 0` the scratch array has no
cells, as with the compilers that accept an array of extent zero. -/
def operator_plus [Zero CharT] {N2 : Nat} (b : build) (str : c_array CharT (N + N2))
    (result : basic_fixed_string CharT (N + N2)) (lhs : basic_fixed_string CharT N)
    (rhs : basic_fixed_string CharT N2) : Except fault (basic_fixed_string CharT (N + N2)) := do
  let st ← lhs.append_to (str, 0)
  let st ← rhs.append_to st
  basic_fixed_string.from_iterators b result (pointer_range (c_array.upto st))

/-- `operator+(basic_fixed_string<CharT, N> const&, CharT)` (lines 301-312). -/
def operator_plus_char [Zero CharT] (b : build) (str : c_array CharT (N + 1))
    (result : basic_fixed_string CharT (N + 1)) (lhs : basic_fixed_string CharT N)
    (rhs : CharT) : Except fault (basic_fixed_string CharT (N + 1)) := do
  let st ← lhs.append_to (str, 0)
  let st ← c_array.put st rhs
  basic_fixed_string.from_iterators b result (pointer_range (c_array.upto st))

/-- `operator+(CharT, basic_fixed_string<CharT, N> const&)` (lines 314-325). -/
def char_operator_plus [Zero CharT] (b : build) (str : c_array CharT (N + 1))
    (result : basic_fixed_string CharT (1 + N)) (lhs : CharT)
    (rhs : basic_fixed_string CharT N) : Except fault (basic_fixed_string CharT (1 + N)) := do
  let st ← c_array.put (str, 0) lhs
  let st ← rhs.append_to st
  basic_fixed_string.from_iterators b result (pointer_range (c_array.upto st))

/-- `operator+(basic_fixed_string<CharT, N> const&, CharT const (&)[N2])`
(lines 327-342). -/
def operator_plus_literal [Zero CharT] [DecidableEq CharT] {N2 : Nat} (b : build)
    (str : c_array CharT (N + (N2 - 1))) (result : basic_fixed_string CharT (N + (N2 - 1)))
    (lhs : basic_fixed_string CharT N) (rhs : c_array CharT N2) :
    Except fault (basic_fixed_string CharT (N + (N2 - 1))) := do
  MTP_EXPECTS b ((rhs.load (N2 - 1)).map fun c => decide (c = 0))
  let st ← lhs.append_to (str, 0)
  let st ← rhs.append_to st
  basic_fixed_string.from_iterators b result (pointer_range (c_array.upto st))

/-- `operator+(CharT const (&)[N2], basic_fixed_string<CharT, N> const&)`
(lines 344-359). -/
def literal_operator_plus [Zero CharT] [DecidableEq CharT] {N2 : Nat} (b : build)
    (str : c_array CharT ((N2 - 1) + N)) (result : basic_fixed_string CharT ((N2 - 1) + N))
    (lhs : c_array CharT N2) (rhs : basic_fixed_string CharT N) :
    Except fault (basic_fixed_string CharT ((N2 - 1) + N)) := do
  MTP_EXPECTS b ((lhs.load (N2 - 1)).map fun c => decide (c = 0))
  let st ← lhs.append_to (str, 0)
  let st ← rhs.append_to st
  basic_fixed_string.from_iterators b result (pointer_range (c_array.upto st))

/-- `std::char_traits<CharT>::compare(p, q, n)`: the sign of the comparison of
the first `n` elements, decided at the first position where one is `lt` the
other. -/
def char_traits_compare [LinearOrder CharT] : List CharT → List CharT → Nat → Ordering
  | p :: ps, q :: qs, n + 1 =>
    if p < q then Ordering.lt
    else if q < p then Ordering.gt
    else char_traits_compare ps qs n
  | _, _, _ => Ordering.eq

/-- `std::basic_string_view::compare(str)`: with `rlen` the smaller of the two
sizes, the nonzero result of `traits::compare(data(), str.data(), rlen)`, else
the comparison of the sizes.  The result is the sign of the `int`. -/
def basic_string_view_compare [LinearOrder CharT] (x y : List CharT) : Ordering :=
  let rlen := min x.length y.length
  match char_traits_compare x y rlen with
  | Ordering.eq =>
    if x.length < y.length then Ordering.lt
    else if x.length = y.length then Ordering.eq
    else Ordering.gt
  | r => r

/-- `operator==` of two views: `lhs.compare(rhs) == 0`. -/
def basic_string_view_eq [LinearOrder CharT] (x y : List CharT) : Bool :=
  basic_string_view_compare x y == Ordering.eq

/-- `operator<=>` of two views: `lhs.compare(rhs) <=> 0` as a
`std::strong_ordering`. -/
def basic_string_view_spaceship [LinearOrder CharT] (x y : List CharT) : Ordering :=
  basic_string_view_compare x y

/-- `operator==(basic_fixed_string const&, basic_fixed_string<CharT, N2> const&)`
(lines 365-371). -/
def operator_eq [LinearOrder CharT] {N2 : Nat} (lhs : basic_fixed_string CharT N)
    (rhs : basic_fixed_string CharT N2) : Bool :=
  basic_string_view_eq lhs.view rhs.view

/-- `operator==(basic_fixed_string const&, CharT const (&)[N2])` (lines 373-379). -/
def operator_eq_literal [LinearOrder CharT] [Zero CharT] {N2 : Nat} (b : build)
    (lhs : basic_fixed_string CharT N) (rhs : c_array CharT N2) : Except fault Bool := do
  MTP_EXPECTS b ((rhs.load (N2 - 1)).map fun c => decide (c = 0))
  pure (basic_string_view_eq lhs.view (basic_string_view rhs (N2 - 1)))

/-- `operator<=>(basic_fixed_string const&, basic_fixed_string<CharT, N2> const&)`
(lines 382-388). -/
def operator_spaceship [LinearOrder CharT] {N2 : Nat} (lhs : basic_fixed_string CharT N)
    (rhs : basic_fixed_string CharT N2) : Ordering :=
  basic_string_view_spaceship lhs.view rhs.view

/-- `operator<=>(basic_fixed_string const&, CharT const (&)[N2])` (lines 390-397). -/
def operator_spaceship_literal [LinearOrder CharT] [Zero CharT] {N2 : Nat} (b : build)
    (lhs : basic_fixed_string CharT N) (rhs : c_array CharT N2) : Except fault Ordering := do
  MTP_EXPECTS b ((rhs.load (N2 - 1)).map fun c => decide (c = 0))
  pure (basic_string_view_spaceship lhs.view (basic_string_view rhs (N2 - 1)))

/-- `std::hash<mtp::fixed_string<N>>` and its siblings for the other character
types (lines 464-484): each is an empty class derived from the `std::hash` of
the view type, so the call operator is the inherited one and its argument is
the instance converted by `operator std::basic_string_view<CharT>()`.
`view_hash` is `std::hash<std::basic_string_view<CharT>>{}`. -/
def hash (view_hash : List CharT → Nat) (fs : basic_fixed_string CharT N) : Nat :=
  view_hash fs.operator_string_view

/-- `begin()` (lines 163-167): `data()`, the pointer to cell 0. -/
def basic_fixed_string.begin (_ : basic_fixed_string CharT N) : Nat := 0

/-- `end()` (lines 169-173): `data() + size()`. -/
def basic_fixed_string.end_ (self : basic_fixed_string CharT N) : Nat := 0 + self.size

/-- The elements a traversal `for (auto it = begin(); it != end(); ++it)` reads
through `*it`, in order. -/
def basic_fixed_string.traverse (self : basic_fixed_string CharT N) :
    Except fault (List CharT) :=
  (List.range (self.end_ - self.begin)).foldlM
    (fun (seen : List CharT) k => do
      let c ← self.data.load (self.begin + k)
      pure (seen ++ [c]))
    []

/-- The part of a `std::basic_ostream<CharT>` that the insertion of a view
depends on and changes. -/
structure basic_ostream (CharT : Type) where
  /-- the characters the stream buffer has received, in order -/
  sink : List CharT
  /-- `width()` -/
  width : Nat
  /-- `fill()` -/
  fill : CharT
  /-- `(flags() & adjustfield) == left` -/
  left : Bool
  /-- `good()`: the sentry of a formatted output function succeeds -/
  good : Bool

/-- `os << sv` for a view `sv`, in the wording of the C++ standard: a formatted
output function that, when the sentry succeeds, inserts the elements of the
view padded with `fill()` up to `width()` (after the view when the adjustment is
`left`, before it otherwise) and then calls `width(0)`; when the sentry fails
nothing is inserted. -/
def basic_ostream.insert_view (os : basic_ostream CharT) (sv : List CharT) :
    basic_ostream CharT :=
  if os.good then
    let pad := List.replicate (max os.width sv.length - sv.length) os.fill
    { os with
      sink := os.sink ++ (if os.left then sv ++ pad else pad ++ sv)
      width := 0 }
  else os

/-- `operator<<(std::basic_ostream<CharT>&, basic_fixed_string const&)` (lines
404-409): `return os << fs.view();`.  The result is the stream after the call. -/
def operator_shl (os : basic_ostream CharT) (fs : basic_fixed_string CharT N) :
    basic_ostream CharT :=
  os.insert_view fs.view

/-- What a consumer of a zero-terminated sequence reads from cells handed to it
in order: the elements before the first one equal to `CharT{}`.  A read beyond
the last cell is a read outside the array. -/
def read_until_terminator [Zero CharT] [DecidableEq CharT] : List CharT → Except fault (List CharT)
  | [] => Except.error fault.out_of_bounds
  | c :: rest =>
    if c = 0 then Except.ok []
    else (read_until_terminator rest).map fun r => c :: r

/-- Reading the pointer `p` to the first cell of an array as a zero-terminated
sequence. -/
def c_array.read_terminated [Zero CharT] [DecidableEq CharT] {n : Nat} (p : c_array CharT n) :
    Except fault (List CharT) :=
  read_until_terminator p.cells

/-- The loop of `c_strcmp` (test file, lines 43-52) on the cells from the two
pointers on: `while (*s1 && *s1 == *s2) { ++s1; ++s2; } return *s1 == *s2;`.
Both `*s1` and `*s2` are read at every position reached. -/
def c_strcmp_cells [Zero CharT] [DecidableEq CharT] :
    List CharT → List CharT → Except fault Bool
  | a :: as, c :: cs =>
    if a ≠ 0 ∧ a = c then c_strcmp_cells as cs
    else Except.ok (decide (a = c))
  | _, _ => Except.error fault.out_of_bounds

/-- `c_strcmp(s1, s2)` of the test file (lines 43-52). -/
def c_strcmp [Zero CharT] [DecidableEq CharT] {n m : Nat} (s1 : c_array CharT n)
    (s2 : c_array CharT m) : Except fault Bool :=
  c_strcmp_cells s1.cells s2.cells

/-- `a < b`, which the compiler rewrites to `(a <=> b) < 0`. -/
def operator_lt [LinearOrder CharT] {N2 : Nat} (lhs : basic_fixed_string CharT N)
    (rhs : basic_fixed_string CharT N2) : Bool :=
  operator_spaceship lhs rhs == Ordering.lt

/-- `std::sort(first, last)` on a sequence of instances of one length, with the
default comparison `operator<`.  The standard fixes the result as a
permutation in which no element is less than one before it; insertion sort
stands for the algorithm. -/
def sort [LinearOrder CharT] (arr : List (basic_fixed_string CharT N)) :
    List (basic_fixed_string CharT N) :=
  arr.insertionSort fun a c => operator_lt c a = false

end members

section examples

/-- The build of GCC or Clang with exceptions enabled. -/
def gnu_build : build := ⟨expects_expansion.unreachable, true⟩

/-- The same compilers with `MTP_NO_EXCEPTIONS` defined (or `-fno-exceptions`). -/
def no_exceptions_build : build := ⟨expects_expansion.unreachable, false⟩

/-- A compiler that is neither MSVC, GCC nor Clang: `MTP_EXPECTS` is empty. -/
def unchecked_build : build := ⟨expects_expansion.nothing, true⟩

/-- An array of `n` cells that nothing has written yet; every cell holds the
byte `0xAA`. -/
def indeterminate (n : Nat) : c_array Nat n :=
  ⟨List.replicate n 170, List.length_replicate _ _⟩

/-- The storage of a `basic_fixed_string<CharT, N>` before its constructor runs. -/
def storage (N : Nat) : basic_fixed_string Nat N := ⟨indeterminate (N + 1)⟩

/-- The literal `{ '1', '\0', '3', '\0' }`, whose content holds a terminator. -/
def sl_1_0_3 : c_array Nat 4 := ⟨[49, 0, 51, 0], rfl⟩

/-- The literal `"123"` of the tests. -/
def sl_123 : c_array Nat 4 := ⟨[49, 50, 51, 0], rfl⟩

/-- The one-element array `{ 'a' }`, which does not end in the terminator. -/
def sl_unterminated : c_array Nat 1 := ⟨[97], rfl⟩

/-- `basic_fixed_string{ '1', '2', '3' }` of the swap test. -/
def fs_123 : basic_fixed_string Nat 3 := basic_fixed_string.from_chars [49, 50, 51] rfl

/-- `basic_fixed_string{ 'a', 'b', 'c' }` of the swap test. -/
def fs_abc : basic_fixed_string Nat 3 := basic_fixed_string.from_chars [97, 98, 99] rfl

/-- `basic_fixed_string{ 'a' }`. -/
def fs_a : basic_fixed_string Nat 1 := basic_fixed_string.from_chars [97] rfl

/-- `basic_fixed_string{ 'b' }`. -/
def fs_b : basic_fixed_string Nat 1 := basic_fixed_string.from_chars [98] rfl

/-- `basic_fixed_string{ 'a', 'b' }`. -/
def fs_ab : basic_fixed_string Nat 2 := basic_fixed_string.from_chars [97, 98] rfl

/-- `basic_fixed_string{ 'c' }`. -/
def fs_c : basic_fixed_string Nat 1 := basic_fixed_string.from_chars [99] rfl

/-- The literal `"Hello"` of the test `nttp`. -/
def sl_hello : c_array Nat 6 := ⟨[72, 101, 108, 108, 111, 0], rfl⟩

/-- The literal `", World!\n"` of the test `nttp`. -/
def sl_world : c_array Nat 10 := ⟨[44, 32, 87, 111, 114, 108, 100, 33, 10, 0], rfl⟩

/-- The instance holding `", World!\n"`. -/
def fs_world : basic_fixed_string Nat 9 :=
  basic_fixed_string.from_chars [44, 32, 87, 111, 114, 108, 100, 33, 10] rfl

/-- The instance holding `"Hello, World!\n"` of the stream output test. -/
def fs_hello_world : basic_fixed_string Nat 14 :=
  basic_fixed_string.from_chars
    [72, 101, 108, 108, 111, 44, 32, 87, 111, 114, 108, 100, 33, 10] rfl

/-- The literal `"ab"`. -/
def sl_ab : c_array Nat 3 := ⟨[97, 98, 0], rfl⟩

/-- The empty literal `{ CharT{} }`. -/
def sl_empty : c_array Nat 1 := ⟨[0], rfl⟩

/-- A buffer that holds `'a'` followed by `'7'` where the terminator belongs. -/
def fs_a_unterminated : basic_fixed_string Nat 1 := ⟨⟨[97, 55], rfl⟩⟩

/-- A freshly constructed `std::ostringstream`: nothing written, width 0, fill
`' '`, right adjustment, good. -/
def fresh_stream : basic_ostream Nat := ⟨[], 0, 32, false, true⟩

/-- A stream after `os << std::setw(5)`. -/
def setw_stream : basic_ostream Nat := ⟨[], 5, 32, false, true⟩

/-- The buffer `{ 'b', '7' }`: content `"b"` and no terminator at index 1. -/
def fs_b_unterminated : basic_fixed_string Nat 1 := ⟨⟨[98, 55], rfl⟩⟩

/-- The instance holding `{ 'a', '\0', 'c' }`, whose content holds a terminator. -/
def fs_a_0_c : basic_fixed_string Nat 3 := basic_fixed_string.from_chars [97, 0, 99] rfl

/-- The literal `"a"` of the concatenation test. -/
def sl_a : c_array Nat 2 := ⟨[97, 0], rfl⟩

/-- The literal `"c"` of the concatenation test. -/
def sl_c : c_array Nat 2 := ⟨[99, 0], rfl⟩

/-- The pair `std::istream_iterator<char>(in)`, `std::istream_iterator<char>()`
over a stream `in` holding `"abc"`: a single-pass range of three elements. -/
def stream_abc : iterator_range Nat := ⟨[97, 98, 99], false⟩

end examples

section lemmas
variable {CharT : Type}

theorem MTP_EXPECTS_holds (b : build) : MTP_EXPECTS b (Except.ok true) = Except.ok () := by
  cases b with
  | mk e x => cases e <;> rfl

theorem c_array.load_ok {n : Nat} (a : c_array CharT n) {i : Nat} {c : CharT}
    (h : a.cells[i]? = some c) : a.load i = Except.ok c := by
  unfold c_array.load
  rw [h]

theorem c_array.load_lt {n : Nat} (a : c_array CharT n) {i : Nat} (h : i < n) :
    ∃ c, a.cells[i]? = some c ∧ a.load i = Except.ok c := by
  have hi : i < a.cells.length := by rw [a.extent]; exact h
  exact ⟨a.cells[i], List.getElem?_eq_getElem hi, a.load_ok (List.getElem?_eq_getElem hi)⟩

theorem c_array.store_ok {n : Nat} (a : c_array CharT n) {i : Nat} (c : CharT) (h : i < n) :
    ∃ d, a.store i c = Except.ok d ∧ d.cells = a.cells.set i c := by
  unfold c_array.store
  rw [dif_pos h]
  exact ⟨_, rfl, rfl⟩

theorem c_array.put_ok {n : Nat} (a : c_array CharT n) {it : Nat} (c : CharT) (h : it < n) :
    ∃ d, c_array.put (a, it) c = Except.ok (d, it + 1) ∧ d.cells = a.cells.set it c := by
  obtain ⟨d, hd, hc⟩ := a.store_ok c h
  refine ⟨d, ?_, hc⟩
  unfold c_array.put
  simp only [hd]
  rfl

/-- Overwriting the first cell after a prefix. -/
theorem set_take_drop (l : List CharT) (it : Nat) (c : CharT) (h : it < l.length) :
    l.set it c = l.take it ++ c :: l.drop (it + 1) := by
  rw [List.set_eq_take_append_cons_drop, if_pos h]

theorem c_array.foldlM_put {n : Nat} (seq : List CharT) :
    ∀ (a : c_array CharT n) (it : Nat), it + seq.length ≤ n →
      ∃ d, seq.foldlM c_array.put (a, it) = Except.ok (d, it + seq.length) ∧
        d.cells = a.cells.take it ++ seq ++ a.cells.drop (it + seq.length) := by
  induction seq with
  | nil =>
    intro a it _
    refine ⟨a, rfl, ?_⟩
    simp
  | cons c cs ih =>
    intro a it h
    have hlen : (c :: cs).length = cs.length + 1 := rfl
    have hit : it < n := by omega
    obtain ⟨d, hd, hc⟩ := a.put_ok c hit
    obtain ⟨e, he, hce⟩ := ih d (it + 1) (by omega)
    refine ⟨e, ?_, ?_⟩
    · rw [List.foldlM_cons, hd]
      show cs.foldlM c_array.put (d, it + 1) = _
      rw [he, hlen]
      congr 2
      omega
    · have hal : it < a.cells.length := by rw [a.extent]; exact hit
      rw [hce, hc, set_take_drop _ _ _ hal]
      have h1 : (List.take it a.cells).length = it := by
        rw [List.length_take]; omega
      have e1 : List.take (it + 1) (List.take it a.cells ++ c :: List.drop (it + 1) a.cells)
          = List.take it a.cells ++ [c] := by
        rw [List.take_append_eq_append_take, h1]
        simp
      have e2 : List.drop (it + 1 + cs.length)
          (List.take it a.cells ++ c :: List.drop (it + 1) a.cells)
          = List.drop (it + (c :: cs).length) a.cells := by
        rw [List.drop_append_eq_append_drop, h1]
        have : List.drop (it + 1 + cs.length) (List.take it a.cells) = [] := by
          apply List.drop_eq_nil_of_le; omega
        rw [this, hlen]
        have : it + 1 + cs.length - it = cs.length + 1 := by omega
        rw [this]
        simp [List.drop_drop]
        congr 1
        omega
      rw [e1, e2]
      simp

theorem c_array.foldlM_range_load {k : Nat} {σ : Type} (src : c_array CharT k)
    (f : σ → CharT → Except fault σ) (count : Nat) (h : count ≤ k) (st : σ) :
    (List.range count).foldlM (fun st i => do let c ← src.load i; f st c) st
      = (src.cells.take count).foldlM f st := by
  induction count with
  | zero => rfl
  | succ m ih =>
    obtain ⟨c, hc, hl⟩ := src.load_lt (i := m) (by omega)
    rw [List.range_succ, List.foldlM_append, ih (by omega), List.take_succ, hc,
      List.foldlM_append]
    congr 1
    funext s
    simp only [Option.toList, List.foldlM_cons, List.foldlM_nil, hl]
    rfl

theorem basic_fixed_string.length_view {N : Nat} (fs : basic_fixed_string CharT N) :
    fs.view.length = N := by
  unfold basic_fixed_string.view basic_string_view basic_fixed_string.data
    basic_fixed_string.size
  rw [List.length_take, fs._data.extent]
  omega

theorem basic_fixed_string.append_to_ok {N n : Nat} (fs : basic_fixed_string CharT N)
    (a : c_array CharT n) (it : Nat) (h : it + N ≤ n) :
    ∃ d, fs.append_to (a, it) = Except.ok (d, it + N) ∧
      d.cells = a.cells.take it ++ fs.view ++ a.cells.drop (it + N) := by
  have hv := fs.length_view
  obtain ⟨d, hd, hc⟩ := c_array.foldlM_put fs.view a it (by omega)
  rw [hv] at hd hc
  refine ⟨d, ?_, hc⟩
  unfold basic_fixed_string.append_to
  rw [c_array.foldlM_range_load fs.data c_array.put fs.size (Nat.le_succ N)]
  exact hd

theorem c_array.append_literal_ok {N2 n : Nat} (lit : c_array CharT N2)
    (a : c_array CharT n) (it : Nat) (h : it + (N2 - 1) ≤ n) :
    ∃ d, lit.append_to (a, it) = Except.ok (d, it + (N2 - 1)) ∧
      d.cells = a.cells.take it ++ basic_string_view lit (N2 - 1)
        ++ a.cells.drop (it + (N2 - 1)) := by
  have hv : (basic_string_view lit (N2 - 1)).length = N2 - 1 := by
    unfold basic_string_view
    rw [List.length_take, lit.extent]
    omega
  obtain ⟨d, hd, hc⟩ := c_array.foldlM_put (basic_string_view lit (N2 - 1)) a it (by omega)
  rw [hv] at hd hc
  refine ⟨d, ?_, hc⟩
  unfold c_array.append_to
  rw [c_array.foldlM_range_load lit c_array.put (N2 - 1) (Nat.sub_le N2 1)]
  exact hd

/-- What the body of the iterator-pair and range constructors leaves in `_data`
when the range has exactly `N` elements. -/
theorem c_array.fill_ok [Zero CharT] {N : Nat} (a : c_array CharT (N + 1)) (seq : List CharT)
    (h : seq.length = N) :
    ∃ d e, seq.foldlM c_array.put (a, 0) = Except.ok (d, N) ∧
      c_array.put (d, N) 0 = Except.ok (e, N + 1) ∧ e.cells = seq ++ [0] := by
  obtain ⟨d, hd, hc⟩ := c_array.foldlM_put seq a 0 (by omega)
  rw [h, Nat.zero_add] at hd hc
  obtain ⟨e, he, hce⟩ := d.put_ok 0 (Nat.lt_succ_self N)
  refine ⟨d, e, hd, he, ?_⟩
  rw [hce, hc]
  have hl : (a.cells.drop N).length = 1 := by
    rw [List.length_drop, a.extent]; omega
  obtain ⟨x, hx⟩ := List.length_eq_one.mp hl
  rw [hx]
  simp only [List.take_zero, List.nil_append]
  rw [show N = seq.length from h.symm]
  simp

theorem iterator_range.remaining_eq (b : build) (r : iterator_range CharT)
    (h : r.multi_pass = true ∨ b.evaluates_expects = false) : r.remaining b = r.elements := by
  unfold iterator_range.remaining iterator_range.after_distance
  rcases h with h | h
  · rw [h]
    simp
  · rw [h]
    simp

/-- The iterator-pair constructor on a range of exactly `N` elements that is
multi-pass, or in a build whose `MTP_EXPECTS` does not evaluate its operand. -/
theorem basic_fixed_string.from_iterators_ok [Zero CharT] {N : Nat} (b : build)
    (this : basic_fixed_string CharT N) (r : iterator_range CharT)
    (h : r.elements.length = N)
    (hm : r.multi_pass = true ∨ b.evaluates_expects = false) :
    ∃ fs, basic_fixed_string.from_iterators b this r = Except.ok fs ∧
      fs._data.cells = r.elements ++ [0] := by
  obtain ⟨d, e, hd, he, hc⟩ := c_array.fill_ok this._data r.elements h
  refine ⟨⟨e⟩, ?_, hc⟩
  unfold basic_fixed_string.from_iterators
  rw [decide_eq_true h, MTP_EXPECTS_holds, iterator_range.remaining_eq b r hm, hd]
  show (c_array.put (d, N) 0 >>= _) = _
  rw [he]
  rfl

/-- The iterator-pair constructor on a pair of pointers, as every `operator+`
calls it. -/
theorem basic_fixed_string.from_pointers_ok [Zero CharT] {N : Nat} (b : build)
    (this : basic_fixed_string CharT N) (seq : List CharT) (h : seq.length = N) :
    ∃ fs, basic_fixed_string.from_iterators b this (pointer_range seq) = Except.ok fs ∧
      fs._data.cells = seq ++ [0] :=
  basic_fixed_string.from_iterators_ok b this (pointer_range seq) h (Or.inl rfl)

theorem basic_fixed_string.from_range_ok [Zero CharT] {N : Nat} (b : build)
    (this : basic_fixed_string CharT N) (rg : List CharT) (h : rg.length = N) :
    ∃ fs, basic_fixed_string.from_range b this rg = Except.ok fs ∧
      fs._data.cells = rg ++ [0] := by
  obtain ⟨d, e, hd, he, hc⟩ := c_array.fill_ok this._data rg h
  refine ⟨⟨e⟩, ?_, hc⟩
  unfold basic_fixed_string.from_range
  rw [decide_eq_true h, MTP_EXPECTS_holds, hd]
  show (c_array.put (d, N) 0 >>= _) = _
  rw [he]
  rfl

theorem ok_bind {α β : Type} (x : α) (f : α → Except fault β) :
    (Except.ok x >>= f) = f x := rfl

theorem c_array.copy_ok {n : Nat} (str : c_array CharT n) (count : Nat) (h : count ≤ n)
    (a : c_array CharT n) :
    ∃ d, (List.range count).foldlM
        (fun (d : c_array CharT n) i => do let c ← str.load i; d.store i c) a = Except.ok d ∧
      d.cells = str.cells.take count ++ a.cells.drop count := by
  induction count with
  | zero => exact ⟨a, rfl, by simp⟩
  | succ m ih =>
    obtain ⟨d, hd, hc⟩ := ih (by omega)
    obtain ⟨c, hc1, hl⟩ := str.load_lt (i := m) (by omega)
    obtain ⟨e, he, hce⟩ := d.store_ok (i := m) c (by omega)
    refine ⟨e, ?_, ?_⟩
    · rw [List.range_succ, List.foldlM_append, hd]
      rw [ok_bind, List.foldlM_cons, hl, ok_bind, he]
      rfl
    · have hld : m < d.cells.length := by rw [d.extent]; omega
      have hls : (List.take m str.cells).length = m := by
        rw [List.length_take, str.extent]; omega
      rw [hce, set_take_drop _ _ _ hld, hc, List.take_succ, hc1]
      rw [List.take_append_eq_append_take, List.drop_append_eq_append_drop, hls]
      have h0 : List.drop (m + 1) (List.take m str.cells) = [] := by
        apply List.drop_eq_nil_of_le; omega
      have h1 : List.take m (List.take m str.cells) = List.take m str.cells := by
        rw [List.take_take]; simp
      rw [h0, h1]
      simp [List.drop_drop]

theorem c_array.eq_of_cells {n : Nat} {a c : c_array CharT n} (h : a.cells = c.cells) :
    a = c := by
  cases a
  cases c
  cases h
  rfl

theorem MTP_EXPECTS_fails (b : build) (h : b.expects ≠ expects_expansion.nothing) :
    MTP_EXPECTS b (Except.ok false) = Except.error fault.contract_violation := by
  cases b with
  | mk e x =>
    cases e
    · rfl
    · rfl
    · exact absurd rfl h

theorem MTP_EXPECTS_nothing (b : build) (h : b.expects = expects_expansion.nothing)
    (cond : Except fault Bool) : MTP_EXPECTS b cond = Except.ok () := by
  unfold MTP_EXPECTS
  rw [h]

/-- The literal constructor in closed form: it returns the literal itself as
`_data` unless `MTP_EXPECTS` expands to a check and the last element is not the
terminator. -/
theorem basic_fixed_string.from_literal_eq [Zero CharT] [DecidableEq CharT] {N : Nat}
    (b : build) (this : basic_fixed_string CharT N) (str : c_array CharT (N + 1)) :
    ∃ c, str.cells[N]? = some c ∧
      basic_fixed_string.from_literal b this str =
        if b.expects = expects_expansion.nothing ∨ c = 0 then Except.ok ⟨str⟩
        else Except.error fault.contract_violation := by
  obtain ⟨c, hc, hl⟩ := str.load_lt (i := N) (Nat.lt_succ_self N)
  obtain ⟨d, hd, hcd⟩ := c_array.copy_ok str (N + 1) (Nat.le_refl _) this._data
  have hds : d = str := by
    apply c_array.eq_of_cells
    rw [hcd, List.take_of_length_le (by rw [str.extent]),
      List.drop_eq_nil_of_le (by rw [this._data.extent]), List.append_nil]
  refine ⟨c, hc, ?_⟩
  unfold basic_fixed_string.from_literal
  rw [hl, hd, hds]
  by_cases hn : b.expects = expects_expansion.nothing
  · rw [if_pos (Or.inl hn), MTP_EXPECTS_nothing b hn]
    rfl
  · by_cases h0 : c = 0
    · rw [if_pos (Or.inr h0)]
      have : (Except.map (fun c => decide (c = 0)) (Except.ok c) : Except fault Bool)
          = Except.ok true := by
        show Except.ok (decide (c = 0)) = _
        rw [decide_eq_true h0]
      rw [this, MTP_EXPECTS_holds]
      rfl
    · rw [if_neg (by rintro (h | h); exact hn h; exact h0 h)]
      have : (Except.map (fun c => decide (c = 0)) (Except.ok c) : Except fault Bool)
          = Except.ok false := by
        show Except.ok (decide (c = 0)) = _
        rw [decide_eq_false h0]
      rw [this, MTP_EXPECTS_fails b hn]
      rfl

theorem basic_fixed_string.view_eq {N : Nat} (fs : basic_fixed_string CharT N) :
    fs.view = fs._data.cells.take N := rfl

theorem basic_fixed_string.view_append [Zero CharT] {N : Nat} (fs : basic_fixed_string CharT N)
    (content : List CharT) (x : CharT) (hl : content.length = N)
    (h : fs._data.cells = content ++ [x]) : fs.view = content ∧ fs._data.cells[N]? = some x := by
  rw [fs.view_eq, h]
  constructor
  · exact List.take_left' hl
  · rw [← hl]
    simp

/-- The cells below the cursor after a block of `count` elements was written at
the cursor. -/
theorem take_splice (l content : List CharT) (it : Nat) (h : it + content.length ≤ l.length) :
    (l.take it ++ content ++ l.drop (it + content.length)).take (it + content.length)
      = l.take it ++ content := by
  apply List.take_left'
  rw [List.length_append, List.length_take]
  omega

theorem basic_fixed_string.append_to_upto {N n : Nat} (fs : basic_fixed_string CharT N)
    (a : c_array CharT n) (it : Nat) (h : it + N ≤ n) :
    ∃ d, fs.append_to (a, it) = Except.ok (d, it + N) ∧
      c_array.upto (d, it + N) = c_array.upto (a, it) ++ fs.view := by
  obtain ⟨d, hd, hc⟩ := fs.append_to_ok a it h
  refine ⟨d, hd, ?_⟩
  have hv := fs.length_view
  unfold c_array.upto
  show d.cells.take (it + N) = a.cells.take it ++ fs.view
  rw [hc]
  have := take_splice a.cells fs.view it (by rw [hv, a.extent]; exact h)
  rw [hv] at this
  exact this

theorem c_array.append_literal_upto {N2 n : Nat} (lit : c_array CharT N2)
    (a : c_array CharT n) (it : Nat) (h : it + (N2 - 1) ≤ n) :
    ∃ d, lit.append_to (a, it) = Except.ok (d, it + (N2 - 1)) ∧
      c_array.upto (d, it + (N2 - 1)) = c_array.upto (a, it) ++ basic_string_view lit (N2 - 1) := by
  obtain ⟨d, hd, hc⟩ := lit.append_literal_ok a it h
  refine ⟨d, hd, ?_⟩
  have hv : (basic_string_view lit (N2 - 1)).length = N2 - 1 := by
    unfold basic_string_view
    rw [List.length_take, lit.extent]
    omega
  show d.cells.take (it + (N2 - 1)) = a.cells.take it ++ basic_string_view lit (N2 - 1)
  rw [hc]
  have := take_splice a.cells (basic_string_view lit (N2 - 1)) it (by rw [hv, a.extent]; exact h)
  rw [hv] at this
  exact this

theorem c_array.put_upto {n : Nat} (a : c_array CharT n) (it : Nat) (c : CharT) (h : it < n) :
    ∃ d, c_array.put (a, it) c = Except.ok (d, it + 1) ∧
      c_array.upto (d, it + 1) = c_array.upto (a, it) ++ [c] := by
  obtain ⟨d, hd, hc⟩ := a.put_ok c h
  refine ⟨d, hd, ?_⟩
  show d.cells.take (it + 1) = a.cells.take it ++ [c]
  have hal : it < a.cells.length := by rw [a.extent]; exact h
  rw [hc, set_take_drop _ _ _ hal]
  have := take_splice a.cells [c] it (by simpa using hal)
  simpa using this

theorem c_array.upto_zero {n : Nat} (a : c_array CharT n) : c_array.upto (a, 0) = [] := rfl

theorem c_array.length_upto {n : Nat} (a : c_array CharT n) (it : Nat) (h : it ≤ n) :
    (c_array.upto (a, it)).length = it := by
  show (a.cells.take it).length = it
  rw [List.length_take, a.extent]
  omega

theorem basic_fixed_string.operator_index_le {N : Nat} (b : build)
    (fs : basic_fixed_string CharT N) (pos : Nat) (h : pos ≤ N) :
    fs.operator_index b pos = fs._data.load pos := by
  unfold basic_fixed_string.operator_index basic_fixed_string.size
  rw [decide_eq_true h, MTP_EXPECTS_holds]
  rfl

theorem operator_plus_ok [Zero CharT] {N N2 : Nat} (b : build) (str : c_array CharT (N + N2))
    (result : basic_fixed_string CharT (N + N2)) (lhs : basic_fixed_string CharT N)
    (rhs : basic_fixed_string CharT N2) :
    ∃ fs, operator_plus b str result lhs rhs = Except.ok fs ∧
      fs._data.cells = lhs.view ++ rhs.view ++ [0] := by
  obtain ⟨d1, h1, u1⟩ := lhs.append_to_upto str 0 (by omega)
  rw [Nat.zero_add] at h1 u1
  obtain ⟨d2, h2, u2⟩ := rhs.append_to_upto d1 N (by omega)
  have hl := c_array.length_upto d2 (N + N2) (by omega)
  obtain ⟨fs, hfs, hc⟩ := basic_fixed_string.from_pointers_ok b result _ hl
  refine ⟨fs, ?_, ?_⟩
  · unfold operator_plus
    rw [h1, ok_bind, h2, ok_bind]
    exact hfs
  · rw [hc, u2, u1, c_array.upto_zero, List.nil_append]

theorem c_array.load_eq_iff {n m : Nat} (a : c_array CharT n) (c : c_array CharT m) (i : Nat) :
    a.load i = c.load i ↔ a.cells[i]? = c.cells[i]? := by
  unfold c_array.load
  cases h1 : a.cells[i]? <;> cases h2 : c.cells[i]? <;> simp

theorem basic_fixed_string.view_getElem? {N : Nat} (fs : basic_fixed_string CharT N) (i : Nat)
    (h : i < N) : fs.view[i]? = fs._data.cells[i]? :=
  List.getElem?_take_of_lt h

theorem basic_fixed_string.view_eq_iff {N N2 : Nat} (lhs : basic_fixed_string CharT N)
    (rhs : basic_fixed_string CharT N2) :
    lhs.view = rhs.view ↔
      N = N2 ∧ ∀ i, i < N → lhs._data.cells[i]? = rhs._data.cells[i]? := by
  constructor
  · intro h
    have hN : N = N2 := by
      rw [← lhs.length_view, ← rhs.length_view, h]
    refine ⟨hN, fun i hi => ?_⟩
    rw [← lhs.view_getElem? i hi, ← rhs.view_getElem? i (hN ▸ hi), h]
  · rintro ⟨hN, hall⟩
    apply List.ext_getElem?
    intro i
    by_cases hi : i < N
    · rw [lhs.view_getElem? i hi, rhs.view_getElem? i (hN ▸ hi)]
      exact hall i hi
    · rw [List.getElem?_eq_none (by rw [lhs.length_view]; omega),
        List.getElem?_eq_none (by rw [rhs.length_view]; omega)]

/-- The cell at the seam of a splice. -/
theorem splice_getElem? (u v : List CharT) (K : Nat) (hu : K ≤ u.length) :
    (u.take K ++ v.drop K)[K]? = v[K]? := by
  have hl : (u.take K).length = K := by rw [List.length_take]; omega
  rw [List.getElem?_append_right (by omega), hl, List.getElem?_drop]
  simp

/-- Moving the seam of a splice one cell to the right. -/
theorem splice_step (u v : List CharT) (K : Nat) (y : CharT) (hu : u[K]? = some y)
    (hv : K < v.length) :
    (u.take K ++ v.drop K).set K y = u.take (K + 1) ++ v.drop (K + 1) := by
  have hK : K < u.length := by
    by_contra hn
    rw [List.getElem?_eq_none (by omega)] at hu
    exact Option.noConfusion hu
  have hl : (u.take K).length = K := by rw [List.length_take]; omega
  have hlen : K < (u.take K ++ v.drop K).length := by
    rw [List.length_append, hl, List.length_drop]; omega
  rw [set_take_drop _ _ _ hlen, List.take_succ, hu, List.take_append_eq_append_take,
    List.drop_append_eq_append_drop, hl]
  have h0 : List.drop (K + 1) (List.take K u) = [] := by
    apply List.drop_eq_nil_of_le; omega
  have h1 : List.take K (List.take K u) = List.take K u := by
    rw [List.take_take]; simp
  rw [h0, h1]
  simp [List.drop_drop]

theorem swap_ranges_ok {n m : Nat} (a : c_array CharT n) (c : c_array CharT m) (count : Nat)
    (h1 : count ≤ n) (h2 : count ≤ m) :
    ∃ a1 c1, swap_ranges a 0 (0 + count) c 0 = Except.ok (a1, c1) ∧
      a1.cells = c.cells.take count ++ a.cells.drop count ∧
      c1.cells = a.cells.take count ++ c.cells.drop count := by
  unfold swap_ranges
  simp only [Nat.zero_add, Nat.sub_zero]
  induction count with
  | zero => exact ⟨a, c, rfl, by simp, by simp⟩
  | succ K ih =>
    obtain ⟨aK, cK, hf, ha, hc⟩ := ih (by omega) (by omega)
    obtain ⟨x, hx, _⟩ := a.load_lt (i := K) (by omega)
    obtain ⟨y, hy, _⟩ := c.load_lt (i := K) (by omega)
    have hxK : aK.cells[K]? = some x := by
      rw [ha, splice_getElem? _ _ _ (by rw [c.extent]; omega)]; exact hx
    have hyK : cK.cells[K]? = some y := by
      rw [hc, splice_getElem? _ _ _ (by rw [a.extent]; omega)]; exact hy
    obtain ⟨a1, hs1, hc1⟩ := aK.store_ok (i := K) y (by omega)
    obtain ⟨c1, hs2, hc2⟩ := cK.store_ok (i := K) x (by omega)
    refine ⟨a1, c1, ?_, ?_, ?_⟩
    · rw [List.range_succ, List.foldlM_append, hf, ok_bind, List.foldlM_cons,
        aK.load_ok hxK, ok_bind, cK.load_ok hyK, ok_bind, hs1, ok_bind, hs2]
      rfl
    · rw [hc1, ha]
      exact splice_step _ _ _ _ hy (by rw [a.extent]; omega)
    · rw [hc2, hc]
      exact splice_step _ _ _ _ hx (by rw [c.extent]; omega)

theorem basic_fixed_string.swap_ok {N : Nat} (a c : basic_fixed_string CharT N) :
    ∃ a1 c1, a.swap c = Except.ok (a1, c1) ∧
      a1._data.cells = c._data.cells.take N ++ a._data.cells.drop N ∧
      c1._data.cells = a._data.cells.take N ++ c._data.cells.drop N := by
  obtain ⟨a1, c1, h, ha, hc⟩ := swap_ranges_ok a._data c._data N (Nat.le_succ N) (Nat.le_succ N)
  refine ⟨⟨a1⟩, ⟨c1⟩, ?_, ha, hc⟩
  unfold basic_fixed_string.swap basic_fixed_string.size
  rw [h]
  rfl

theorem MTP_EXPECTS_terminated [Zero CharT] [DecidableEq CharT] {n : Nat} (b : build)
    (lit : c_array CharT n) (i : Nat) (h : lit.cells[i]? = some 0) :
    MTP_EXPECTS b ((lit.load i).map fun c => decide (c = 0)) = Except.ok () := by
  rw [lit.load_ok h]
  have : (Except.map (fun c => decide (c = 0)) (Except.ok (0 : CharT)) : Except fault Bool)
      = Except.ok true := by
    show Except.ok (decide ((0 : CharT) = 0)) = _
    rw [decide_eq_true rfl]
  rw [this, MTP_EXPECTS_holds]

theorem operator_plus_char_ok [Zero CharT] {N : Nat} (b : build) (str : c_array CharT (N + 1))
    (result : basic_fixed_string CharT (N + 1)) (lhs : basic_fixed_string CharT N)
    (rhs : CharT) :
    ∃ fs, operator_plus_char b str result lhs rhs = Except.ok fs ∧
      fs._data.cells = lhs.view ++ [rhs] ++ [0] := by
  obtain ⟨d1, h1, u1⟩ := lhs.append_to_upto str 0 (by omega)
  rw [Nat.zero_add] at h1 u1
  obtain ⟨d2, h2, u2⟩ := d1.put_upto N rhs (by omega)
  have hl := c_array.length_upto d2 (N + 1) (by omega)
  obtain ⟨fs, hfs, hc⟩ := basic_fixed_string.from_pointers_ok b result _ hl
  refine ⟨fs, ?_, ?_⟩
  · unfold operator_plus_char
    rw [h1, ok_bind, h2, ok_bind]
    exact hfs
  · rw [hc, u2, u1, c_array.upto_zero, List.nil_append]

theorem char_operator_plus_ok [Zero CharT] {N : Nat} (b : build) (str : c_array CharT (N + 1))
    (result : basic_fixed_string CharT (1 + N)) (lhs : CharT)
    (rhs : basic_fixed_string CharT N) :
    ∃ fs, char_operator_plus b str result lhs rhs = Except.ok fs ∧
      fs._data.cells = [lhs] ++ rhs.view ++ [0] := by
  obtain ⟨d1, h1, u1⟩ := str.put_upto 0 lhs (by omega)
  rw [Nat.zero_add] at h1 u1
  obtain ⟨d2, h2, u2⟩ := rhs.append_to_upto d1 1 (by omega)
  have hl := c_array.length_upto d2 (1 + N) (by omega)
  obtain ⟨fs, hfs, hc⟩ := basic_fixed_string.from_pointers_ok b result _ hl
  refine ⟨fs, ?_, ?_⟩
  · unfold char_operator_plus
    rw [h1, ok_bind, h2, ok_bind]
    exact hfs
  · rw [hc, u2, u1, c_array.upto_zero, List.nil_append]

theorem operator_plus_literal_ok [Zero CharT] [DecidableEq CharT] {N N2 : Nat} (b : build)
    (str : c_array CharT (N + (N2 - 1))) (result : basic_fixed_string CharT (N + (N2 - 1)))
    (lhs : basic_fixed_string CharT N) (rhs : c_array CharT N2)
    (h : rhs.cells[N2 - 1]? = some 0) :
    ∃ fs, operator_plus_literal b str result lhs rhs = Except.ok fs ∧
      fs._data.cells = lhs.view ++ basic_string_view rhs (N2 - 1) ++ [0] := by
  obtain ⟨d1, h1, u1⟩ := lhs.append_to_upto str 0 (by omega)
  rw [Nat.zero_add] at h1 u1
  obtain ⟨d2, h2, u2⟩ := rhs.append_literal_upto d1 N (by omega)
  have hl := c_array.length_upto d2 (N + (N2 - 1)) (by omega)
  obtain ⟨fs, hfs, hc⟩ := basic_fixed_string.from_pointers_ok b result _ hl
  refine ⟨fs, ?_, ?_⟩
  · unfold operator_plus_literal
    rw [MTP_EXPECTS_terminated b rhs _ h, ok_bind, h1, ok_bind, h2, ok_bind]
    exact hfs
  · rw [hc, u2, u1, c_array.upto_zero, List.nil_append]

theorem literal_operator_plus_ok [Zero CharT] [DecidableEq CharT] {N N2 : Nat} (b : build)
    (str : c_array CharT ((N2 - 1) + N)) (result : basic_fixed_string CharT ((N2 - 1) + N))
    (lhs : c_array CharT N2) (rhs : basic_fixed_string CharT N)
    (h : lhs.cells[N2 - 1]? = some 0) :
    ∃ fs, literal_operator_plus b str result lhs rhs = Except.ok fs ∧
      fs._data.cells = basic_string_view lhs (N2 - 1) ++ rhs.view ++ [0] := by
  obtain ⟨d1, h1, u1⟩ := lhs.append_literal_upto str 0 (by omega)
  rw [Nat.zero_add] at h1 u1
  obtain ⟨d2, h2, u2⟩ := rhs.append_to_upto d1 (N2 - 1) (by omega)
  have hl := c_array.length_upto d2 ((N2 - 1) + N) (by omega)
  obtain ⟨fs, hfs, hc⟩ := basic_fixed_string.from_pointers_ok b result _ hl
  refine ⟨fs, ?_, ?_⟩
  · unfold literal_operator_plus
    rw [MTP_EXPECTS_terminated b lhs _ h, ok_bind, h1, ok_bind, h2, ok_bind]
    exact hfs
  · rw [hc, u2, u1, c_array.upto_zero, List.nil_append]

/-- The cell after the content of a buffer that is a content followed by one
more element. -/
theorem last_cell {N : Nat} (fs : basic_fixed_string CharT N) (content : List CharT)
    (x : CharT) (h : fs._data.cells = content ++ [x]) : fs._data.cells[N]? = some x := by
  have hl : content.length = N := by
    have := fs._data.extent
    rw [h, List.length_append] at this
    simpa using this
  rw [h, ← hl]
  simp

theorem basic_fixed_string.at_eq {N : Nat} (b : build) (fs : basic_fixed_string CharT N)
    (pos : Nat) :
    fs.at_ b pos =
      if N ≤ pos then (if b.exceptions then Except.error fault.out_of_range
        else fs._data.load pos)
      else fs._data.load pos := by
  unfold basic_fixed_string.at_ basic_fixed_string.size basic_fixed_string.data MTP_THROW
  by_cases h : N ≤ pos
  · cases hb : b.exceptions
    · simp only [ge_iff_le, h, if_true, hb]
      rfl
    · simp only [ge_iff_le, h, if_true, hb]
      rfl
  · simp only [ge_iff_le, h, if_false]
    rfl

theorem basic_fixed_string.eq_of_buffer {N : Nat} {a c : basic_fixed_string CharT N}
    (h : a._data.cells = c._data.cells) : a = c := by
  cases a with
  | mk x =>
    cases c with
    | mk y =>
      have : x = y := c_array.eq_of_cells h
      rw [this]

theorem basic_fixed_string.view_from_chars [Zero CharT] {N : Nat} (chars : List CharT)
    (h : chars.length = N) : (basic_fixed_string.from_chars chars h).view = chars :=
  List.take_left' h

/-- The check `MTP_EXPECTS(lit[i] == CharT{})` in closed form. -/
theorem MTP_EXPECTS_literal [Zero CharT] [DecidableEq CharT] {n : Nat} (b : build)
    (lit : c_array CharT n) (i : Nat) (c : CharT) (h : lit.cells[i]? = some c) :
    MTP_EXPECTS b ((lit.load i).map fun c => decide (c = 0)) =
      if b.expects = expects_expansion.nothing ∨ c = 0 then Except.ok ()
      else Except.error fault.contract_violation := by
  by_cases hn : b.expects = expects_expansion.nothing
  · rw [if_pos (Or.inl hn), MTP_EXPECTS_nothing b hn]
  · by_cases h0 : c = 0
    · rw [if_pos (Or.inr h0)]
      exact MTP_EXPECTS_terminated b lit i (h0 ▸ h)
    · rw [if_neg (by rintro (h1 | h1); exact hn h1; exact h0 h1), lit.load_ok h]
      have : (Except.map (fun c => decide (c = 0)) (Except.ok c) : Except fault Bool)
          = Except.ok false := by
        show Except.ok (decide (c = 0)) = _
        rw [decide_eq_false h0]
      rw [this, MTP_EXPECTS_fails b hn]

theorem error_bind {α β : Type} (e : fault) (f : α → Except fault β) :
    (Except.error e >>= f) = Except.error e := rfl

/-- `fs + lit` in closed form, for a literal of `M + 1` elements. -/
theorem operator_plus_literal_eq [Zero CharT] [DecidableEq CharT] {N M : Nat} (b : build)
    (str : c_array CharT (N + M)) (result : basic_fixed_string CharT (N + M))
    (lhs : basic_fixed_string CharT N) (rhs : c_array CharT (M + 1)) :
    ∃ (c : CharT) (fs : basic_fixed_string CharT (N + M)),
      rhs.cells[M]? = some c ∧ fs._data.cells = lhs.view ++ rhs.cells.take M ++ [0] ∧
      operator_plus_literal b str result lhs rhs =
        if b.expects = expects_expansion.nothing ∨ c = 0 then Except.ok fs
        else Except.error fault.contract_violation := by
  obtain ⟨c, hc, _⟩ := rhs.load_lt (i := M) (Nat.lt_succ_self M)
  obtain ⟨d1, h1, u1⟩ := lhs.append_to_upto str 0 (by omega)
  rw [Nat.zero_add] at h1 u1
  obtain ⟨d2, h2, u2⟩ := rhs.append_literal_upto d1 N (by omega)
  simp only [Nat.add_sub_cancel] at h2 u2
  have hl := c_array.length_upto d2 (N + M) (by omega)
  obtain ⟨fs, hfs, hcells⟩ := basic_fixed_string.from_pointers_ok b result _ hl
  refine ⟨c, fs, hc, ?_, ?_⟩
  · rw [hcells]
    have := u2
    rw [u1, c_array.upto_zero, List.nil_append] at this
    exact congrArg (· ++ [0]) this
  · unfold operator_plus_literal
    simp only [Nat.add_sub_cancel]
    rw [MTP_EXPECTS_literal b rhs _ c hc]
    by_cases hok : b.expects = expects_expansion.nothing ∨ c = 0
    · rw [if_pos hok, if_pos hok, ok_bind, h1, ok_bind, h2, ok_bind]
      exact hfs
    · rw [if_neg hok, if_neg hok, error_bind]

/-- `lit + fs` in closed form, for a literal of `M + 1` elements. -/
theorem literal_operator_plus_eq [Zero CharT] [DecidableEq CharT] {N M : Nat} (b : build)
    (str : c_array CharT (M + N)) (result : basic_fixed_string CharT (M + N))
    (lhs : c_array CharT (M + 1)) (rhs : basic_fixed_string CharT N) :
    ∃ (c : CharT) (fs : basic_fixed_string CharT (M + N)),
      lhs.cells[M]? = some c ∧ fs._data.cells = lhs.cells.take M ++ rhs.view ++ [0] ∧
      literal_operator_plus b str result lhs rhs =
        if b.expects = expects_expansion.nothing ∨ c = 0 then Except.ok fs
        else Except.error fault.contract_violation := by
  obtain ⟨c, hc, _⟩ := lhs.load_lt (i := M) (Nat.lt_succ_self M)
  obtain ⟨d1, h1, u1⟩ := lhs.append_literal_upto str 0 (by omega)
  simp only [Nat.add_sub_cancel, Nat.zero_add] at h1 u1
  obtain ⟨d2, h2, u2⟩ := rhs.append_to_upto d1 M (by omega)
  have hl := c_array.length_upto d2 (M + N) (by omega)
  obtain ⟨fs, hfs, hcells⟩ := basic_fixed_string.from_pointers_ok b result _ hl
  refine ⟨c, fs, hc, ?_, ?_⟩
  · rw [hcells]
    have := u2
    rw [u1, c_array.upto_zero, List.nil_append] at this
    exact congrArg (· ++ [0]) this
  · unfold literal_operator_plus
    simp only [Nat.add_sub_cancel]
    rw [MTP_EXPECTS_literal b lhs _ c hc]
    by_cases hok : b.expects = expects_expansion.nothing ∨ c = 0
    · rw [if_pos hok, if_pos hok, ok_bind, h1, ok_bind, h2, ok_bind]
      exact hfs
    · rw [if_neg hok, if_neg hok, error_bind]

theorem foldlM_collect (l : List CharT) :
    ∀ seen : List CharT,
      l.foldlM (fun (seen : List CharT) c => (pure (seen ++ [c]) : Except fault (List CharT)))
        seen = Except.ok (seen ++ l) := by
  induction l with
  | nil => intro seen; simp [List.foldlM_nil]; rfl
  | cons c cs ih =>
    intro seen
    rw [List.foldlM_cons]
    show cs.foldlM _ (seen ++ [c]) = _
    rw [ih]
    simp

theorem basic_fixed_string.traverse_eq {N : Nat} (fs : basic_fixed_string CharT N) :
    fs.traverse = Except.ok fs.view := by
  unfold basic_fixed_string.traverse basic_fixed_string.end_ basic_fixed_string.begin
    basic_fixed_string.size
  simp only [Nat.zero_add, Nat.sub_zero]
  rw [c_array.foldlM_range_load fs.data
    (fun (seen : List CharT) c => (pure (seen ++ [c]) : Except fault (List CharT))) N
    (Nat.le_succ N)]
  rw [foldlM_collect]
  rfl

theorem basic_fixed_string.at_eq_of_content {N : Nat} (b : build)
    (fs gs : basic_fixed_string CharT N) (pos : Nat)
    (h : ∀ i, i < N → fs._data.cells[i]? = gs._data.cells[i]?)
    (hp : b.exceptions = true ∨ pos ≠ N) : fs.at_ b pos = gs.at_ b pos := by
  rw [fs.at_eq, gs.at_eq]
  by_cases hlt : pos < N
  · have hn : ¬ N ≤ pos := by omega
    simp only [hn, if_false]
    rw [c_array.load_eq_iff]
    exact h pos hlt
  · have hle : N ≤ pos := by omega
    cases hb : b.exceptions
    · have hne : pos ≠ N := by
        rcases hp with hp | hp
        · rw [hb] at hp; exact absurd hp (by decide)
        · exact hp
      have hf : fs._data.cells[pos]? = none :=
        List.getElem?_eq_none (by rw [fs._data.extent]; omega)
      have hg : gs._data.cells[pos]? = none :=
        List.getElem?_eq_none (by rw [gs._data.extent]; omega)
      simp only [hle, if_true, Bool.false_eq_true, if_false]
      rw [c_array.load_eq_iff, hf, hg]
    · simp only [hle, if_true]

theorem map_ok {α β : Type} (f : α → β) (x : α) :
    (Except.map f (Except.ok x) : Except fault β) = Except.ok (f x) := rfl

/-- Reading a content followed by the terminator as a zero-terminated
sequence. -/
theorem read_until_terminator_append [Zero CharT] [DecidableEq CharT] (content : List CharT) :
    ∃ r, read_until_terminator (content ++ [0]) = Except.ok r ∧
      r = content.takeWhile (fun c => decide (c ≠ 0)) ∧
      r.length ≤ content.length ∧
      (content ++ [0])[r.length]? = some 0 ∧
      (∀ j, j < r.length → (content ++ [0])[j]? ≠ some 0) ∧
      r = content.take r.length ∧
      ((∀ c, c ∈ content → c ≠ 0) → r = content) := by
  induction content with
  | nil =>
    refine ⟨[], ?_, rfl, Nat.le_refl _, rfl, ?_, rfl, fun _ => rfl⟩
    · simp [read_until_terminator]
    · intro j hj
      exact absurd hj (Nat.not_lt_zero j)
  | cons c cs ih =>
    obtain ⟨r, hr, htw, hlen, hstop, hbefore, htake, hall⟩ := ih
    by_cases hc : c = 0
    · refine ⟨[], ?_, ?_, Nat.zero_le _, ?_, ?_, rfl, ?_⟩
      · simp [read_until_terminator, hc]
      · simp [List.takeWhile, hc]
      · simp [hc]
      · intro j hj
        exact absurd hj (Nat.not_lt_zero j)
      · intro hno
        exact absurd hc (hno c (List.mem_cons_self c cs))
    · refine ⟨c :: r, ?_, ?_, ?_, ?_, ?_, ?_, ?_⟩
      · show read_until_terminator (c :: (cs ++ [0])) = _
        unfold read_until_terminator
        rw [if_neg hc, hr, map_ok]
      · rw [List.takeWhile_cons_of_pos (by simpa using hc), ← htw]
      · simpa using hlen
      · simpa using hstop
      · intro j hj
        cases j with
        | zero =>
          simp
          exact hc
        | succ j =>
          have := hbefore j (by simpa using hj)
          simpa using this
      · simp
        exact htake
      · intro hno
        rw [hall (fun x hx => hno x (List.mem_cons_of_mem c hx))]

/-- The buffer of an instance with the terminator at index `N` is its content
view followed by the terminator. -/
theorem basic_fixed_string.cells_of_terminated [Zero CharT] {N : Nat}
    (fs : basic_fixed_string CharT N) (h : fs._data.cells[N]? = some 0) :
    fs._data.cells = fs.view ++ [0] := by
  have h1 : fs._data.cells.take (N + 1) = fs._data.cells :=
    List.take_of_length_le (by rw [fs._data.extent])
  rw [← h1, List.take_succ, h]
  rfl

theorem c_strcmp_cells_eq [Zero CharT] [DecidableEq CharT] (l1 : List CharT) :
    ∀ (l2 r1 r2 : List CharT), read_until_terminator l1 = Except.ok r1 →
      read_until_terminator l2 = Except.ok r2 →
      c_strcmp_cells l1 l2 = Except.ok (decide (r1 = r2)) := by
  induction l1 with
  | nil =>
    intro l2 r1 r2 h1 _
    exact Except.noConfusion h1
  | cons a as ih =>
    intro l2 r1 r2 h1 h2
    cases l2 with
    | nil => exact Except.noConfusion h2
    | cons c cs =>
      unfold read_until_terminator at h1 h2
      unfold c_strcmp_cells
      by_cases ha : a = 0
      · rw [if_pos ha] at h1
        have hr1 : r1 = [] := (Except.ok.inj h1).symm
        rw [if_neg (fun hh => hh.1 ha), hr1]
        by_cases hc : c = 0
        · rw [if_pos hc] at h2
          have hr2 : r2 = [] := (Except.ok.inj h2).symm
          rw [hr2, ha, hc]
          simp
        · rw [if_neg hc] at h2
          cases hcs : read_until_terminator cs with
          | error e => rw [hcs] at h2; exact Except.noConfusion h2
          | ok t =>
            rw [hcs, map_ok] at h2
            have hr2 : r2 = c :: t := (Except.ok.inj h2).symm
            rw [hr2, ha]
            have : ¬ (0 : CharT) = c := fun hh => hc hh.symm
            simp [this]
      · rw [if_neg ha] at h1
        cases has : read_until_terminator as with
        | error e => rw [has] at h1; exact Except.noConfusion h1
        | ok s =>
          rw [has, map_ok] at h1
          have hr1 : r1 = a :: s := (Except.ok.inj h1).symm
          by_cases hac : a = c
          · have hc : ¬ c = 0 := fun hh => ha (hac.trans hh)
            rw [if_neg hc] at h2
            cases hcs : read_until_terminator cs with
            | error e => rw [hcs] at h2; exact Except.noConfusion h2
            | ok t =>
              rw [hcs, map_ok] at h2
              have hr2 : r2 = c :: t := (Except.ok.inj h2).symm
              rw [if_pos ⟨ha, hac⟩, ih cs s t has hcs, hr1, hr2, hac]
              simp
          · rw [if_neg (fun hh => hac hh.2), hr1]
            by_cases hc : c = 0
            · rw [if_pos hc] at h2
              have hr2 : r2 = [] := (Except.ok.inj h2).symm
              rw [hr2]
              simp [hac]
            · rw [if_neg hc] at h2
              cases hcs : read_until_terminator cs with
              | error e => rw [hcs] at h2; exact Except.noConfusion h2
              | ok t =>
                rw [hcs, map_ok] at h2
                have hr2 : r2 = c :: t := (Except.ok.inj h2).symm
                rw [hr2]
                simp [hac]

/-- The precondition `MTP_EXPECTS(std::distance(first, last) == N)` of the
iterator-pair constructor on a range of exactly `N` elements. -/
theorem MTP_EXPECTS_distance (b : build) (seq : List CharT) (n : Nat) (h : seq.length = n) :
    MTP_EXPECTS b (Except.ok (decide (seq.length = n))) = Except.ok () := by
  rw [decide_eq_true h, MTP_EXPECTS_holds]

/-- What the iterator-pair constructor, and the range constructor, return on a
range of exactly `N` elements, for a multi-pass range or in a build whose
`MTP_EXPECTS` does not evaluate its operand. -/
theorem basic_fixed_string.from_iterators_view [Zero CharT] {N : Nat} (b : build)
    (this : basic_fixed_string CharT N) (r : iterator_range CharT)
    (h : r.elements.length = N)
    (hm : r.multi_pass = true ∨ b.evaluates_expects = false) :
    (∃ fs, basic_fixed_string.from_iterators b this r = Except.ok fs ∧
      fs.view = r.elements ∧ fs._data.cells[N]? = some 0 ∧
      fs.operator_index b N = Except.ok 0) ∧
    (∃ fs, basic_fixed_string.from_range b this r.elements = Except.ok fs ∧
      fs.view = r.elements ∧ fs._data.cells[N]? = some 0 ∧
      fs.operator_index b N = Except.ok 0) := by
  constructor
  · obtain ⟨fs, hfs, hc⟩ := basic_fixed_string.from_iterators_ok b this r h hm
    obtain ⟨hv, ht⟩ := fs.view_append r.elements 0 h hc
    refine ⟨fs, hfs, hv, ht, ?_⟩
    rw [basic_fixed_string.operator_index_le b _ N (Nat.le_refl N)]
    exact c_array.load_ok _ ht
  · obtain ⟨fs, hfs, hc⟩ := basic_fixed_string.from_range_ok b this r.elements h
    obtain ⟨hv, ht⟩ := fs.view_append r.elements 0 h hc
    refine ⟨fs, hfs, hv, ht, ?_⟩
    rw [basic_fixed_string.operator_index_le b _ N (Nat.le_refl N)]
    exact c_array.load_ok _ ht

theorem operator_plus_view [Zero CharT] {N N2 : Nat} (b : build) (str : c_array CharT (N + N2))
    (result : basic_fixed_string CharT (N + N2)) (lhs : basic_fixed_string CharT N)
    (rhs : basic_fixed_string CharT N2) :
    ∃ fs, operator_plus b str result lhs rhs = Except.ok fs ∧
      fs.view = lhs.view ++ rhs.view ∧ fs._data.cells = fs.view ++ [0] := by
  obtain ⟨fs, hfs, hc⟩ := operator_plus_ok b str result lhs rhs
  have hl : (lhs.view ++ rhs.view).length = N + N2 := by
    rw [List.length_append, lhs.length_view, rhs.length_view]
  have hv := (fs.view_append _ 0 hl hc).1
  exact ⟨fs, hfs, hv, by rw [hv]; exact hc⟩

theorem operator_plus_char_view [Zero CharT] {N : Nat} (b : build)
    (str : c_array CharT (N + 1)) (result : basic_fixed_string CharT (N + 1))
    (lhs : basic_fixed_string CharT N) (rhs : CharT) :
    ∃ fs, operator_plus_char b str result lhs rhs = Except.ok fs ∧
      fs.view = lhs.view ++ [rhs] ∧ fs._data.cells = fs.view ++ [0] := by
  obtain ⟨fs, hfs, hc⟩ := operator_plus_char_ok b str result lhs rhs
  have hl : (lhs.view ++ [rhs]).length = N + 1 := by
    rw [List.length_append, lhs.length_view]; rfl
  have hv := (fs.view_append _ 0 hl hc).1
  exact ⟨fs, hfs, hv, by rw [hv]; exact hc⟩

theorem char_operator_plus_view [Zero CharT] {N : Nat} (b : build)
    (str : c_array CharT (N + 1)) (result : basic_fixed_string CharT (1 + N))
    (lhs : CharT) (rhs : basic_fixed_string CharT N) :
    ∃ fs, char_operator_plus b str result lhs rhs = Except.ok fs ∧
      fs.view = [lhs] ++ rhs.view ∧ fs._data.cells = fs.view ++ [0] := by
  obtain ⟨fs, hfs, hc⟩ := char_operator_plus_ok b str result lhs rhs
  have hl : ([lhs] ++ rhs.view).length = 1 + N := by
    rw [List.length_append, rhs.length_view]; rfl
  have hv := (fs.view_append _ 0 hl hc).1
  exact ⟨fs, hfs, hv, by rw [hv]; exact hc⟩

theorem operator_plus_literal_view [Zero CharT] [DecidableEq CharT] {N M : Nat} (b : build)
    (str : c_array CharT (N + M)) (result : basic_fixed_string CharT (N + M))
    (lhs : basic_fixed_string CharT N) (rhs : c_array CharT (M + 1))
    (h : rhs.cells[M]? = some 0) :
    ∃ fs, operator_plus_literal b str result lhs rhs = Except.ok fs ∧
      fs.view = lhs.view ++ rhs.cells.take M ∧ fs._data.cells = fs.view ++ [0] := by
  obtain ⟨c, fs, hc, hcells, hop⟩ := operator_plus_literal_eq b str result lhs rhs
  have hc0 : c = 0 := Option.some.inj (hc.symm.trans h)
  rw [if_pos (Or.inr hc0)] at hop
  have lm : (rhs.cells.take M).length = M := by
    rw [List.length_take, rhs.extent]; omega
  have hl : (lhs.view ++ rhs.cells.take M).length = N + M := by
    rw [List.length_append, lhs.length_view, lm]
  have hv := (fs.view_append _ 0 hl hcells).1
  exact ⟨fs, hop, hv, by rw [hv]; exact hcells⟩

theorem literal_operator_plus_view [Zero CharT] [DecidableEq CharT] {N M : Nat} (b : build)
    (str : c_array CharT (M + N)) (result : basic_fixed_string CharT (M + N))
    (lhs : c_array CharT (M + 1)) (rhs : basic_fixed_string CharT N)
    (h : lhs.cells[M]? = some 0) :
    ∃ fs, literal_operator_plus b str result lhs rhs = Except.ok fs ∧
      fs.view = lhs.cells.take M ++ rhs.view ∧ fs._data.cells = fs.view ++ [0] := by
  obtain ⟨c, fs, hc, hcells, hop⟩ := literal_operator_plus_eq b str result lhs rhs
  have hc0 : c = 0 := Option.some.inj (hc.symm.trans h)
  rw [if_pos (Or.inr hc0)] at hop
  have lm : (lhs.cells.take M).length = M := by
    rw [List.length_take, lhs.extent]; omega
  have hl : (lhs.cells.take M ++ rhs.view).length = M + N := by
    rw [List.length_append, rhs.length_view, lm]
  have hv := (fs.view_append _ 0 hl hcells).1
  exact ⟨fs, hop, hv, by rw [hv]; exact hcells⟩

/-- Outcome of `fs + lit` for every array `lit`: it returns where the build
leaves the assertion out or `lit` ends in the terminator, and fails by the
assertion otherwise. -/
theorem operator_plus_literal_outcome [Zero CharT] [DecidableEq CharT] {N M : Nat} (b : build)
    (str : c_array CharT (N + M)) (result : basic_fixed_string CharT (N + M))
    (lhs : basic_fixed_string CharT N) (rhs : c_array CharT (M + 1)) :
    ((b.expects = expects_expansion.nothing ∨ rhs.cells[M]? = some 0) →
      ∃ fs, operator_plus_literal b str result lhs rhs = Except.ok fs ∧
        fs.view = lhs.view ++ rhs.cells.take M ∧ fs._data.cells = fs.view ++ [0]) ∧
    (¬ (b.expects = expects_expansion.nothing ∨ rhs.cells[M]? = some 0) →
      operator_plus_literal b str result lhs rhs = Except.error fault.contract_violation) := by
  obtain ⟨c, fs, hc, hcells, hop⟩ := operator_plus_literal_eq b str result lhs rhs
  have hiff : (b.expects = expects_expansion.nothing ∨ c = 0) ↔
      (b.expects = expects_expansion.nothing ∨ rhs.cells[M]? = some 0) := by
    rw [hc]
    exact or_congr Iff.rfl ⟨fun h => congrArg some h, fun h => Option.some.inj h⟩
  constructor
  · intro h
    rw [if_pos (hiff.mpr h)] at hop
    have lm : (rhs.cells.take M).length = M := by
      rw [List.length_take, rhs.extent]; omega
    have hl : (lhs.view ++ rhs.cells.take M).length = N + M := by
      rw [List.length_append, lhs.length_view, lm]
    have hv := (fs.view_append _ 0 hl hcells).1
    exact ⟨fs, hop, hv, by rw [hv]; exact hcells⟩
  · intro h
    rw [if_neg (fun hh => h (hiff.mp hh))] at hop
    exact hop

/-- Outcome of `lit + fs` for every array `lit`. -/
theorem literal_operator_plus_outcome [Zero CharT] [DecidableEq CharT] {N M : Nat} (b : build)
    (str : c_array CharT (M + N)) (result : basic_fixed_string CharT (M + N))
    (lhs : c_array CharT (M + 1)) (rhs : basic_fixed_string CharT N) :
    ((b.expects = expects_expansion.nothing ∨ lhs.cells[M]? = some 0) →
      ∃ fs, literal_operator_plus b str result lhs rhs = Except.ok fs ∧
        fs.view = lhs.cells.take M ++ rhs.view ∧ fs._data.cells = fs.view ++ [0]) ∧
    (¬ (b.expects = expects_expansion.nothing ∨ lhs.cells[M]? = some 0) →
      literal_operator_plus b str result lhs rhs = Except.error fault.contract_violation) := by
  obtain ⟨c, fs, hc, hcells, hop⟩ := literal_operator_plus_eq b str result lhs rhs
  have hiff : (b.expects = expects_expansion.nothing ∨ c = 0) ↔
      (b.expects = expects_expansion.nothing ∨ lhs.cells[M]? = some 0) := by
    rw [hc]
    exact or_congr Iff.rfl ⟨fun h => congrArg some h, fun h => Option.some.inj h⟩
  constructor
  · intro h
    rw [if_pos (hiff.mpr h)] at hop
    have lm : (lhs.cells.take M).length = M := by
      rw [List.length_take, lhs.extent]; omega
    have hl : (lhs.cells.take M ++ rhs.view).length = M + N := by
      rw [List.length_append, rhs.length_view, lm]
    have hv := (fs.view_append _ 0 hl hcells).1
    exact ⟨fs, hop, hv, by rw [hv]; exact hcells⟩
  · intro h
    rw [if_neg (fun hh => h (hiff.mp hh))] at hop
    exact hop

theorem map_error {α β : Type} (f : α → β) (e : fault) :
    (Except.map f (Except.error e) : Except fault β) = Except.error e := rfl

end lemmas

section order_lemmas

variable {CharT : Type} [LinearOrder CharT]

theorem basic_string_view_compare_nil_cons (q : CharT) (qs : List CharT) :
    basic_string_view_compare [] (q :: qs) = Ordering.lt := by
  simp [basic_string_view_compare, char_traits_compare]

theorem basic_string_view_compare_cons_nil (p : CharT) (ps : List CharT) :
    basic_string_view_compare (p :: ps) [] = Ordering.gt := by
  simp [basic_string_view_compare, char_traits_compare]

theorem basic_string_view_compare_nil_nil :
    basic_string_view_compare ([] : List CharT) [] = Ordering.eq := by
  simp [basic_string_view_compare, char_traits_compare]

theorem basic_string_view_compare_cons_cons (p q : CharT) (ps qs : List CharT) :
    basic_string_view_compare (p :: ps) (q :: qs) =
      if p < q then Ordering.lt else if q < p then Ordering.gt
      else basic_string_view_compare ps qs := by
  unfold basic_string_view_compare
  simp only [List.length_cons, Nat.succ_min_succ, char_traits_compare,
    Nat.add_lt_add_iff_right, Nat.add_right_cancel_iff]
  by_cases h1 : p < q
  · simp [h1]
  · by_cases h2 : q < p
    · simp [h1, h2]
    · simp [h1, h2]

theorem basic_string_view_compare_eq_iff (x : List CharT) :
    ∀ y : List CharT, basic_string_view_compare x y = Ordering.eq ↔ x = y := by
  induction x with
  | nil =>
    intro y
    cases y with
    | nil => simp [basic_string_view_compare_nil_nil]
    | cons q qs => simp [basic_string_view_compare_nil_cons]
  | cons p ps ih =>
    intro y
    cases y with
    | nil => simp [basic_string_view_compare_cons_nil]
    | cons q qs =>
      rw [basic_string_view_compare_cons_cons]
      by_cases h1 : p < q
      · simp [h1, ne_of_lt h1]
      · by_cases h2 : q < p
        · simp [h1, h2, (ne_of_lt h2).symm]
        · have hpq : p = q := le_antisymm (not_lt.mp h2) (not_lt.mp h1)
          simp [h1, h2, hpq, ih]

theorem basic_string_view_compare_swap (x : List CharT) :
    ∀ y : List CharT, basic_string_view_compare y x = (basic_string_view_compare x y).swap := by
  induction x with
  | nil =>
    intro y
    cases y with
    | nil => rw [basic_string_view_compare_nil_nil]; rfl
    | cons q qs =>
      rw [basic_string_view_compare_nil_cons, basic_string_view_compare_cons_nil]; rfl
  | cons p ps ih =>
    intro y
    cases y with
    | nil => rw [basic_string_view_compare_nil_cons, basic_string_view_compare_cons_nil]; rfl
    | cons q qs =>
      rw [basic_string_view_compare_cons_cons, basic_string_view_compare_cons_cons]
      by_cases h1 : p < q
      · rw [if_pos h1, if_neg (not_lt_of_lt h1), if_pos h1]; rfl
      · by_cases h2 : q < p
        · rw [if_pos h2, if_neg h1, if_pos h2]; rfl
        · rw [if_neg h2, if_neg h1, if_neg h1, if_neg h2]
          exact ih qs

/-- `x` orders before `y` in the words of the standard: `x` is a proper prefix of
`y`, or at the first index where they differ the element of `x` is smaller. -/
theorem basic_string_view_compare_lt_iff (x : List CharT) :
    ∀ y : List CharT, basic_string_view_compare x y = Ordering.lt ↔
      ((x.length < y.length ∧ ∀ i : Nat, i < x.length → x[i]? = y[i]?) ∨
        ∃ (k : Nat) (p q : CharT), x[k]? = some p ∧ y[k]? = some q ∧ p < q ∧
          ∀ i : Nat, i < k → x[i]? = y[i]?) := by
  induction x with
  | nil =>
    intro y
    cases y with
    | nil => simp [basic_string_view_compare_nil_nil]
    | cons q qs => simp [basic_string_view_compare_nil_cons]
  | cons p ps ih =>
    intro y
    cases y with
    | nil => simp [basic_string_view_compare_cons_nil]
    | cons q qs =>
      rw [basic_string_view_compare_cons_cons]
      by_cases h1 : p < q
      · rw [if_pos h1]
        refine iff_of_true rfl (Or.inr ⟨0, p, q, by simp, by simp, h1, ?_⟩)
        intro i hi
        exact absurd hi (Nat.not_lt_zero i)
      · rw [if_neg h1]
        by_cases h2 : q < p
        · rw [if_pos h2]
          refine iff_of_false (by decide) ?_
          rintro (⟨_, hall⟩ | ⟨k, a, c, hx, hy, hlt, hall⟩)
          · have := hall 0 (Nat.succ_pos _)
            simp at this
            exact (ne_of_lt h2) this.symm
          · cases k with
            | zero =>
              simp at hx hy
              subst hx; subst hy
              exact h1 hlt
            | succ k =>
              have := hall 0 (Nat.succ_pos _)
              simp at this
              exact (ne_of_lt h2) this.symm
        · rw [if_neg h2, ih qs]
          have hpq : p = q := le_antisymm (not_lt.mp h2) (not_lt.mp h1)
          subst hpq
          constructor
          · rintro (⟨hlen, hall⟩ | ⟨k, a, c, hx, hy, hlt, hall⟩)
            · refine Or.inl ⟨by simpa using hlen, ?_⟩
              intro i hi
              cases i with
              | zero => simp
              | succ i => simpa using hall i (by simpa using hi)
            · refine Or.inr ⟨k + 1, a, c, by simpa using hx, by simpa using hy, hlt, ?_⟩
              intro i hi
              cases i with
              | zero => simp
              | succ i => simpa using hall i (by omega)
          · rintro (⟨hlen, hall⟩ | ⟨k, a, c, hx, hy, hlt, hall⟩)
            · refine Or.inl ⟨by simpa using hlen, ?_⟩
              intro i hi
              simpa using hall (i + 1) (by simpa using hi)
            · cases k with
              | zero =>
                simp at hx hy
                subst hx; subst hy
                exact absurd hlt (lt_irrefl _)
              | succ k =>
                refine Or.inr ⟨k, a, c, by simpa using hx, by simpa using hy, hlt, ?_⟩
                intro i hi
                simpa using hall (i + 1) (by omega)

theorem basic_string_view_eq_iff (x y : List CharT) :
    basic_string_view_eq x y = true ↔ x = y := by
  unfold basic_string_view_eq
  rw [← basic_string_view_compare_eq_iff x y]
  cases basic_string_view_compare x y <;> decide

theorem basic_string_view_compare_lt_trans (x : List CharT) :
    ∀ y z : List CharT, basic_string_view_compare x y = Ordering.lt →
      basic_string_view_compare y z = Ordering.lt →
      basic_string_view_compare x z = Ordering.lt := by
  induction x with
  | nil =>
    intro y z h1 h2
    cases y with
    | nil => rw [basic_string_view_compare_nil_nil] at h1; exact absurd h1 (by decide)
    | cons q qs =>
      cases z with
      | nil => rw [basic_string_view_compare_cons_nil] at h2; exact absurd h2 (by decide)
      | cons r rs => exact basic_string_view_compare_nil_cons r rs
  | cons p ps ih =>
    intro y z h1 h2
    cases y with
    | nil => rw [basic_string_view_compare_cons_nil] at h1; exact absurd h1 (by decide)
    | cons q qs =>
      cases z with
      | nil => rw [basic_string_view_compare_cons_nil] at h2; exact absurd h2 (by decide)
      | cons r rs =>
        rw [basic_string_view_compare_cons_cons] at h1 h2 ⊢
        rcases lt_trichotomy p q with hpq | hpq | hpq
        · rcases lt_trichotomy q r with hqr | hqr | hqr
          · rw [if_pos (lt_trans hpq hqr)]
          · rw [if_pos (hqr ▸ hpq)]
          · rw [if_neg (lt_asymm hqr), if_pos hqr] at h2
            exact absurd h2 (by decide)
        · subst hpq
          rw [if_neg (lt_irrefl p), if_neg (lt_irrefl p)] at h1
          rcases lt_trichotomy p r with hqr | hqr | hqr
          · rw [if_pos hqr]
          · subst hqr
            rw [if_neg (lt_irrefl p), if_neg (lt_irrefl p)] at h2 ⊢
            exact ih qs rs h1 h2
          · rw [if_neg (lt_asymm hqr), if_pos hqr] at h2
            exact absurd h2 (by decide)
        · rw [if_neg (lt_asymm hpq), if_pos hpq] at h1
          exact absurd h1 (by decide)

theorem basic_string_view_compare_le_trans (x : List CharT) :
    ∀ y z : List CharT, basic_string_view_compare x y ≠ Ordering.gt →
      basic_string_view_compare y z ≠ Ordering.gt →
      basic_string_view_compare x z ≠ Ordering.gt := by
  induction x with
  | nil =>
    intro y z _ _
    cases z with
    | nil => rw [basic_string_view_compare_nil_nil]; decide
    | cons r rs => rw [basic_string_view_compare_nil_cons]; decide
  | cons p ps ih =>
    intro y z h1 h2
    cases y with
    | nil => exact absurd (basic_string_view_compare_cons_nil p ps) h1
    | cons q qs =>
      cases z with
      | nil => exact absurd (basic_string_view_compare_cons_nil q qs) h2
      | cons r rs =>
        rw [basic_string_view_compare_cons_cons] at h1 h2 ⊢
        rcases lt_trichotomy p q with hpq | hpq | hpq
        · rcases lt_trichotomy q r with hqr | hqr | hqr
          · rw [if_pos (lt_trans hpq hqr)]; decide
          · rw [if_pos (hqr ▸ hpq)]; decide
          · rw [if_neg (lt_asymm hqr), if_pos hqr] at h2
            exact absurd rfl h2
        · subst hpq
          rw [if_neg (lt_irrefl p), if_neg (lt_irrefl p)] at h1
          rcases lt_trichotomy p r with hqr | hqr | hqr
          · rw [if_pos hqr]; decide
          · subst hqr
            rw [if_neg (lt_irrefl p), if_neg (lt_irrefl p)] at h2 ⊢
            exact ih qs rs h1 h2
          · rw [if_neg (lt_asymm hqr), if_pos hqr] at h2
            exact absurd rfl h2
        · rw [if_neg (lt_asymm hpq), if_pos hpq] at h1
          exact absurd rfl h1

theorem operator_lt_iff {N N2 : Nat} (a : basic_fixed_string CharT N)
    (c : basic_fixed_string CharT N2) :
    operator_lt a c = true ↔ basic_string_view_compare a.view c.view = Ordering.lt := by
  unfold operator_lt operator_spaceship basic_string_view_spaceship
  cases basic_string_view_compare a.view c.view <;> decide

/-- `!(c < a)` in terms of the comparison of the views of `a` and `c`. -/
theorem operator_lt_eq_false_iff {N N2 : Nat} (a : basic_fixed_string CharT N)
    (c : basic_fixed_string CharT N2) :
    operator_lt c a = false ↔ basic_string_view_compare a.view c.view ≠ Ordering.gt := by
  unfold operator_lt operator_spaceship basic_string_view_spaceship
  rw [basic_string_view_compare_swap a.view c.view]
  cases basic_string_view_compare a.view c.view <;> decide

/-- Two results whose buffers are their views followed by the terminator hold
the same buffer and compare equal once their views agree. -/
theorem same_buffer [Zero CharT] {N N2 : Nat} (x : basic_fixed_string CharT N)
    (y : basic_fixed_string CharT N2) (A B : List CharT)
    (vx : x.view = A) (cx : x._data.cells = x.view ++ [0])
    (vy : y.view = B) (cy : y._data.cells = y.view ++ [0]) (hAB : A = B) :
    x._data.cells = y._data.cells ∧ operator_eq x y = true := by
  have hv : x.view = y.view := by rw [vx, vy, hAB]
  constructor
  · rw [cx, cy, hv]
  · unfold operator_eq
    rw [basic_string_view_eq_iff, hv]

end order_lemmas

section claims

variable {CharT : Type}

/-- C1. Literal construction round trip: for every `N` and every array `str` of
`N + 1` elements whose last element is the terminator, the literal constructor
returns an instance whose content view has length `N` and equals
`str[0 .. N-1]` element for element, whatever the content holds, and whose
element at index `N` is the terminator.  This holds in every build and for
every prior state of the storage. -/
theorem literal_construction_round_trip [Zero CharT] [DecidableEq CharT] {N : Nat}
    (b : build) (this : basic_fixed_string CharT N) (str : c_array CharT (N + 1))
    (h : str.cells[N]? = some 0) :
    ∃ fs, basic_fixed_string.from_literal b this str = Except.ok fs ∧
      fs.view.length = N ∧
      (∀ i, i < N → fs.view[i]? = str.cells[i]?) ∧
      fs.view = str.cells.take N ∧
      fs._data.cells[N]? = some 0 ∧
      fs.operator_index b N = Except.ok 0 := by
  obtain ⟨c, hc, he⟩ := basic_fixed_string.from_literal_eq b this str
  have hc0 : c = 0 := Option.some.inj (hc.symm.trans h)
  rw [if_pos (Or.inr hc0)] at he
  refine ⟨⟨str⟩, he, ?_, ?_, rfl, h, ?_⟩
  · exact basic_fixed_string.length_view _
  · intro i hi
    show (str.cells.take N)[i]? = str.cells[i]?
    exact List.getElem?_take_of_lt hi
  · rw [basic_fixed_string.operator_index_le b _ N (Nat.le_refl N)]
    exact c_array.load_ok _ h

/-- C1 at the literal `{ '1', '\0', '3', '\0' }`. -/
theorem literal_construction_round_trip_witness :
    sl_1_0_3.cells[3]? = some 0 ∧
    ∃ fs, basic_fixed_string.from_literal gnu_build (storage 3) sl_1_0_3 = Except.ok fs ∧
      fs.view.length = 3 ∧
      (∀ i, i < 3 → fs.view[i]? = sl_1_0_3.cells[i]?) ∧
      fs.view = sl_1_0_3.cells.take 3 ∧
      fs._data.cells[3]? = some 0 ∧
      fs.operator_index gnu_build 3 = Except.ok 0 :=
  ⟨by decide, literal_construction_round_trip gnu_build (storage 3) sl_1_0_3 (by decide)⟩

/-- C2 is broken by the code on a single-pass range.  In the build of GCC or
Clang, `MTP_EXPECTS(std::distance(first, last) == N)` walks a copy of `first`
over the three elements of an `std::istream_iterator` range holding `"abc"`
and drains it, so the loop copies only the element `first` still holds: the
buffer is `{ 'a', '\0', 0xAA, 0xAA }`, its view is not the input and its
element at index 3 is not the terminator.  The range constructor, and the same
constructor on a pair of pointers, do what the claim says on the same input. -/
theorem iterator_pair_construction_single_pass :
    basic_fixed_string.from_iterators gnu_build (storage 3) stream_abc
      = Except.ok ⟨⟨[97, 0, 170, 170], rfl⟩⟩ ∧
    stream_abc.elements.length = 3 ∧
    ¬ (∃ fs, basic_fixed_string.from_iterators gnu_build (storage 3) stream_abc = Except.ok fs ∧
      fs.view = stream_abc.elements ∧ fs._data.cells[3]? = some 0) ∧
    basic_fixed_string.from_range gnu_build (storage 3) stream_abc.elements
      = Except.ok ⟨⟨[97, 98, 99, 0], rfl⟩⟩ ∧
    basic_fixed_string.from_iterators gnu_build (storage 3) (pointer_range [97, 98, 99])
      = Except.ok ⟨⟨[97, 98, 99, 0], rfl⟩⟩ := by
  have h1 : basic_fixed_string.from_iterators gnu_build (storage 3) stream_abc
      = Except.ok ⟨⟨[97, 0, 170, 170], rfl⟩⟩ := by decide
  refine ⟨h1, rfl, ?_, by decide, by decide⟩
  rintro ⟨fs, h, hv, _⟩
  have h2 := Except.ok.inj (h1.symm.trans h)
  rw [← h2] at hv
  exact absurd hv (by decide)

/-- C3. Concatenation of two instances: for every `lhs` of length `N` and `rhs`
of length `N2`, `lhs + rhs` returns an instance of length `N + N2` whose content
view is the view of `lhs` followed by the view of `rhs`, with nothing between
them, and whose element at index `N + N2` is the terminator.  This holds in
every build, for every prior state of the scratch array and of the result, and
whatever the operands hold at their own last index. -/
theorem concatenation_of_instances [Zero CharT] {N N2 : Nat} (b : build)
    (str : c_array CharT (N + N2)) (result : basic_fixed_string CharT (N + N2))
    (lhs : basic_fixed_string CharT N) (rhs : basic_fixed_string CharT N2) :
    ∃ fs, operator_plus b str result lhs rhs = Except.ok fs ∧
      fs.size = N + N2 ∧
      fs.view = lhs.view ++ rhs.view ∧
      fs._data.cells[N + N2]? = some 0 ∧
      fs.operator_index b (N + N2) = Except.ok 0 := by
  obtain ⟨fs, hfs, hc⟩ := operator_plus_ok b str result lhs rhs
  have hl : (lhs.view ++ rhs.view).length = N + N2 := by
    rw [List.length_append, lhs.length_view, rhs.length_view]
  obtain ⟨hv, ht⟩ := fs.view_append _ 0 hl hc
  refine ⟨fs, hfs, rfl, hv, ht, ?_⟩
  rw [basic_fixed_string.operator_index_le b _ _ (Nat.le_refl _)]
  exact c_array.load_ok _ ht

/-- C4. Equality is content equality across lengths: `lhs == rhs` is true if and
only if `N = N2` and `lhs[i] = rhs[i]` for every `i < N`; whenever `N` differs
from `N2` the result is `false`.  The operator is a total function to `bool`,
so no input makes it fail. -/
theorem equality_is_content_equality [LinearOrder CharT] {N N2 : Nat} (b : build)
    (lhs : basic_fixed_string CharT N) (rhs : basic_fixed_string CharT N2) :
    (operator_eq lhs rhs = true ↔
      N = N2 ∧ ∀ i, i < N → lhs.operator_index b i = rhs.operator_index b i) ∧
    (N ≠ N2 → operator_eq lhs rhs = false) := by
  have key : operator_eq lhs rhs = true ↔
      N = N2 ∧ ∀ i, i < N → lhs.operator_index b i = rhs.operator_index b i := by
    unfold operator_eq
    rw [basic_string_view_eq_iff, basic_fixed_string.view_eq_iff]
    constructor
    · rintro ⟨hN, hall⟩
      refine ⟨hN, fun i hi => ?_⟩
      rw [lhs.operator_index_le b i (Nat.le_of_lt hi),
        rhs.operator_index_le b i (Nat.le_of_lt (hN ▸ hi)), c_array.load_eq_iff]
      exact hall i hi
    · rintro ⟨hN, hall⟩
      refine ⟨hN, fun i hi => ?_⟩
      have := hall i hi
      rw [lhs.operator_index_le b i (Nat.le_of_lt hi),
        rhs.operator_index_le b i (Nat.le_of_lt (hN ▸ hi)), c_array.load_eq_iff] at this
      exact this
  refine ⟨key, fun hne => ?_⟩
  cases h : operator_eq lhs rhs
  · rfl
  · exact absurd (key.mp h).1 hne

/-- C5. Ordering is lexicographic on the content views: `lhs <=> rhs` is `less`
exactly when the content of `lhs` is a proper prefix of the content of `rhs` or
the element of `lhs` is the smaller one at the first index where the contents
differ; `greater` exactly in the mirrored cases; `equal` exactly when the
contents are identical.  `"a"` orders before `"b"` and `"a"` before `"ab"`. -/
theorem ordering_is_lexicographic [LinearOrder CharT] {N N2 : Nat}
    (lhs : basic_fixed_string CharT N) (rhs : basic_fixed_string CharT N2) :
    (operator_spaceship lhs rhs = Ordering.lt ↔
      ((N < N2 ∧ ∀ i : Nat, i < N → lhs.view[i]? = rhs.view[i]?) ∨
        ∃ (k : Nat) (p q : CharT), lhs.view[k]? = some p ∧ rhs.view[k]? = some q ∧ p < q ∧
          ∀ i : Nat, i < k → lhs.view[i]? = rhs.view[i]?)) ∧
    (operator_spaceship lhs rhs = Ordering.gt ↔
      ((N2 < N ∧ ∀ i : Nat, i < N2 → rhs.view[i]? = lhs.view[i]?) ∨
        ∃ (k : Nat) (p q : CharT), rhs.view[k]? = some p ∧ lhs.view[k]? = some q ∧ p < q ∧
          ∀ i : Nat, i < k → rhs.view[i]? = lhs.view[i]?)) ∧
    (operator_spaceship lhs rhs = Ordering.eq ↔ lhs.view = rhs.view) ∧
    operator_spaceship fs_a fs_b = Ordering.lt ∧
    operator_spaceship fs_a fs_ab = Ordering.lt := by
  refine ⟨?_, ?_, ?_, by decide, by decide⟩
  · have := basic_string_view_compare_lt_iff lhs.view rhs.view
    rw [lhs.length_view, rhs.length_view] at this
    exact this
  · have := basic_string_view_compare_lt_iff rhs.view lhs.view
    rw [lhs.length_view, rhs.length_view] at this
    rw [← this]
    unfold operator_spaceship basic_string_view_spaceship
    rw [basic_string_view_compare_swap lhs.view rhs.view]
    cases basic_string_view_compare lhs.view rhs.view <;> decide
  · exact basic_string_view_compare_eq_iff lhs.view rhs.view

/-- C6 fails where exceptions are disabled: `MTP_THROW` is then empty, and
`at(2)` on the instance holding `"ab"` returns the terminator instead of
signalling. -/
theorem bounds_checked_access_without_exceptions :
    fs_ab.at_ no_exceptions_build 2 = Except.ok 0 ∧
    ¬ (fs_ab.at_ no_exceptions_build 2 = Except.error fault.out_of_range ↔ 2 ≥ 2) := by
  decide

/-- C6, amended. Bounds-checked access: for every instance of length `N` and
every position `pos`, when `pos < N` the call `at(pos)` returns the element
`operator[](pos)` returns, in every build; in a build where exceptions are
enabled it signals the out-of-range failure if and only if `pos >= N`,
`pos = N` included; whether it returns or signals, the instance after the call
is the instance before it. -/
theorem bounds_checked_access {N : Nat} (b : build) (fs : basic_fixed_string CharT N)
    (pos : Nat) :
    (b.exceptions = true →
      (fs.at_ b pos = Except.error fault.out_of_range ↔ pos ≥ N)) ∧
    (pos < N → fs.at_ b pos = fs.operator_index b pos ∧
      ∃ c, fs.at_ b pos = Except.ok c ∧ fs._data.cells[pos]? = some c) ∧
    (fs.at_step b pos).1 = fs.at_ b pos ∧
    (fs.at_step b pos).2 = fs := by
  refine ⟨?_, ?_, rfl, rfl⟩
  · intro h
    rw [basic_fixed_string.at_eq, h]
    by_cases hp : N ≤ pos
    · simp [hp]
    · obtain ⟨c, _, hl⟩ := fs._data.load_lt (i := pos) (by omega)
      simp [hp, hl]
  · intro hp
    obtain ⟨c, hc, hl⟩ := fs._data.load_lt (i := pos) (by omega)
    rw [basic_fixed_string.at_eq, if_neg (by omega), fs.operator_index_le b pos (by omega)]
    exact ⟨rfl, c, hl, hc⟩

/-- C6, amended, at the instance holding `"ab"`: the terminator position with
exceptions enabled, and position 1 with exceptions disabled. -/
theorem bounds_checked_access_witness :
    (gnu_build.exceptions = true ∧ 1 < 2) ∧
    (fs_ab.at_ gnu_build 2 = Except.error fault.out_of_range ↔ 2 ≥ 2) ∧
    (fs_ab.at_ no_exceptions_build 1 = fs_ab.operator_index no_exceptions_build 1 ∧
      ∃ c, fs_ab.at_ no_exceptions_build 1 = Except.ok c ∧ fs_ab._data.cells[1]? = some c) ∧
    (fs_ab.at_step gnu_build 2).2 = fs_ab :=
  ⟨by decide, (bounds_checked_access gnu_build fs_ab 2).1 rfl,
    (bounds_checked_access no_exceptions_build fs_ab 1).2.1 (by decide),
    (bounds_checked_access gnu_build fs_ab 2).2.2.2⟩

/-- C7. The hash is the hash of the view: for every character type, every `N`
and every instance `fs`, the hash of `fs` is `std::hash` of the view type
applied to the view of the `N` content elements of `fs`; two instances that
agree on their content hash alike, whatever they hold at index `N`.  The
instance built from `"123"` hashes as the view over `'1', '2', '3'`. -/
theorem hash_equals_view_hash {N : Nat} (view_hash : List CharT → Nat)
    (fs gs : basic_fixed_string CharT N) :
    hash view_hash fs = view_hash (basic_string_view fs.data N) ∧
    hash view_hash fs = view_hash (fs._data.cells.take N) ∧
    ((∀ i, i < N → fs._data.cells[i]? = gs._data.cells[i]?) →
      hash view_hash fs = hash view_hash gs) ∧
    (∀ (h : List Nat → Nat) (this : basic_fixed_string Nat 3),
      ∃ built, basic_fixed_string.from_literal gnu_build this sl_123 = Except.ok built ∧
        hash h built = h [49, 50, 51]) := by
  refine ⟨rfl, rfl, ?_, ?_⟩
  · intro hall
    have : fs.view = gs.view := (basic_fixed_string.view_eq_iff fs gs).mpr ⟨rfl, hall⟩
    show view_hash fs.view = view_hash gs.view
    rw [this]
  · intro h this
    obtain ⟨c, hc, he⟩ := basic_fixed_string.from_literal_eq gnu_build this sl_123
    have hc0 : c = 0 := Option.some.inj (hc.symm.trans (by decide))
    rw [if_pos (Or.inr hc0)] at he
    exact ⟨_, he, rfl⟩

/-- C8. Swap exchanges content: for every two instances `a` and `c` of one
character type and length `N`, each with the terminator at index `N`, after
`a.swap(c)`, and after the non-member `swap(a, c)`, the content view of `a` is
the former content view of `c` and the other way round, and both still have
the terminator at index `N`. -/
theorem swap_exchanges_content [Zero CharT] {N : Nat} (a c : basic_fixed_string CharT N)
    (ha : a._data.cells[N]? = some 0) (hc : c._data.cells[N]? = some 0) :
    ∃ a1 c1, a.swap c = Except.ok (a1, c1) ∧ swap a c = Except.ok (a1, c1) ∧
      a1.view = c.view ∧ c1.view = a.view ∧
      a1._data.cells[N]? = some 0 ∧ c1._data.cells[N]? = some 0 := by
  obtain ⟨a1, c1, h, h1, h2⟩ := a.swap_ok c
  have la : (a._data.cells.take N).length = N := a.length_view
  have lc : (c._data.cells.take N).length = N := c.length_view
  refine ⟨a1, c1, h, h, ?_, ?_, ?_, ?_⟩
  · rw [a1.view_eq, h1]
    exact List.take_left' lc
  · rw [c1.view_eq, h2]
    exact List.take_left' la
  · rw [h1, splice_getElem? _ _ _ (by rw [c._data.extent]; omega)]
    exact ha
  · rw [h2, splice_getElem? _ _ _ (by rw [a._data.extent]; omega)]
    exact hc

/-- C8 at the test: swapping `"123"` with `"abc"`. -/
theorem swap_exchanges_content_witness :
    (fs_123._data.cells[3]? = some 0 ∧ fs_abc._data.cells[3]? = some 0) ∧
    ∃ a1 c1, fs_123.swap fs_abc = Except.ok (a1, c1) ∧ swap fs_123 fs_abc = Except.ok (a1, c1) ∧
      a1.view = fs_abc.view ∧ c1.view = fs_123.view ∧
      a1._data.cells[3]? = some 0 ∧ c1._data.cells[3]? = some 0 :=
  ⟨by decide, swap_exchanges_content fs_123 fs_abc (by decide) (by decide)⟩

/-- C10 fails where `MTP_EXPECTS` is empty: the literal constructor then
accepts the one-element array `{ 'a' }` and returns it as the buffer. -/
theorem literal_construction_unchecked :
    basic_fixed_string.from_literal unchecked_build (storage 0) sl_unterminated
      = Except.ok ⟨sl_unterminated⟩ ∧
    ¬ ((∃ e, basic_fixed_string.from_literal unchecked_build (storage 0) sl_unterminated
        = Except.error e) ↔ sl_unterminated.cells[0]? ≠ some 0) := by
  refine ⟨rfl, fun h => ?_⟩
  obtain ⟨e, he⟩ := h.mpr (by decide)
  exact Except.noConfusion he

/-- C10, amended. In a build where `MTP_EXPECTS` expands to a check (the
`__assume` and the `__builtin_unreachable` expansions), literal construction
fails if and only if `str[N]` differs from the terminator, and the failure is
the violated contract assertion: it never fails for any other reason. -/
theorem literal_construction_rejects_unterminated [Zero CharT] [DecidableEq CharT] {N : Nat}
    (b : build) (this : basic_fixed_string CharT N) (str : c_array CharT (N + 1))
    (h : b.expects ≠ expects_expansion.nothing) :
    ((∃ e, basic_fixed_string.from_literal b this str = Except.error e) ↔
      str.cells[N]? ≠ some 0) ∧
    (∀ e, basic_fixed_string.from_literal b this str = Except.error e →
      e = fault.contract_violation) := by
  obtain ⟨c, hc, he⟩ := basic_fixed_string.from_literal_eq b this str
  by_cases h0 : c = 0
  · rw [if_pos (Or.inr h0)] at he
    rw [he, hc, h0]
    refine ⟨⟨fun ⟨e, h1⟩ => Except.noConfusion h1, fun h1 => absurd rfl h1⟩, ?_⟩
    intro e h1
    exact Except.noConfusion h1
  · rw [if_neg (by rintro (h1 | h1); exact h h1; exact h0 h1)] at he
    rw [he, hc]
    refine ⟨⟨fun _ h1 => h0 (Option.some.inj h1), fun _ => ⟨_, rfl⟩⟩, ?_⟩
    intro e h1
    exact (Except.error.inj h1).symm

/-- C10, amended, at the unterminated array `{ 'a' }` under GCC. -/
theorem literal_construction_rejects_unterminated_witness :
    gnu_build.expects ≠ expects_expansion.nothing ∧
    (((∃ e, basic_fixed_string.from_literal gnu_build (storage 0) sl_unterminated
        = Except.error e) ↔ sl_unterminated.cells[0]? ≠ some 0) ∧
    (∀ e, basic_fixed_string.from_literal gnu_build (storage 0) sl_unterminated
        = Except.error e → e = fault.contract_violation)) :=
  ⟨by decide, literal_construction_rejects_unterminated gnu_build (storage 0) sl_unterminated
    (by decide)⟩


/-- C9 fails for default construction: the defaulted default constructor is
trivial, so `basic_fixed_string<CharT, 0> fs;` leaves in `_data[0]` what the
storage held. -/
theorem default_construction_keeps_storage :
    (basic_fixed_string.default_constructor (storage 0))._data.cells[0]? = some 170 ∧
    ¬ ((basic_fixed_string.default_constructor (storage 0))._data.cells[0]? = some 0) := by
  decide

/-- C9, amended. Terminator invariant: the value-initialised empty instance
`basic_fixed_string<CharT, 0>{}`, variadic character construction, literal
construction from a terminator-ending literal, iterator-pair construction
from a multi-pass range of exactly `N` elements, range construction from
exactly `N` elements, copy and move of an instance that has
the terminator at index `N`, and every `operator+` form (the literal forms with
a terminator-ending literal) yield a buffer whose element at index `N` of the
result type is the terminator; `swap` of two instances that have it keeps it
for both.  Every buffer has `N + 1` elements by its type. -/
theorem terminator_invariant [Zero CharT] [DecidableEq CharT] {N N2 N3 : Nat} (b : build)
    (this : basic_fixed_string CharT N) (chars seq : List CharT) (r : iterator_range CharT)
    (str : c_array CharT (N + 1)) (other peer : basic_fixed_string CharT N)
    (rhs : basic_fixed_string CharT N2) (c : CharT) (lit : c_array CharT N3)
    (s1 : c_array CharT (N + N2)) (r1 : basic_fixed_string CharT (N + N2))
    (s2 : c_array CharT (N + 1)) (r2 : basic_fixed_string CharT (N + 1))
    (r3 : basic_fixed_string CharT (1 + N))
    (s4 : c_array CharT (N + (N3 - 1))) (r4 : basic_fixed_string CharT (N + (N3 - 1)))
    (s5 : c_array CharT ((N3 - 1) + N)) (r5 : basic_fixed_string CharT ((N3 - 1) + N))
    (hchars : chars.length = N) (hseq : seq.length = N)
    (hr : r.elements.length = N) (hm : r.multi_pass = true)
    (hstr : str.cells[N]? = some 0) (hlit : lit.cells[N3 - 1]? = some 0)
    (hother : other._data.cells[N]? = some 0) (hpeer : peer._data.cells[N]? = some 0) :
    (basic_fixed_string.value_initialized CharT)._data.cells[0]? = some 0 ∧
    (basic_fixed_string.from_chars chars hchars)._data.cells[N]? = some 0 ∧
    (∃ fs, basic_fixed_string.from_literal b this str = Except.ok fs ∧
      fs._data.cells[N]? = some 0) ∧
    (∃ fs, basic_fixed_string.from_iterators b this r = Except.ok fs ∧
      fs._data.cells[N]? = some 0) ∧
    (∃ fs, basic_fixed_string.from_range b this seq = Except.ok fs ∧
      fs._data.cells[N]? = some 0) ∧
    (basic_fixed_string.copy_constructor other)._data.cells[N]? = some 0 ∧
    (basic_fixed_string.move_constructor other)._data.cells[N]? = some 0 ∧
    (∃ fs, operator_plus b s1 r1 other rhs = Except.ok fs ∧
      fs._data.cells[N + N2]? = some 0) ∧
    (∃ fs, operator_plus_char b s2 r2 other c = Except.ok fs ∧
      fs._data.cells[N + 1]? = some 0) ∧
    (∃ fs, char_operator_plus b s2 r3 c other = Except.ok fs ∧
      fs._data.cells[1 + N]? = some 0) ∧
    (∃ fs, operator_plus_literal b s4 r4 other lit = Except.ok fs ∧
      fs._data.cells[N + (N3 - 1)]? = some 0) ∧
    (∃ fs, literal_operator_plus b s5 r5 lit other = Except.ok fs ∧
      fs._data.cells[(N3 - 1) + N]? = some 0) ∧
    (∃ a1 c1, other.swap peer = Except.ok (a1, c1) ∧
      a1._data.cells[N]? = some 0 ∧ c1._data.cells[N]? = some 0) := by
  refine ⟨rfl, ?_, ?_, ?_, ?_, hother, hother, ?_, ?_, ?_, ?_, ?_, ?_⟩
  · exact last_cell _ chars 0 rfl
  · obtain ⟨x, hx, he⟩ := basic_fixed_string.from_literal_eq b this str
    have hx0 : x = 0 := Option.some.inj (hx.symm.trans hstr)
    rw [if_pos (Or.inr hx0)] at he
    exact ⟨_, he, hstr⟩
  · obtain ⟨fs, hfs, hc⟩ := basic_fixed_string.from_iterators_ok b this r hr (Or.inl hm)
    exact ⟨fs, hfs, last_cell fs _ 0 hc⟩
  · obtain ⟨fs, hfs, hc⟩ := basic_fixed_string.from_range_ok b this seq hseq
    exact ⟨fs, hfs, last_cell fs _ 0 hc⟩
  · obtain ⟨fs, hfs, hc⟩ := operator_plus_ok b s1 r1 other rhs
    exact ⟨fs, hfs, last_cell fs _ 0 hc⟩
  · obtain ⟨fs, hfs, hc⟩ := operator_plus_char_ok b s2 r2 other c
    exact ⟨fs, hfs, last_cell fs _ 0 hc⟩
  · obtain ⟨fs, hfs, hc⟩ := char_operator_plus_ok b s2 r3 c other
    exact ⟨fs, hfs, last_cell fs _ 0 hc⟩
  · obtain ⟨fs, hfs, hc⟩ := operator_plus_literal_ok b s4 r4 other lit hlit
    exact ⟨fs, hfs, last_cell fs _ 0 hc⟩
  · obtain ⟨fs, hfs, hc⟩ := literal_operator_plus_ok b s5 r5 lit other hlit
    exact ⟨fs, hfs, last_cell fs _ 0 hc⟩
  · obtain ⟨a1, c1, h, h1, h2⟩ := other.swap_ok peer
    refine ⟨a1, c1, h, ?_, ?_⟩
    · rw [h1, splice_getElem? _ _ _ (by rw [peer._data.extent]; omega)]
      exact hother
    · rw [h2, splice_getElem? _ _ _ (by rw [other._data.extent]; omega)]
      exact hpeer

/-- C9, amended, at `N = 3` with the instances `"123"` and `"abc"`, the
one-character instance `"a"` as right operand and the literal `"123"`. -/
theorem terminator_invariant_witness :
    (([49, 50, 51] : List Nat).length = 3 ∧ ([52, 53, 54] : List Nat).length = 3 ∧
      (pointer_range [52, 53, 54]).elements.length = 3 ∧
      (pointer_range [52, 53, 54] : iterator_range Nat).multi_pass = true ∧
      sl_123.cells[3]? = some 0 ∧ sl_123.cells[4 - 1]? = some 0 ∧
      fs_123._data.cells[3]? = some 0 ∧ fs_abc._data.cells[3]? = some 0) ∧
    ((basic_fixed_string.value_initialized Nat)._data.cells[0]? = some 0 ∧
    (basic_fixed_string.from_chars (N := 3) [49, 50, 51] rfl)._data.cells[3]? = some 0 ∧
    (∃ fs, basic_fixed_string.from_literal gnu_build (storage 3) sl_123 = Except.ok fs ∧
      fs._data.cells[3]? = some 0) ∧
    (∃ fs, basic_fixed_string.from_iterators gnu_build (storage 3) (pointer_range [52, 53, 54])
        = Except.ok fs ∧
      fs._data.cells[3]? = some 0) ∧
    (∃ fs, basic_fixed_string.from_range gnu_build (storage 3) [52, 53, 54] = Except.ok fs ∧
      fs._data.cells[3]? = some 0) ∧
    (basic_fixed_string.copy_constructor fs_123)._data.cells[3]? = some 0 ∧
    (basic_fixed_string.move_constructor fs_123)._data.cells[3]? = some 0 ∧
    (∃ fs, operator_plus gnu_build (indeterminate (3 + 1)) (storage (3 + 1)) fs_123 fs_a
        = Except.ok fs ∧
      fs._data.cells[3 + 1]? = some 0) ∧
    (∃ fs, operator_plus_char gnu_build (indeterminate (3 + 1)) (storage (3 + 1)) fs_123 97
        = Except.ok fs ∧
      fs._data.cells[3 + 1]? = some 0) ∧
    (∃ fs, char_operator_plus gnu_build (indeterminate (3 + 1)) (storage (1 + 3)) 97 fs_123
        = Except.ok fs ∧
      fs._data.cells[1 + 3]? = some 0) ∧
    (∃ fs, operator_plus_literal gnu_build (indeterminate (3 + (4 - 1)))
        (storage (3 + (4 - 1))) fs_123 sl_123 = Except.ok fs ∧
      fs._data.cells[3 + (4 - 1)]? = some 0) ∧
    (∃ fs, literal_operator_plus gnu_build (indeterminate ((4 - 1) + 3))
        (storage ((4 - 1) + 3)) sl_123 fs_123 = Except.ok fs ∧
      fs._data.cells[(4 - 1) + 3]? = some 0) ∧
    (∃ a1 c1, fs_123.swap fs_abc = Except.ok (a1, c1) ∧
      a1._data.cells[3]? = some 0 ∧ c1._data.cells[3]? = some 0)) :=
  ⟨by decide,
    terminator_invariant gnu_build (storage 3) [49, 50, 51] [52, 53, 54]
      (pointer_range [52, 53, 54]) sl_123 fs_123 fs_abc
      fs_a 97 sl_123 (indeterminate (3 + 1)) (storage (3 + 1)) (indeterminate (3 + 1))
      (storage (3 + 1)) (storage (1 + 3)) (indeterminate (3 + (4 - 1)))
      (storage (3 + (4 - 1))) (indeterminate ((4 - 1) + 3)) (storage ((4 - 1) + 3))
      rfl rfl rfl rfl (by decide) (by decide) (by decide) (by decide)⟩

/-- C11. The unchecked subscript stays inside the buffer and reads the
terminator at `N`: for every instance that has the terminator at index `N` and
every `pos <= N`, `operator[](pos)` reads the cell `pos` of the buffer of `N + 1`
cells and cannot fail; it returns the content element `pos` when `pos < N` and
the terminator when `pos = N`. -/
theorem unchecked_subscript [Zero CharT] {N : Nat} (b : build)
    (fs : basic_fixed_string CharT N) (pos : Nat)
    (hinv : fs._data.cells[N]? = some 0) (hpos : pos ≤ N) :
    pos < fs._data.cells.length ∧ fs._data.cells.length = N + 1 ∧
    (∃ c, fs.operator_index b pos = Except.ok c ∧ fs._data.cells[pos]? = some c) ∧
    (pos < N → ∃ c, fs.view[pos]? = some c ∧ fs.operator_index b pos = Except.ok c) ∧
    (pos = N → fs.operator_index b pos = Except.ok 0) := by
  obtain ⟨c, hc, hl⟩ := fs._data.load_lt (i := pos) (by omega)
  rw [fs.operator_index_le b pos hpos]
  refine ⟨by rw [fs._data.extent]; omega, fs._data.extent, ⟨c, hl, hc⟩, ?_, ?_⟩
  · intro hlt
    exact ⟨c, (fs.view_getElem? pos hlt).trans hc, hl⟩
  · intro he
    rw [he]
    exact c_array.load_ok _ hinv

/-- C11 at the instance holding `"ab"` and the terminator position, as in the
test `fs_2[2] == CharT{}`. -/
theorem unchecked_subscript_witness :
    (fs_ab._data.cells[2]? = some 0 ∧ 2 ≤ 2) ∧
    (2 < fs_ab._data.cells.length ∧ fs_ab._data.cells.length = 2 + 1 ∧
    (∃ c, fs_ab.operator_index gnu_build 2 = Except.ok c ∧ fs_ab._data.cells[2]? = some c) ∧
    (2 < 2 → ∃ c, fs_ab.view[2]? = some c ∧ fs_ab.operator_index gnu_build 2 = Except.ok c) ∧
    (2 = 2 → fs_ab.operator_index gnu_build 2 = Except.ok 0)) :=
  ⟨by decide, unchecked_subscript gnu_build fs_ab 2 (by decide) (by decide)⟩

/-- C12. The capacity queries are the length of the type: for every character
type, every `N` and every instance of length `N`, whatever its buffer holds,
`size()`, `length()` and `max_size()` return `N`, and `empty()` is true if and
only if `N = 0`. -/
theorem capacity_queries {N : Nat} (fs : basic_fixed_string CharT N) :
    fs.size = N ∧ fs.length = N ∧ fs.max_size = N ∧ (fs.empty = true ↔ N = 0) := by
  refine ⟨rfl, rfl, rfl, ?_⟩
  unfold basic_fixed_string.empty
  exact decide_eq_true_iff

/-- C13. Concatenation with a single character: for every instance `fs` of
length `N` and every character `c`, `fs + c` has length `N + 1` and content
`fs.view()` followed by `c`, `c + fs` has length `1 + N` and content `c` followed
by `fs.view()`, both with the terminator at index `N + 1`; `fs + c` is the very
instance `fs + basic_fixed_string{c}` and `c + fs` is
`basic_fixed_string{c} + fs`. -/
theorem concatenation_with_character [Zero CharT] {N : Nat} (b : build)
    (s1 s2 s3 : c_array CharT (N + 1)) (s4 : c_array CharT (1 + N))
    (r1 r3 : basic_fixed_string CharT (N + 1)) (r2 r4 : basic_fixed_string CharT (1 + N))
    (fs : basic_fixed_string CharT N) (c : CharT) :
    ∃ x y, operator_plus_char b s1 r1 fs c = Except.ok x ∧
      char_operator_plus b s2 r2 c fs = Except.ok y ∧
      x.size = N + 1 ∧ x.view = fs.view ++ [c] ∧ x._data.cells[N + 1]? = some 0 ∧
      y.size = 1 + N ∧ y.view = [c] ++ fs.view ∧ y._data.cells[N + 1]? = some 0 ∧
      operator_plus b s3 r3 fs (basic_fixed_string.from_chars [c] rfl) = Except.ok x ∧
      operator_plus b s4 r4 (basic_fixed_string.from_chars [c] rfl) fs = Except.ok y := by
  obtain ⟨x, hx, cx⟩ := operator_plus_char_ok b s1 r1 fs c
  obtain ⟨y, hy, cy⟩ := char_operator_plus_ok b s2 r2 c fs
  obtain ⟨x2, hx2, cx2⟩ := operator_plus_ok b s3 r3 fs (basic_fixed_string.from_chars [c] rfl)
  obtain ⟨y2, hy2, cy2⟩ := operator_plus_ok b s4 r4 (basic_fixed_string.from_chars [c] rfl) fs
  rw [basic_fixed_string.view_from_chars] at cx2 cy2
  have ex : x2 = x := basic_fixed_string.eq_of_buffer (cx2.trans cx.symm)
  have ey : y2 = y := basic_fixed_string.eq_of_buffer (cy2.trans cy.symm)
  have lx : (fs.view ++ [c]).length = N + 1 := by
    rw [List.length_append, fs.length_view]; rfl
  have ly : ([c] ++ fs.view).length = 1 + N := by
    rw [List.length_append, fs.length_view]; rfl
  obtain ⟨vx, tx⟩ := x.view_append _ 0 lx cx
  obtain ⟨vy, ty⟩ := y.view_append _ 0 ly cy
  refine ⟨x, y, hx, hy, rfl, vx, tx, rfl, vy, ?_, ex ▸ hx2, ey ▸ hy2⟩
  rw [Nat.add_comm N 1]
  exact ty

/-- C14 fails where `MTP_EXPECTS` is empty: `"a" + lit` with the one-element
array `{ 'a' }` for `lit`, which does not end in the terminator, then returns
the instance `"a"` instead of failing. -/
theorem concatenation_with_literal_unchecked :
    operator_plus_literal unchecked_build (indeterminate 1) (storage 1) fs_a sl_unterminated
      = Except.ok fs_a ∧
    ¬ ((∃ e, operator_plus_literal unchecked_build (indeterminate 1) (storage 1) fs_a
        sl_unterminated = Except.error e) ↔ sl_unterminated.cells[1 - 1]? ≠ some 0) := by
  refine ⟨by decide, fun h => ?_⟩
  obtain ⟨e, he⟩ := h.mpr (by decide)
  exact Except.noConfusion he

/-- C14, amended. Concatenation with a raw literal: for every instance `fs` of
length `N` and every literal `lit` of `N2 = M + 1` elements whose last element is
the terminator, `fs + lit` has length `N + (N2 - 1)` and content `fs.view()`
followed by `lit[0 .. N2-2]`, `lit + fs` has length `(N2 - 1) + N` and content
`lit[0 .. N2-2]` followed by `fs.view()`, and each is the very instance the
concatenation with `basic_fixed_string(lit)` returns.  In a build where
`MTP_EXPECTS` expands to a check, the operation fails if and only if the last
element of `lit` is not the terminator. -/
theorem concatenation_with_literal [Zero CharT] [DecidableEq CharT] {N M : Nat} (b : build)
    (s1 s3 : c_array CharT (N + M)) (r1 r3 : basic_fixed_string CharT (N + M))
    (s2 s4 : c_array CharT (M + N)) (r2 r4 : basic_fixed_string CharT (M + N))
    (this : basic_fixed_string CharT M) (fs : basic_fixed_string CharT N)
    (lit : c_array CharT (M + 1)) :
    (lit.cells[M]? = some 0 →
      ∃ x y built, operator_plus_literal b s1 r1 fs lit = Except.ok x ∧
        literal_operator_plus b s2 r2 lit fs = Except.ok y ∧
        x.size = N + (M + 1 - 1) ∧ x.view = fs.view ++ lit.cells.take M ∧
        y.size = (M + 1 - 1) + N ∧ y.view = lit.cells.take M ++ fs.view ∧
        basic_fixed_string.from_literal b this lit = Except.ok built ∧
        operator_plus b s3 r3 fs built = Except.ok x ∧
        operator_plus b s4 r4 built fs = Except.ok y) ∧
    (b.expects ≠ expects_expansion.nothing →
      ((∃ e, operator_plus_literal b s1 r1 fs lit = Except.error e) ↔
        lit.cells[M]? ≠ some 0) ∧
      ((∃ e, literal_operator_plus b s2 r2 lit fs = Except.error e) ↔
        lit.cells[M]? ≠ some 0)) := by
  obtain ⟨c, x, hc, cx, hx⟩ := operator_plus_literal_eq b s1 r1 fs lit
  obtain ⟨c2, y, hc2, cy, hy⟩ := literal_operator_plus_eq b s2 r2 lit fs
  have hcc : c2 = c := Option.some.inj (hc2.symm.trans hc)
  rw [hcc] at hy
  constructor
  · intro hlit
    have hc0 : c = 0 := Option.some.inj (hc.symm.trans hlit)
    rw [if_pos (Or.inr hc0)] at hx hy
    obtain ⟨c3, hc3, hb⟩ := basic_fixed_string.from_literal_eq b this lit
    have hc30 : c3 = 0 := Option.some.inj (hc3.symm.trans hlit)
    rw [if_pos (Or.inr hc30)] at hb
    obtain ⟨x2, hx2, cx2⟩ := operator_plus_ok b s3 r3 fs (⟨lit⟩ : basic_fixed_string CharT M)
    obtain ⟨y2, hy2, cy2⟩ := operator_plus_ok b s4 r4 (⟨lit⟩ : basic_fixed_string CharT M) fs
    have ex : x2 = x := basic_fixed_string.eq_of_buffer (cx2.trans cx.symm)
    have ey : y2 = y := basic_fixed_string.eq_of_buffer (cy2.trans cy.symm)
    have lm : (lit.cells.take M).length = M := by
      rw [List.length_take, lit.extent]; omega
    have lx : (fs.view ++ lit.cells.take M).length = N + M := by
      rw [List.length_append, fs.length_view, lm]
    have ly : (lit.cells.take M ++ fs.view).length = M + N := by
      rw [List.length_append, fs.length_view, lm]
    exact ⟨x, y, ⟨lit⟩, hx, hy, rfl, (x.view_append _ 0 lx cx).1, rfl,
      (y.view_append _ 0 ly cy).1, hb, ex ▸ hx2, ey ▸ hy2⟩
  · intro hn
    have key : ∀ {α : Type} (v : α),
        ((∃ e, (if b.expects = expects_expansion.nothing ∨ c = 0 then Except.ok v
          else Except.error fault.contract_violation : Except fault α) = Except.error e) ↔
        lit.cells[M]? ≠ some 0) := by
      intro α v
      rw [hc]
      by_cases h0 : c = 0
      · rw [if_pos (Or.inr h0), h0]
        exact ⟨fun ⟨e, h1⟩ => Except.noConfusion h1, fun h1 => absurd rfl h1⟩
      · rw [if_neg (by rintro (h1 | h1); exact hn h1; exact h0 h1)]
        exact ⟨fun _ h1 => h0 (Option.some.inj h1), fun _ => ⟨_, rfl⟩⟩
    rw [hx, hy]
    exact ⟨key x, key y⟩

/-- C14, amended, at the test `nttp`: `"Hello" + fixstr` with `fixstr` holding
`", World!\n"` is the instance holding `"Hello, World!\n"`. -/
theorem concatenation_with_literal_witness :
    (sl_hello.cells[5]? = some 0 ∧ gnu_build.expects ≠ expects_expansion.nothing) ∧
    (∃ x y built, operator_plus_literal gnu_build (indeterminate (9 + 5)) (storage (9 + 5))
          fs_world sl_hello = Except.ok x ∧
        literal_operator_plus gnu_build (indeterminate (5 + 9)) (storage (5 + 9)) sl_hello
          fs_world = Except.ok y ∧
        x.size = 9 + (5 + 1 - 1) ∧ x.view = fs_world.view ++ sl_hello.cells.take 5 ∧
        y.size = (5 + 1 - 1) + 9 ∧ y.view = sl_hello.cells.take 5 ++ fs_world.view ∧
        basic_fixed_string.from_literal gnu_build (storage 5) sl_hello = Except.ok built ∧
        operator_plus gnu_build (indeterminate (9 + 5)) (storage (9 + 5)) fs_world built
          = Except.ok x ∧
        operator_plus gnu_build (indeterminate (5 + 9)) (storage (5 + 9)) built fs_world
          = Except.ok y) ∧
    (((∃ e, operator_plus_literal gnu_build (indeterminate (9 + 5)) (storage (9 + 5))
        fs_world sl_hello = Except.error e) ↔ sl_hello.cells[5]? ≠ some 0) ∧
      ((∃ e, literal_operator_plus gnu_build (indeterminate (5 + 9)) (storage (5 + 9))
        sl_hello fs_world = Except.error e) ↔ sl_hello.cells[5]? ≠ some 0)) ∧
    literal_operator_plus gnu_build (indeterminate (5 + 9)) (storage (5 + 9)) sl_hello
      fs_world = Except.ok fs_hello_world :=
  ⟨by decide,
    (concatenation_with_literal gnu_build (indeterminate (9 + 5)) (indeterminate (9 + 5))
      (storage (9 + 5)) (storage (9 + 5)) (indeterminate (5 + 9)) (indeterminate (5 + 9))
      (storage (5 + 9)) (storage (5 + 9)) (storage 5) fs_world sl_hello).1 (by decide),
    (concatenation_with_literal gnu_build (indeterminate (9 + 5)) (indeterminate (9 + 5))
      (storage (9 + 5)) (storage (9 + 5)) (indeterminate (5 + 9)) (indeterminate (5 + 9))
      (storage (5 + 9)) (storage (5 + 9)) (storage 5) fs_world sl_hello).2 (by decide),
    by decide⟩

/-- C15. Comparison against a raw literal leaves out the trailing terminator of
the literal: for every instance `fs` of length `N` and every literal `lit` of
`N2 = M + 1` elements that ends in the terminator, `fs == lit` holds if and only
if `N = N2 - 1` and `fs[i] = lit[i]` for every `i < N`, `fs <=> lit` is the
lexicographic comparison of the content of `fs` with `lit[0 .. N2-2]`, and both
are what the comparison of `fs` with `basic_fixed_string(lit)` returns. -/
theorem comparison_with_literal [LinearOrder CharT] [Zero CharT] {N M : Nat} (b : build)
    (this : basic_fixed_string CharT M) (fs : basic_fixed_string CharT N)
    (lit : c_array CharT (M + 1)) (h : lit.cells[M]? = some 0) :
    ∃ built, basic_fixed_string.from_literal b this lit = Except.ok built ∧
      operator_eq_literal b fs lit = Except.ok (operator_eq fs built) ∧
      (operator_eq_literal b fs lit = Except.ok true ↔
        N = M + 1 - 1 ∧ ∀ i, i < N → fs._data.cells[i]? = lit.cells[i]?) ∧
      operator_spaceship_literal b fs lit = Except.ok (operator_spaceship fs built) ∧
      operator_spaceship_literal b fs lit
        = Except.ok (basic_string_view_compare fs.view (lit.cells.take (M + 1 - 1))) ∧
      (operator_spaceship_literal b fs lit = Except.ok Ordering.lt ↔
        ((N < M + 1 - 1 ∧ ∀ i : Nat, i < N → fs.view[i]? = (lit.cells.take M)[i]?) ∨
          ∃ (k : Nat) (p q : CharT), fs.view[k]? = some p ∧
            (lit.cells.take M)[k]? = some q ∧ p < q ∧
            ∀ i : Nat, i < k → fs.view[i]? = (lit.cells.take M)[i]?)) := by
  obtain ⟨c, hc, hb⟩ := basic_fixed_string.from_literal_eq b this lit
  have hc0 : c = 0 := Option.some.inj (hc.symm.trans h)
  rw [if_pos (Or.inr hc0)] at hb
  have he : operator_eq_literal b fs lit
      = Except.ok (operator_eq fs (⟨lit⟩ : basic_fixed_string CharT M)) := by
    unfold operator_eq_literal
    simp only [Nat.add_sub_cancel]
    rw [MTP_EXPECTS_terminated b lit M h]
    rfl
  have hs : operator_spaceship_literal b fs lit
      = Except.ok (operator_spaceship fs (⟨lit⟩ : basic_fixed_string CharT M)) := by
    unfold operator_spaceship_literal
    simp only [Nat.add_sub_cancel]
    rw [MTP_EXPECTS_terminated b lit M h]
    rfl
  have lm : (lit.cells.take M).length = M := by
    rw [List.length_take, lit.extent]; omega
  refine ⟨⟨lit⟩, hb, he, ?_, hs, hs, ?_⟩
  · rw [he]
    constructor
    · intro h1
      have h2 : operator_eq fs (⟨lit⟩ : basic_fixed_string CharT M) = true :=
        Except.ok.inj h1
      unfold operator_eq at h2
      rw [basic_string_view_eq_iff, basic_fixed_string.view_eq_iff] at h2
      exact h2
    · intro h1
      have h2 : operator_eq fs (⟨lit⟩ : basic_fixed_string CharT M) = true := by
        unfold operator_eq
        rw [basic_string_view_eq_iff, basic_fixed_string.view_eq_iff]
        exact h1
      rw [h2]
  · rw [hs]
    have key := basic_string_view_compare_lt_iff fs.view (lit.cells.take M)
    rw [fs.length_view, lm] at key
    constructor
    · intro h1
      exact key.mp (Except.ok.inj h1)
    · intro h1
      exact congrArg Except.ok (key.mpr h1)

/-- C15 at the test: the instance holding `"ab"` against the literal `"ab"`. -/
theorem comparison_with_literal_witness :
    sl_ab.cells[2]? = some 0 ∧
    ∃ built, basic_fixed_string.from_literal gnu_build (storage 2) sl_ab = Except.ok built ∧
      operator_eq_literal gnu_build fs_ab sl_ab = Except.ok (operator_eq fs_ab built) ∧
      (operator_eq_literal gnu_build fs_ab sl_ab = Except.ok true ↔
        2 = 2 + 1 - 1 ∧ ∀ i, i < 2 → fs_ab._data.cells[i]? = sl_ab.cells[i]?) ∧
      operator_spaceship_literal gnu_build fs_ab sl_ab
        = Except.ok (operator_spaceship fs_ab built) ∧
      operator_spaceship_literal gnu_build fs_ab sl_ab
        = Except.ok (basic_string_view_compare fs_ab.view (sl_ab.cells.take (2 + 1 - 1))) ∧
      (operator_spaceship_literal gnu_build fs_ab sl_ab = Except.ok Ordering.lt ↔
        ((2 < 2 + 1 - 1 ∧ ∀ i : Nat, i < 2 → fs_ab.view[i]? = (sl_ab.cells.take 2)[i]?) ∨
          ∃ (k : Nat) (p q : Nat), fs_ab.view[k]? = some p ∧
            (sl_ab.cells.take 2)[k]? = some q ∧ p < q ∧
            ∀ i : Nat, i < k → fs_ab.view[i]? = (sl_ab.cells.take 2)[i]?)) :=
  ⟨by decide, comparison_with_literal gnu_build (storage 2) fs_ab sl_ab (by decide)⟩

/-- C16 fails for a stream with a field width: after `os << std::setw(5)` the
insertion of the instance holding `"ab"` writes three fill characters before
the content. -/
theorem stream_output_pads_to_width :
    (operator_shl setw_stream fs_ab).sink = [32, 32, 32, 97, 98] ∧
    ¬ ((operator_shl setw_stream fs_ab).sink = setw_stream.sink ++ fs_ab.view) := by
  decide

/-- C16, amended. Stream output writes exactly the content: for every instance
`fs` of length `N` and every stream that is good and whose field width is at
most `N` (a fresh stream has width 0), `os << fs` appends to the sink exactly
the `N` content elements of `fs` in order; the cell at index `N` is not written
and nothing else is added. -/
theorem stream_output_writes_content {N : Nat} (os : basic_ostream CharT)
    (fs : basic_fixed_string CharT N) (hg : os.good = true) (hw : os.width ≤ N) :
    (operator_shl os fs).sink = os.sink ++ fs.view ∧
    (operator_shl os fs).sink = os.sink ++ fs._data.cells.take N ∧
    (operator_shl os fs).sink.length = os.sink.length + N := by
  have hs : (operator_shl os fs).sink = os.sink ++ fs.view := by
    unfold operator_shl basic_ostream.insert_view
    rw [if_pos hg]
    have : max os.width fs.view.length - fs.view.length = 0 := by
      rw [fs.length_view]; omega
    simp only [this, List.replicate_zero, List.append_nil, List.nil_append, ite_self]
  refine ⟨hs, hs, ?_⟩
  rw [hs, List.length_append, fs.length_view]

/-- C16, amended, at the test: the instance built from `"Hello, World!\n"`
written to a fresh stream gives exactly its 14 characters. -/
theorem stream_output_writes_content_witness :
    (fresh_stream.good = true ∧ fresh_stream.width ≤ 14) ∧
    ((operator_shl fresh_stream fs_hello_world).sink
        = fresh_stream.sink ++ fs_hello_world.view ∧
      (operator_shl fresh_stream fs_hello_world).sink
        = fresh_stream.sink ++ fs_hello_world._data.cells.take 14 ∧
      (operator_shl fresh_stream fs_hello_world).sink.length
        = fresh_stream.sink.length + 14) ∧
    (operator_shl fresh_stream fs_hello_world).sink
      = [72, 101, 108, 108, 111, 44, 32, 87, 111, 114, 108, 100, 33, 10] :=
  ⟨by decide, stream_output_writes_content fresh_stream fs_hello_world rfl (by decide),
    by decide⟩

/-- C17. Variadic character construction: for every `N` character arguments
`c_0 .. c_{N-1}` the instance `basic_fixed_string{c_0, ..., c_{N-1}}` has length
`N`, its content view is the arguments in their order, its element at index `N`
is the terminator, and it is the instance the literal constructor builds from
`{c_0, ..., c_{N-1}, CharT{}}`. -/
theorem variadic_character_construction [Zero CharT] [DecidableEq CharT] {N : Nat}
    (b : build) (this : basic_fixed_string CharT N) (chars : List CharT)
    (h : chars.length = N) :
    (basic_fixed_string.from_chars chars h).size = N ∧
    (basic_fixed_string.from_chars chars h).size = chars.length ∧
    (basic_fixed_string.from_chars chars h).view = chars ∧
    (basic_fixed_string.from_chars chars h)._data.cells[N]? = some 0 ∧
    basic_fixed_string.from_literal b this
        ⟨chars ++ [0], by rw [List.length_append, h]; rfl⟩
      = Except.ok (basic_fixed_string.from_chars chars h) := by
  have ht : (basic_fixed_string.from_chars chars h)._data.cells[N]? = some 0 :=
    last_cell _ chars 0 rfl
  refine ⟨rfl, h.symm, basic_fixed_string.view_from_chars chars h, ht, ?_⟩
  obtain ⟨c, hc, he⟩ := basic_fixed_string.from_literal_eq b this
    (⟨chars ++ [0], by rw [List.length_append, h]; rfl⟩ : c_array CharT (N + 1))
  have hc0 : c = 0 := Option.some.inj (hc.symm.trans ht)
  rw [if_pos (Or.inr hc0)] at he
  exact he

/-- C17 at the test `basic_fixed_string{ '1', '2' }`. -/
theorem variadic_character_construction_witness :
    ([49, 50] : List Nat).length = 2 ∧
    ((basic_fixed_string.from_chars (N := 2) [49, 50] rfl).size = 2 ∧
    (basic_fixed_string.from_chars (N := 2) [49, 50] rfl).size = ([49, 50] : List Nat).length ∧
    (basic_fixed_string.from_chars (N := 2) [49, 50] rfl).view = [49, 50] ∧
    (basic_fixed_string.from_chars (N := 2) [49, 50] rfl)._data.cells[2]? = some 0 ∧
    basic_fixed_string.from_literal gnu_build (storage 2) ⟨[49, 50] ++ [0], by decide⟩
      = Except.ok (basic_fixed_string.from_chars [49, 50] rfl)) :=
  ⟨rfl, variadic_character_construction gnu_build (storage 2) [49, 50] rfl⟩

/-- C18 fails for default-initialisation: the trivial default constructor
leaves the one cell of the buffer as the storage held it, here `0xAA` and not
the terminator. -/
theorem default_constructed_buffer_not_terminated :
    (basic_fixed_string.default_constructor (storage 0)).c_str.cells = [170] ∧
    ¬ (∀ c, (basic_fixed_string.default_constructor (storage 0)).c_str.cells = [c] → c = 0) := by
  refine ⟨rfl, fun h => ?_⟩
  exact absurd (h 170 rfl) (by decide)

/-- C18, amended. Default construction yields the empty instance: the default
constructor exists only for `N = 0`; the value-initialised instance
`basic_fixed_string<CharT, 0>{}` has a one-element buffer whose only element is
the terminator and is the instance built from the empty literal `{ CharT{} }`;
every default-constructed instance, whatever its storage held, has an empty
content view and compares equal to the instance built from the empty
literal. -/
theorem default_construction_empty [LinearOrder CharT] [Zero CharT] (b : build)
    (this other : basic_fixed_string CharT 0) :
    (basic_fixed_string.value_initialized CharT)._data.cells = [0] ∧
    (basic_fixed_string.value_initialized CharT).view = [] ∧
    (basic_fixed_string.default_constructor this).view = [] ∧
    (basic_fixed_string.default_constructor this).size = 0 ∧
    ∃ built, basic_fixed_string.from_literal b other ⟨[0], rfl⟩ = Except.ok built ∧
      basic_fixed_string.value_initialized CharT = built ∧
      operator_eq (basic_fixed_string.value_initialized CharT) built = true ∧
      operator_eq (basic_fixed_string.default_constructor this) built = true := by
  obtain ⟨c, hc, he⟩ := basic_fixed_string.from_literal_eq b other
    (⟨[0], rfl⟩ : c_array CharT (0 + 1))
  have hc0 : c = 0 := (Option.some.inj hc).symm
  rw [if_pos (Or.inr hc0)] at he
  refine ⟨rfl, rfl, rfl, rfl, _, he, rfl, ?_, ?_⟩
  · unfold operator_eq
    rw [basic_string_view_eq_iff]
    rfl
  · unfold operator_eq
    rw [basic_string_view_eq_iff]
    rfl

/-- C19. Equality is reflexive and symmetric across lengths: `a == a` is true
for every instance `a`, and `(a == c)` is `(c == a)` for every `a` of length `N`
and `c` of length `N2`.  The instances holding `"ab"` and `"ab"` compare equal,
those holding `"ab"` and `"abc"` compare unequal. -/
theorem equality_reflexive_symmetric [LinearOrder CharT] {N N2 : Nat}
    (a : basic_fixed_string CharT N) (c : basic_fixed_string CharT N2) :
    operator_eq a a = true ∧ operator_eq a c = operator_eq c a ∧
    operator_eq fs_ab (⟨sl_ab⟩ : basic_fixed_string Nat 2) = true ∧
    operator_eq fs_ab fs_abc = false ∧ operator_eq fs_abc fs_ab = false := by
  refine ⟨?_, ?_, by decide, by decide, by decide⟩
  · unfold operator_eq
    rw [basic_string_view_eq_iff]
  · have h1 := basic_string_view_eq_iff a.view c.view
    have h2 := basic_string_view_eq_iff c.view a.view
    unfold operator_eq
    cases hx : basic_string_view_eq a.view c.view
    · cases hy : basic_string_view_eq c.view a.view
      · rfl
      · exact absurd (h1.mpr (h2.mp hy).symm) (by rw [hx]; decide)
    · exact (h2.mpr (h1.mp hx).symm).symm

/-- C20 fails for `at` where exceptions are disabled: two buffers of length 1
that agree on the content `'a'` and differ at index 1 give different results
for `at(1)`, which then reads the cell at index `N`. -/
theorem terminator_observable_without_exceptions :
    (∀ i, i < 1 → fs_a._data.cells[i]? = fs_a_unterminated._data.cells[i]?) ∧
    fs_a.at_ no_exceptions_build 1 = Except.ok 0 ∧
    fs_a_unterminated.at_ no_exceptions_build 1 = Except.ok 55 ∧
    fs_a.at_ no_exceptions_build 1 ≠ fs_a_unterminated.at_ no_exceptions_build 1 := by
  decide

/-- C20, amended. The terminator is not observable through the size-bounded
operations: for every two buffers of `N + 1` elements that agree on the indices
`0 .. N-1`, whatever each holds at index `N`, `view()`, the traversal from
`begin()` to `end()`, `operator==` and `operator<=>` against any third instance
on either side, the hash and the stream output give identical results, and so
does `at(pos)` for every `pos` where exceptions are enabled and for every
`pos < N` where they are not. -/
theorem terminator_not_observable [LinearOrder CharT] {N N2 : Nat} (b : build)
    (fs gs : basic_fixed_string CharT N) (third : basic_fixed_string CharT N2)
    (view_hash : List CharT → Nat) (os : basic_ostream CharT) (pos : Nat)
    (h : ∀ i, i < N → fs._data.cells[i]? = gs._data.cells[i]?) :
    fs.view = gs.view ∧
    (b.exceptions = true → fs.at_ b pos = gs.at_ b pos) ∧
    (pos < N → fs.at_ b pos = gs.at_ b pos) ∧
    fs.traverse = gs.traverse ∧
    operator_eq fs third = operator_eq gs third ∧
    operator_eq third fs = operator_eq third gs ∧
    operator_spaceship fs third = operator_spaceship gs third ∧
    operator_spaceship third fs = operator_spaceship third gs ∧
    hash view_hash fs = hash view_hash gs ∧
    operator_shl os fs = operator_shl os gs := by
  have hv : fs.view = gs.view := (basic_fixed_string.view_eq_iff fs gs).mpr ⟨rfl, h⟩
  refine ⟨hv, fun hb => basic_fixed_string.at_eq_of_content b fs gs pos h (Or.inl hb),
    fun hp => basic_fixed_string.at_eq_of_content b fs gs pos h (Or.inr (Nat.ne_of_lt hp)),
    ?_, ?_, ?_, ?_,
    ?_, ?_, ?_⟩
  · rw [fs.traverse_eq, gs.traverse_eq, hv]
  · unfold operator_eq; rw [hv]
  · unfold operator_eq; rw [hv]
  · unfold operator_spaceship; rw [hv]
  · unfold operator_spaceship; rw [hv]
  · unfold hash basic_fixed_string.operator_string_view; rw [hv]
  · unfold operator_shl; rw [hv]

/-- C20, amended, at the buffers `{ 'a', '\0' }` and `{ 'a', '7' }`. -/
theorem terminator_not_observable_witness :
    (∀ i, i < 1 → fs_a._data.cells[i]? = fs_a_unterminated._data.cells[i]?) ∧
    (fs_a.view = fs_a_unterminated.view ∧
    (gnu_build.exceptions = true →
      fs_a.at_ gnu_build 0 = fs_a_unterminated.at_ gnu_build 0) ∧
    (0 < 1 → fs_a.at_ gnu_build 0 = fs_a_unterminated.at_ gnu_build 0) ∧
    fs_a.traverse = fs_a_unterminated.traverse ∧
    operator_eq fs_a fs_ab = operator_eq fs_a_unterminated fs_ab ∧
    operator_eq fs_ab fs_a = operator_eq fs_ab fs_a_unterminated ∧
    operator_spaceship fs_a fs_ab = operator_spaceship fs_a_unterminated fs_ab ∧
    operator_spaceship fs_ab fs_a = operator_spaceship fs_ab fs_a_unterminated ∧
    hash List.sum fs_a = hash List.sum fs_a_unterminated ∧
    operator_shl fresh_stream fs_a = operator_shl fresh_stream fs_a_unterminated) :=
  ⟨by decide,
    terminator_not_observable gnu_build fs_a fs_a_unterminated fs_ab List.sum fresh_stream 0
      (by decide)⟩

/-- C21 fails on an instance without the terminator at index `N`: on the
default-initialised empty instance, whose one cell holds what the storage
held, no index `i <= 0` holds the terminator value and the read of `c_str()` as
a zero-terminated sequence runs past the buffer. -/
theorem terminated_read_runs_past_buffer :
    (basic_fixed_string.default_constructor (storage 0)).c_str.read_terminated
      = Except.error fault.out_of_bounds ∧
    ¬ (∃ i, i ≤ 0 ∧
      (basic_fixed_string.default_constructor (storage 0))._data.cells[i]? = some 0) := by
  refine ⟨by decide, ?_⟩
  rintro ⟨i, hi, h⟩
  have h0 : i = 0 := Nat.le_zero.mp hi
  rw [h0] at h
  exact absurd h (by decide)

/-- C21, amended. The terminated raw pointer reads back the content: for every
instance `fs` of length `N` that has the terminator at index `N`, reading
`c_str()`, the same pointer as `data()`, as a zero-terminated sequence stops at
the first index `i <= N` that holds the terminator value and reads no cell past
index `N`; the sequence read is the prefix of the content before the first
terminator-valued content element, and when no content element is the
terminator value it has length `N` and is the content view.  `c_strcmp` of the
test file on two such pointers returns whether the two sequences read are
equal. -/
theorem terminated_pointer_reads_content [Zero CharT] [DecidableEq CharT] {N N2 : Nat}
    (fs : basic_fixed_string CharT N) (gs : basic_fixed_string CharT N2)
    (h : fs._data.cells[N]? = some 0) (hg : gs._data.cells[N2]? = some 0) :
    fs.c_str = fs.data ∧
    ∃ r, fs.c_str.read_terminated = Except.ok r ∧
      r.length ≤ N ∧
      fs._data.cells[r.length]? = some 0 ∧
      (∀ j, j < r.length → fs._data.cells[j]? ≠ some 0) ∧
      r = fs.view.take r.length ∧
      r = fs.view.takeWhile (fun c => decide (c ≠ 0)) ∧
      ((∀ c, c ∈ fs.view → c ≠ 0) → r.length = N ∧ r = fs.view) ∧
      ∃ t, gs.c_str.read_terminated = Except.ok t ∧
        c_strcmp fs.c_str gs.c_str = Except.ok (decide (r = t)) := by
  refine ⟨rfl, ?_⟩
  have hf := fs.cells_of_terminated h
  have hgs := gs.cells_of_terminated hg
  obtain ⟨r, hr, htw, hlen, hstop, hbefore, htake, hall⟩ := read_until_terminator_append fs.view
  obtain ⟨t, ht, _⟩ := read_until_terminator_append gs.view
  rw [← hf] at hr hstop hbefore
  rw [← hgs] at ht
  rw [fs.length_view] at hlen
  refine ⟨r, hr, hlen, hstop, hbefore, htake, htw, ?_, t, ht, ?_⟩
  · intro hno
    have := hall hno
    exact ⟨by rw [this, fs.length_view], this⟩
  · exact c_strcmp_cells_eq _ _ r t hr ht

/-- C21, amended, at the instance holding `{ 'a', '\0', 'c' }`, whose content holds a
terminator, against the instance holding `"abc"`. -/
theorem terminated_pointer_reads_content_witness :
    (fs_a_0_c._data.cells[3]? = some 0 ∧ fs_abc._data.cells[3]? = some 0) ∧
    (fs_a_0_c.c_str = fs_a_0_c.data ∧
    ∃ r, fs_a_0_c.c_str.read_terminated = Except.ok r ∧
      r.length ≤ 3 ∧
      fs_a_0_c._data.cells[r.length]? = some 0 ∧
      (∀ j, j < r.length → fs_a_0_c._data.cells[j]? ≠ some 0) ∧
      r = fs_a_0_c.view.take r.length ∧
      r = fs_a_0_c.view.takeWhile (fun c => decide (c ≠ 0)) ∧
      ((∀ c, c ∈ fs_a_0_c.view → c ≠ 0) → r.length = 3 ∧ r = fs_a_0_c.view) ∧
      ∃ t, fs_abc.c_str.read_terminated = Except.ok t ∧
        c_strcmp fs_a_0_c.c_str fs_abc.c_str = Except.ok (decide (r = t))) ∧
    fs_a_0_c.c_str.read_terminated = Except.ok [97] ∧
    fs_abc.c_str.read_terminated = Except.ok [97, 98, 99] :=
  ⟨by decide, terminated_pointer_reads_content fs_a_0_c fs_abc (by decide) (by decide),
    by decide, by decide⟩

/-- C22 fails at index `N`: `swap` runs `std::swap_ranges` over
`[_data, _data + size())`, the `N` content cells, so for the buffers
`{ 'a', '\0' }` and `{ 'b', '7' }` the cells at index 1 stay where they were. -/
theorem swap_keeps_last_cell :
    fs_a.swap fs_b_unterminated = Except.ok (fs_b, fs_a_unterminated) ∧
    ¬ (∀ a1 c1, fs_a.swap fs_b_unterminated = Except.ok (a1, c1) →
      ∀ i, i ≤ 1 → a1._data.cells[i]? = fs_b_unterminated._data.cells[i]? ∧
        c1._data.cells[i]? = fs_a._data.cells[i]?) := by
  refine ⟨by decide, fun h => ?_⟩
  have := (h fs_b fs_a_unterminated (by decide) 1 (Nat.le_refl 1)).1
  exact absurd this (by decide)

/-- C22, amended. Swap exchanges the `N` content elements: for every two buffers
`a` and `c` of `N + 1` elements of one character type, whatever either holds at
index `N`, after `a.swap(c)` every index `i < N` satisfies `a'[i] = c[i]` and
`c'[i] = a[i]`, the element at index `N` of each buffer is the one it held
before, so that all `N + 1` elements are exchanged when the two buffers agree
at index `N`, and `swap` never fails. -/
theorem swap_exchanges_content_cells {N : Nat} (a c : basic_fixed_string CharT N) :
    ∃ a1 c1, a.swap c = Except.ok (a1, c1) ∧
      (∀ i, i < N → a1._data.cells[i]? = c._data.cells[i]? ∧
        c1._data.cells[i]? = a._data.cells[i]?) ∧
      a1._data.cells[N]? = a._data.cells[N]? ∧
      c1._data.cells[N]? = c._data.cells[N]? ∧
      (a._data.cells[N]? = c._data.cells[N]? →
        ∀ i, i ≤ N → a1._data.cells[i]? = c._data.cells[i]? ∧
          c1._data.cells[i]? = a._data.cells[i]?) := by
  obtain ⟨a1, c1, h, h1, h2⟩ := a.swap_ok c
  have la : (a._data.cells.take N).length = N := a.length_view
  have lc : (c._data.cells.take N).length = N := c.length_view
  have hlt : ∀ i, i < N → a1._data.cells[i]? = c._data.cells[i]? ∧
      c1._data.cells[i]? = a._data.cells[i]? := by
    intro i hi
    rw [h1, h2, List.getElem?_append_left (by rw [lc]; exact hi),
      List.getElem?_append_left (by rw [la]; exact hi),
      List.getElem?_take_of_lt hi, List.getElem?_take_of_lt hi]
    exact ⟨rfl, rfl⟩
  have hN1 : a1._data.cells[N]? = a._data.cells[N]? := by
    rw [h1, splice_getElem? _ _ _ (by rw [c._data.extent]; omega)]
  have hN2 : c1._data.cells[N]? = c._data.cells[N]? := by
    rw [h2, splice_getElem? _ _ _ (by rw [a._data.extent]; omega)]
  refine ⟨a1, c1, h, hlt, hN1, hN2, ?_⟩
  intro hsame i hi
  by_cases hiN : i < N
  · exact hlt i hiN
  · have : i = N := by omega
    rw [this, hN1, hN2]
    exact ⟨hsame, hsame.symm⟩

/-- C23. The ordering is a total order consistent with equality: for instances
`a`, `c`, `d` of one character type and any lengths, exactly one of `a < c`,
`a == c`, `c < a` holds; `a <=> c` is `equal` if and only if `a == c`;
`c <=> a` is the reverse of `a <=> c`; `a < c` and `c < d` give `a < d`.  Sorting
a sequence of instances of one length gives a permutation of it in which no
element is less than one before it; sorting `["c", "a", "b"]` gives
`["a", "b", "c"]`. -/
theorem ordering_is_total_order [LinearOrder CharT] {N N2 N3 : Nat}
    (a : basic_fixed_string CharT N) (c : basic_fixed_string CharT N2)
    (d : basic_fixed_string CharT N3) (arr : List (basic_fixed_string CharT N)) :
    ((operator_lt a c = true ∧ operator_eq a c = false ∧ operator_lt c a = false) ∨
      (operator_lt a c = false ∧ operator_eq a c = true ∧ operator_lt c a = false) ∨
      (operator_lt a c = false ∧ operator_eq a c = false ∧ operator_lt c a = true)) ∧
    (operator_spaceship a c = Ordering.eq ↔ operator_eq a c = true) ∧
    operator_spaceship c a = (operator_spaceship a c).swap ∧
    (operator_lt a c = true → operator_lt c d = true → operator_lt a d = true) ∧
    (sort arr).Perm arr ∧
    (sort arr).Pairwise (fun x y => operator_lt y x = false) ∧
    sort [fs_c, fs_a, fs_b] = [fs_a, fs_b, fs_c] := by
  have hswap : operator_spaceship c a = (operator_spaceship a c).swap :=
    basic_string_view_compare_swap a.view c.view
  refine ⟨?_, ?_, hswap, ?_, List.perm_insertionSort _ arr, ?_, by decide⟩
  · have h1 : operator_lt a c = (operator_spaceship a c == Ordering.lt) := rfl
    have h2 : operator_lt c a = (operator_spaceship c a == Ordering.lt) := rfl
    have h3 : operator_eq a c = (operator_spaceship a c == Ordering.eq) := rfl
    rw [h1, h2, h3, hswap]
    cases operator_spaceship a c <;> decide
  · have h3 : operator_eq a c = (operator_spaceship a c == Ordering.eq) := rfl
    rw [h3]
    cases operator_spaceship a c <;> decide
  · intro h1 h2
    rw [operator_lt_iff] at h1 h2 ⊢
    exact basic_string_view_compare_lt_trans _ _ _ h1 h2
  · haveI : IsTotal (basic_fixed_string CharT N) (fun x y => operator_lt y x = false) :=
      ⟨fun x y => by
        have h1 : operator_lt y x = (operator_spaceship y x == Ordering.lt) := rfl
        have h2 : operator_lt x y = (operator_spaceship x y == Ordering.lt) := rfl
        have hs : operator_spaceship y x = (operator_spaceship x y).swap :=
          basic_string_view_compare_swap x.view y.view
        show operator_lt y x = false ∨ operator_lt x y = false
        rw [h1, h2, hs]
        cases operator_spaceship x y <;> decide⟩
    haveI : IsTrans (basic_fixed_string CharT N) (fun x y => operator_lt y x = false) :=
      ⟨fun x y z h1 h2 => by
        have g1 := (operator_lt_eq_false_iff x y).mp h1
        have g2 := (operator_lt_eq_false_iff y z).mp h2
        exact (operator_lt_eq_false_iff x z).mpr
          (basic_string_view_compare_le_trans _ _ _ g1 g2)⟩
    exact List.sorted_insertionSort (fun x y => operator_lt y x = false) arr

/-- C24. Every concatenation form meets the precondition of the iterator-pair
constructor and stays inside its scratch array: in each of the five `operator+`
overloads every write through the cursor `it` lands in a cell of the local
array `str` (each loop returns without a fault), on return the cursor is at the
result length, which is at most the extent of `str`, the range `[str, it)` has
exactly that many elements, and so the assertion
`std::distance(first, last) == N` of the constructor that builds the result
holds.  The range handed to the constructor is a pair of pointers into `str`.
The instance and character forms never fail; a literal form fails only by its
own assertion on the last element of the literal. -/
theorem concatenation_stays_in_scratch [Zero CharT] [DecidableEq CharT] {N N2 M : Nat}
    (b : build) (lhs : basic_fixed_string CharT N) (rhs : basic_fixed_string CharT N2)
    (ch : CharT) (lit : c_array CharT (M + 1))
    (s1 : c_array CharT (N + N2)) (r1 : basic_fixed_string CharT (N + N2))
    (s2 : c_array CharT (N + 1)) (r2 : basic_fixed_string CharT (N + 1))
    (r3 : basic_fixed_string CharT (1 + N))
    (s4 : c_array CharT (N + M)) (r4 : basic_fixed_string CharT (N + M))
    (s5 : c_array CharT (M + N)) (r5 : basic_fixed_string CharT (M + N)) :
    (∃ d1 d2, lhs.append_to (s1, 0) = Except.ok (d1, N) ∧
      rhs.append_to (d1, N) = Except.ok (d2, N + N2) ∧
      N + N2 ≤ s1.cells.length ∧ (c_array.upto (d2, N + N2)).length = N + N2 ∧
      MTP_EXPECTS b (Except.ok (decide ((c_array.upto (d2, N + N2)).length = N + N2)))
        = Except.ok () ∧
      operator_plus b s1 r1 lhs rhs
        = basic_fixed_string.from_iterators b r1 (pointer_range (c_array.upto (d2, N + N2))) ∧
      ∃ fs, operator_plus b s1 r1 lhs rhs = Except.ok fs) ∧
    (∃ d1 d2, lhs.append_to (s2, 0) = Except.ok (d1, N) ∧
      c_array.put (d1, N) ch = Except.ok (d2, N + 1) ∧
      N + 1 ≤ s2.cells.length ∧ (c_array.upto (d2, N + 1)).length = N + 1 ∧
      MTP_EXPECTS b (Except.ok (decide ((c_array.upto (d2, N + 1)).length = N + 1)))
        = Except.ok () ∧
      operator_plus_char b s2 r2 lhs ch
        = basic_fixed_string.from_iterators b r2 (pointer_range (c_array.upto (d2, N + 1))) ∧
      ∃ fs, operator_plus_char b s2 r2 lhs ch = Except.ok fs) ∧
    (∃ d1 d2, c_array.put (s2, 0) ch = Except.ok (d1, 1) ∧
      lhs.append_to (d1, 1) = Except.ok (d2, 1 + N) ∧
      1 + N ≤ s2.cells.length ∧ (c_array.upto (d2, 1 + N)).length = 1 + N ∧
      MTP_EXPECTS b (Except.ok (decide ((c_array.upto (d2, 1 + N)).length = 1 + N)))
        = Except.ok () ∧
      char_operator_plus b s2 r3 ch lhs
        = basic_fixed_string.from_iterators b r3 (pointer_range (c_array.upto (d2, 1 + N))) ∧
      ∃ fs, char_operator_plus b s2 r3 ch lhs = Except.ok fs) ∧
    (∃ d1 d2, lhs.append_to (s4, 0) = Except.ok (d1, N) ∧
      lit.append_to (d1, N) = Except.ok (d2, N + (M + 1 - 1)) ∧
      N + (M + 1 - 1) ≤ s4.cells.length ∧
      (c_array.upto (d2, N + (M + 1 - 1))).length = N + (M + 1 - 1) ∧
      MTP_EXPECTS b (Except.ok
        (decide ((c_array.upto (d2, N + (M + 1 - 1))).length = N + (M + 1 - 1))))
        = Except.ok () ∧
      (∀ e, operator_plus_literal b s4 r4 lhs lit = Except.error e →
        e = fault.contract_violation ∧ lit.cells[M + 1 - 1]? ≠ some 0) ∧
      (lit.cells[M + 1 - 1]? = some 0 →
        operator_plus_literal b s4 r4 lhs lit
          = basic_fixed_string.from_iterators b r4
              (pointer_range (c_array.upto (d2, N + (M + 1 - 1)))))) ∧
    (∃ d1 d2, lit.append_to (s5, 0) = Except.ok (d1, M + 1 - 1) ∧
      lhs.append_to (d1, M + 1 - 1) = Except.ok (d2, (M + 1 - 1) + N) ∧
      (M + 1 - 1) + N ≤ s5.cells.length ∧
      (c_array.upto (d2, (M + 1 - 1) + N)).length = (M + 1 - 1) + N ∧
      MTP_EXPECTS b (Except.ok
        (decide ((c_array.upto (d2, (M + 1 - 1) + N)).length = (M + 1 - 1) + N)))
        = Except.ok () ∧
      (∀ e, literal_operator_plus b s5 r5 lit lhs = Except.error e →
        e = fault.contract_violation ∧ lit.cells[M + 1 - 1]? ≠ some 0) ∧
      (lit.cells[M + 1 - 1]? = some 0 →
        literal_operator_plus b s5 r5 lit lhs
          = basic_fixed_string.from_iterators b r5
              (pointer_range (c_array.upto (d2, (M + 1 - 1) + N))))) := by
  have hM : M + 1 - 1 = M := rfl
  refine ⟨?_, ?_, ?_, ?_, ?_⟩
  · obtain ⟨d1, h1, _⟩ := lhs.append_to_upto s1 0 (by omega)
    rw [Nat.zero_add] at h1
    obtain ⟨d2, h2, _⟩ := rhs.append_to_upto d1 N (by omega)
    have hl := c_array.length_upto d2 (N + N2) (by omega)
    have hop : operator_plus b s1 r1 lhs rhs
        = basic_fixed_string.from_iterators b r1 (pointer_range (c_array.upto (d2, N + N2))) := by
      unfold operator_plus
      rw [h1, ok_bind, h2, ok_bind]
    obtain ⟨fs, hfs, _⟩ := operator_plus_ok b s1 r1 lhs rhs
    exact ⟨d1, d2, h1, h2, by rw [s1.extent], hl, MTP_EXPECTS_distance b _ _ hl, hop, fs, hfs⟩
  · obtain ⟨d1, h1, _⟩ := lhs.append_to_upto s2 0 (by omega)
    rw [Nat.zero_add] at h1
    obtain ⟨d2, h2, _⟩ := d1.put_upto N ch (by omega)
    have hl := c_array.length_upto d2 (N + 1) (by omega)
    have hop : operator_plus_char b s2 r2 lhs ch
        = basic_fixed_string.from_iterators b r2 (pointer_range (c_array.upto (d2, N + 1))) := by
      unfold operator_plus_char
      rw [h1, ok_bind, h2, ok_bind]
    obtain ⟨fs, hfs, _⟩ := operator_plus_char_ok b s2 r2 lhs ch
    exact ⟨d1, d2, h1, h2, by rw [s2.extent], hl, MTP_EXPECTS_distance b _ _ hl, hop, fs, hfs⟩
  · obtain ⟨d1, h1, _⟩ := s2.put_upto 0 ch (by omega)
    rw [Nat.zero_add] at h1
    obtain ⟨d2, h2, _⟩ := lhs.append_to_upto d1 1 (by omega)
    have hl := c_array.length_upto d2 (1 + N) (by omega)
    have hop : char_operator_plus b s2 r3 ch lhs
        = basic_fixed_string.from_iterators b r3 (pointer_range (c_array.upto (d2, 1 + N))) := by
      unfold char_operator_plus
      rw [h1, ok_bind, h2, ok_bind]
    obtain ⟨fs, hfs, _⟩ := char_operator_plus_ok b s2 r3 ch lhs
    exact ⟨d1, d2, h1, h2, by rw [s2.extent]; omega, hl, MTP_EXPECTS_distance b _ _ hl, hop,
      fs, hfs⟩
  · obtain ⟨d1, h1, _⟩ := lhs.append_to_upto s4 0 (by omega)
    rw [Nat.zero_add] at h1
    obtain ⟨d2, h2, _⟩ := lit.append_literal_upto d1 N (by omega)
    have hl := c_array.length_upto d2 (N + (M + 1 - 1)) (by omega)
    obtain ⟨c, fs, hc, _, hop⟩ := operator_plus_literal_eq b s4 r4 lhs lit
    refine ⟨d1, d2, h1, h2, by rw [s4.extent]; omega, hl, MTP_EXPECTS_distance b _ _ hl, ?_, ?_⟩
    · intro e he
      rw [hop] at he
      by_cases hok : b.expects = expects_expansion.nothing ∨ c = 0
      · rw [if_pos hok] at he
        exact Except.noConfusion he
      · rw [if_neg hok] at he
        refine ⟨(Except.error.inj he).symm, ?_⟩
        rw [hM, hc]
        exact fun h0 => hok (Or.inr (Option.some.inj h0))
    · intro hlit
      unfold operator_plus_literal
      rw [MTP_EXPECTS_terminated b lit _ hlit, ok_bind, h1, ok_bind, h2, ok_bind]
  · obtain ⟨d1, h1, _⟩ := lit.append_literal_upto s5 0 (by omega)
    rw [Nat.zero_add] at h1
    obtain ⟨d2, h2, _⟩ := lhs.append_to_upto d1 (M + 1 - 1) (by omega)
    have hl := c_array.length_upto d2 ((M + 1 - 1) + N) (by omega)
    obtain ⟨c, fs, hc, _, hop⟩ := literal_operator_plus_eq b s5 r5 lit lhs
    refine ⟨d1, d2, h1, h2, by rw [s5.extent]; omega, hl, MTP_EXPECTS_distance b _ _ hl, ?_, ?_⟩
    · intro e he
      rw [hop] at he
      by_cases hok : b.expects = expects_expansion.nothing ∨ c = 0
      · rw [if_pos hok] at he
        exact Except.noConfusion he
      · rw [if_neg hok] at he
        refine ⟨(Except.error.inj he).symm, ?_⟩
        rw [hM, hc]
        exact fun h0 => hok (Or.inr (Option.some.inj h0))
    · intro hlit
      unfold literal_operator_plus
      rw [MTP_EXPECTS_terminated b lit _ hlit, ok_bind, h1, ok_bind, h2, ok_bind]

/-- C25. Concatenation is associative and the empty instance is its identity:
for every `a`, `c`, `d` of lengths `N`, `M`, `K`, `(a + c) + d` and `a + (c + d)`
both have length `N + M + K`, hold the same buffer and compare equal; for every
instance `e` of length zero, `a + e == a` and `e + a == a`, with the buffer of
`a` itself when `a` has the terminator at index `N`.  The same regrouping holds
across the mixed forms: for all instances, characters and terminator-ending
literals of any lengths, every chain of three operands that can be grouped
both ways returns the same buffer under both groupings, whichever of the five
forms its two steps use; for arrays that do not end in the terminator the two
groupings still have the same outcome, the same buffer where the build leaves
the assertion out and the failure of the assertion where it does not; and the
two expressions of the test,
`(instance + character) + literal` and `literal + (character + instance)`,
return the concatenation of the contents of their operands for all operands,
hence the same instance when those concatenations agree, as in the test where
`basic_fixed_string{'a'} + 'b' + "c"` and
`"a" + ('b' + basic_fixed_string{'c'})` both are the instance `"abc"`. -/
theorem concatenation_associative_identity [LinearOrder CharT] [Zero CharT]
    {N M K P Q : Nat} (b : build) (a : basic_fixed_string CharT N)
    (c : basic_fixed_string CharT M) (d : basic_fixed_string CharT K)
    (e : basic_fixed_string CharT 0) (ch ch2 : CharT)
    (lit : c_array CharT (P + 1)) (lit2 : c_array CharT (Q + 1))
    (s1 : c_array CharT (N + M)) (r1 : basic_fixed_string CharT (N + M))
    (s2 : c_array CharT (N + M + K)) (r2 : basic_fixed_string CharT (N + M + K))
    (s3 : c_array CharT (M + K)) (r3 : basic_fixed_string CharT (M + K))
    (s4 : c_array CharT (N + (M + K))) (r4 : basic_fixed_string CharT (N + (M + K)))
    (s5 : c_array CharT (N + 0)) (r5 : basic_fixed_string CharT (N + 0))
    (s6 : c_array CharT (0 + N)) (r6 : basic_fixed_string CharT (0 + N)) :
    (∃ ac x cd y, operator_plus b s1 r1 a c = Except.ok ac ∧
      operator_plus b s2 r2 ac d = Except.ok x ∧
      operator_plus b s3 r3 c d = Except.ok cd ∧
      operator_plus b s4 r4 a cd = Except.ok y ∧
      x.size = N + M + K ∧ y.size = N + M + K ∧
      x._data.cells = y._data.cells ∧ operator_eq x y = true) ∧
    (∃ ae ea, operator_plus b s5 r5 a e = Except.ok ae ∧
      operator_plus b s6 r6 e a = Except.ok ea ∧
      operator_eq ae a = true ∧ operator_eq ea a = true ∧
      (a._data.cells[N]? = some 0 →
        ae._data.cells = a._data.cells ∧ ea._data.cells = a._data.cells)) ∧
    (∀ t1 u1 t2 u2 t3 u3 t4 u4, ∃ p x q y,
      operator_plus_char b t1 u1 a ch = Except.ok p ∧
      operator_plus b t2 u2 p d = Except.ok x ∧
      char_operator_plus b t3 u3 ch d = Except.ok q ∧
      operator_plus b t4 u4 a q = Except.ok y ∧
      x._data.cells = y._data.cells ∧ operator_eq x y = true) ∧
    (∀ t1 u1 t2 u2 t3 u3 t4 u4, ∃ p x q y,
      char_operator_plus b t1 u1 ch a = Except.ok p ∧
      operator_plus_char b t2 u2 p ch2 = Except.ok x ∧
      operator_plus_char b t3 u3 a ch2 = Except.ok q ∧
      char_operator_plus b t4 u4 ch q = Except.ok y ∧
      x._data.cells = y._data.cells ∧ operator_eq x y = true) ∧
    (∀ t1 u1 t2 u2 t3 u3 t4 u4, ∃ p x q y,
      operator_plus b t1 u1 a c = Except.ok p ∧
      operator_plus_char b t2 u2 p ch = Except.ok x ∧
      operator_plus_char b t3 u3 c ch = Except.ok q ∧
      operator_plus b t4 u4 a q = Except.ok y ∧
      x._data.cells = y._data.cells ∧ operator_eq x y = true) ∧
    (∀ t1 u1 t2 u2 t3 u3 t4 u4, ∃ p x q y,
      char_operator_plus b t1 u1 ch a = Except.ok p ∧
      operator_plus b t2 u2 p d = Except.ok x ∧
      operator_plus b t3 u3 a d = Except.ok q ∧
      char_operator_plus b t4 u4 ch q = Except.ok y ∧
      x._data.cells = y._data.cells ∧ operator_eq x y = true) ∧
    (lit.cells[P]? = some 0 → lit2.cells[Q]? = some 0 →
      (∀ t1 u1 t2 u2 t3 u3 t4 u4, ∃ p x q y,
        operator_plus_literal b t1 u1 a lit = Except.ok p ∧
        operator_plus b t2 u2 p d = Except.ok x ∧
        literal_operator_plus b t3 u3 lit d = Except.ok q ∧
        operator_plus b t4 u4 a q = Except.ok y ∧
        x._data.cells = y._data.cells ∧ operator_eq x y = true) ∧
      (∀ t1 u1 t2 u2 t3 u3 t4 u4, ∃ p x q y,
        literal_operator_plus b t1 u1 lit a = Except.ok p ∧
        operator_plus_literal b t2 u2 p lit2 = Except.ok x ∧
        operator_plus_literal b t3 u3 a lit2 = Except.ok q ∧
        literal_operator_plus b t4 u4 lit q = Except.ok y ∧
        x._data.cells = y._data.cells ∧ operator_eq x y = true) ∧
      (∀ t1 u1 t2 u2 t3 u3 t4 u4, ∃ p x q y,
        char_operator_plus b t1 u1 ch a = Except.ok p ∧
        operator_plus_literal b t2 u2 p lit = Except.ok x ∧
        operator_plus_literal b t3 u3 a lit = Except.ok q ∧
        char_operator_plus b t4 u4 ch q = Except.ok y ∧
        x._data.cells = y._data.cells ∧ operator_eq x y = true) ∧
      (∀ t1 u1 t2 u2 t3 u3 t4 u4, ∃ p x q y,
        literal_operator_plus b t1 u1 lit a = Except.ok p ∧
        operator_plus_char b t2 u2 p ch = Except.ok x ∧
        operator_plus_char b t3 u3 a ch = Except.ok q ∧
        literal_operator_plus b t4 u4 lit q = Except.ok y ∧
        x._data.cells = y._data.cells ∧ operator_eq x y = true) ∧
      (∀ t1 u1 t2 u2 t3 u3 t4 u4, ∃ p x q y,
        operator_plus b t1 u1 a c = Except.ok p ∧
        operator_plus_literal b t2 u2 p lit = Except.ok x ∧
        operator_plus_literal b t3 u3 c lit = Except.ok q ∧
        operator_plus b t4 u4 a q = Except.ok y ∧
        x._data.cells = y._data.cells ∧ operator_eq x y = true) ∧
      (∀ t1 u1 t2 u2 t3 u3 t4 u4, ∃ p x q y,
        literal_operator_plus b t1 u1 lit a = Except.ok p ∧
        operator_plus b t2 u2 p d = Except.ok x ∧
        operator_plus b t3 u3 a d = Except.ok q ∧
        literal_operator_plus b t4 u4 lit q = Except.ok y ∧
        x._data.cells = y._data.cells ∧ operator_eq x y = true) ∧
      (∀ t1 u1 t2 u2 t3 u3 t4 u4, ∃ p x q y,
        operator_plus_char b t1 u1 a ch = Except.ok p ∧
        operator_plus_literal b t2 u2 p lit = Except.ok x ∧
        char_operator_plus b t3 u3 ch2 d = Except.ok q ∧
        literal_operator_plus b t4 u4 lit2 q = Except.ok y ∧
        x.view = a.view ++ [ch] ++ lit.cells.take P ∧
        y.view = lit2.cells.take Q ++ ([ch2] ++ d.view) ∧
        (a.view ++ [ch] ++ lit.cells.take P = lit2.cells.take Q ++ ([ch2] ++ d.view) →
          x._data.cells = y._data.cells ∧ operator_eq x y = true))) ∧
    (∀ t1 u1 t2 u2 t3 u3 t4 u4,
      Except.map (fun x => x._data.cells)
        (operator_plus_literal b t1 u1 a lit >>= fun p => operator_plus b t2 u2 p d) =
      Except.map (fun y => y._data.cells)
        (literal_operator_plus b t3 u3 lit d >>= fun q => operator_plus b t4 u4 a q)) ∧
    (∀ t1 u1 t2 u2 t3 u3 t4 u4,
      Except.map (fun x => x._data.cells)
        (literal_operator_plus b t1 u1 lit a >>= fun p => operator_plus_literal b t2 u2 p lit2) =
      Except.map (fun y => y._data.cells)
        (operator_plus_literal b t3 u3 a lit2 >>= fun q => literal_operator_plus b t4 u4 lit q)) ∧
    (∀ t1 u1 t2 u2 t3 u3 t4 u4,
      Except.map (fun x => x._data.cells)
        (char_operator_plus b t1 u1 ch a >>= fun p => operator_plus_literal b t2 u2 p lit) =
      Except.map (fun y => y._data.cells)
        (operator_plus_literal b t3 u3 a lit >>= fun q => char_operator_plus b t4 u4 ch q)) ∧
    (∀ t1 u1 t2 u2 t3 u3 t4 u4,
      Except.map (fun x => x._data.cells)
        (literal_operator_plus b t1 u1 lit a >>= fun p => operator_plus_char b t2 u2 p ch) =
      Except.map (fun y => y._data.cells)
        (operator_plus_char b t3 u3 a ch >>= fun q => literal_operator_plus b t4 u4 lit q)) ∧
    (∀ t1 u1 t2 u2 t3 u3 t4 u4,
      Except.map (fun x => x._data.cells)
        (operator_plus b t1 u1 a c >>= fun p => operator_plus_literal b t2 u2 p lit) =
      Except.map (fun y => y._data.cells)
        (operator_plus_literal b t3 u3 c lit >>= fun q => operator_plus b t4 u4 a q)) ∧
    (∀ t1 u1 t2 u2 t3 u3 t4 u4,
      Except.map (fun x => x._data.cells)
        (literal_operator_plus b t1 u1 lit a >>= fun p => operator_plus b t2 u2 p d) =
      Except.map (fun y => y._data.cells)
        (operator_plus b t3 u3 a d >>= fun q => literal_operator_plus b t4 u4 lit q)) ∧
    (operator_plus_char gnu_build (indeterminate (1 + 1)) (storage (1 + 1)) fs_a 98 >>=
        fun ab => operator_plus_literal gnu_build (indeterminate (2 + (2 - 1)))
          (storage (2 + (2 - 1))) ab sl_c) = Except.ok fs_abc ∧
    (char_operator_plus gnu_build (indeterminate (1 + 1)) (storage (1 + 1)) 98 fs_c >>=
        fun bc => literal_operator_plus gnu_build (indeterminate ((2 - 1) + 2))
          (storage ((2 - 1) + 2)) sl_a bc) = Except.ok fs_abc := by
  refine ⟨?_, ?_, ?_, ?_, ?_, ?_, ?_, ?_, ?_, ?_, ?_, ?_, ?_, by decide, by decide⟩
  · obtain ⟨ac, hac, cac⟩ := operator_plus_ok b s1 r1 a c
    obtain ⟨x, hx, cx⟩ := operator_plus_ok b s2 r2 ac d
    obtain ⟨cd, hcd, ccd⟩ := operator_plus_ok b s3 r3 c d
    obtain ⟨y, hy, cy⟩ := operator_plus_ok b s4 r4 a cd
    have lac : (a.view ++ c.view).length = N + M := by
      rw [List.length_append, a.length_view, c.length_view]
    have lcd : (c.view ++ d.view).length = M + K := by
      rw [List.length_append, c.length_view, d.length_view]
    have vac : ac.view = a.view ++ c.view := (ac.view_append _ 0 lac cac).1
    have vcd : cd.view = c.view ++ d.view := (cd.view_append _ 0 lcd ccd).1
    rw [vac] at cx
    rw [vcd] at cy
    have hcells : x._data.cells = y._data.cells := by
      rw [cx, cy, List.append_assoc a.view c.view d.view]
    have lx : (a.view ++ c.view ++ d.view).length = N + M + K := by
      rw [List.length_append, lac, d.length_view]
    have ly : (a.view ++ (c.view ++ d.view)).length = N + (M + K) := by
      rw [List.length_append, lcd, a.length_view]
    have vx : x.view = a.view ++ c.view ++ d.view := (x.view_append _ 0 lx cx).1
    have vy : y.view = a.view ++ (c.view ++ d.view) := (y.view_append _ 0 ly cy).1
    refine ⟨ac, x, cd, y, hac, hx, hcd, hy, rfl, ?_, hcells, ?_⟩
    · show N + (M + K) = N + M + K
      omega
    · unfold operator_eq
      rw [basic_string_view_eq_iff, vx, vy, List.append_assoc]
  · obtain ⟨ae, hae, cae⟩ := operator_plus_ok b s5 r5 a e
    obtain ⟨ea, hea, cea⟩ := operator_plus_ok b s6 r6 e a
    have ve : e.view = [] := List.length_eq_zero.mp e.length_view
    rw [ve, List.append_nil] at cae
    rw [ve, List.nil_append] at cea
    have la : a.view.length = N + 0 := a.length_view
    have la2 : a.view.length = 0 + N := by rw [a.length_view, Nat.zero_add]
    have vae : ae.view = a.view := (ae.view_append _ 0 la cae).1
    have vea : ea.view = a.view := (ea.view_append _ 0 la2 cea).1
    refine ⟨ae, ea, hae, hea, ?_, ?_, ?_⟩
    · unfold operator_eq
      rw [basic_string_view_eq_iff, vae]
    · unfold operator_eq
      rw [basic_string_view_eq_iff, vea]
    · intro hterm
      rw [cae, cea, a.cells_of_terminated hterm]
      exact ⟨rfl, rfl⟩
  · intro t1 u1 t2 u2 t3 u3 t4 u4
    obtain ⟨p, hp, vp, _⟩ := operator_plus_char_view b t1 u1 a ch
    obtain ⟨x, hx, vx, cx⟩ := operator_plus_view b t2 u2 p d
    obtain ⟨q, hq, vq, _⟩ := char_operator_plus_view b t3 u3 ch d
    obtain ⟨y, hy, vy, cy⟩ := operator_plus_view b t4 u4 a q
    rw [vp] at vx
    rw [vq] at vy
    exact ⟨p, x, q, y, hp, hx, hq, hy,
      same_buffer x y _ _ vx cx vy cy (List.append_assoc _ _ _)⟩
  · intro t1 u1 t2 u2 t3 u3 t4 u4
    obtain ⟨p, hp, vp, _⟩ := char_operator_plus_view b t1 u1 ch a
    obtain ⟨x, hx, vx, cx⟩ := operator_plus_char_view b t2 u2 p ch2
    obtain ⟨q, hq, vq, _⟩ := operator_plus_char_view b t3 u3 a ch2
    obtain ⟨y, hy, vy, cy⟩ := char_operator_plus_view b t4 u4 ch q
    rw [vp] at vx
    rw [vq] at vy
    exact ⟨p, x, q, y, hp, hx, hq, hy,
      same_buffer x y _ _ vx cx vy cy (List.append_assoc _ _ _)⟩
  · intro t1 u1 t2 u2 t3 u3 t4 u4
    obtain ⟨p, hp, vp, _⟩ := operator_plus_view b t1 u1 a c
    obtain ⟨x, hx, vx, cx⟩ := operator_plus_char_view b t2 u2 p ch
    obtain ⟨q, hq, vq, _⟩ := operator_plus_char_view b t3 u3 c ch
    obtain ⟨y, hy, vy, cy⟩ := operator_plus_view b t4 u4 a q
    rw [vp] at vx
    rw [vq] at vy
    exact ⟨p, x, q, y, hp, hx, hq, hy,
      same_buffer x y _ _ vx cx vy cy (List.append_assoc _ _ _)⟩
  · intro t1 u1 t2 u2 t3 u3 t4 u4
    obtain ⟨p, hp, vp, _⟩ := char_operator_plus_view b t1 u1 ch a
    obtain ⟨x, hx, vx, cx⟩ := operator_plus_view b t2 u2 p d
    obtain ⟨q, hq, vq, _⟩ := operator_plus_view b t3 u3 a d
    obtain ⟨y, hy, vy, cy⟩ := char_operator_plus_view b t4 u4 ch q
    rw [vp] at vx
    rw [vq] at vy
    exact ⟨p, x, q, y, hp, hx, hq, hy,
      same_buffer x y _ _ vx cx vy cy (List.append_assoc _ _ _)⟩
  · intro hl hl2
    refine ⟨?_, ?_, ?_, ?_, ?_, ?_, ?_⟩
    · intro t1 u1 t2 u2 t3 u3 t4 u4
      obtain ⟨p, hp, vp, _⟩ := operator_plus_literal_view b t1 u1 a lit hl
      obtain ⟨x, hx, vx, cx⟩ := operator_plus_view b t2 u2 p d
      obtain ⟨q, hq, vq, _⟩ := literal_operator_plus_view b t3 u3 lit d hl
      obtain ⟨y, hy, vy, cy⟩ := operator_plus_view b t4 u4 a q
      rw [vp] at vx
      rw [vq] at vy
      exact ⟨p, x, q, y, hp, hx, hq, hy,
        same_buffer x y _ _ vx cx vy cy (List.append_assoc _ _ _)⟩
    · intro t1 u1 t2 u2 t3 u3 t4 u4
      obtain ⟨p, hp, vp, _⟩ := literal_operator_plus_view b t1 u1 lit a hl
      obtain ⟨x, hx, vx, cx⟩ := operator_plus_literal_view b t2 u2 p lit2 hl2
      obtain ⟨q, hq, vq, _⟩ := operator_plus_literal_view b t3 u3 a lit2 hl2
      obtain ⟨y, hy, vy, cy⟩ := literal_operator_plus_view b t4 u4 lit q hl
      rw [vp] at vx
      rw [vq] at vy
      exact ⟨p, x, q, y, hp, hx, hq, hy,
        same_buffer x y _ _ vx cx vy cy (List.append_assoc _ _ _)⟩
    · intro t1 u1 t2 u2 t3 u3 t4 u4
      obtain ⟨p, hp, vp, _⟩ := char_operator_plus_view b t1 u1 ch a
      obtain ⟨x, hx, vx, cx⟩ := operator_plus_literal_view b t2 u2 p lit hl
      obtain ⟨q, hq, vq, _⟩ := operator_plus_literal_view b t3 u3 a lit hl
      obtain ⟨y, hy, vy, cy⟩ := char_operator_plus_view b t4 u4 ch q
      rw [vp] at vx
      rw [vq] at vy
      exact ⟨p, x, q, y, hp, hx, hq, hy,
        same_buffer x y _ _ vx cx vy cy (List.append_assoc _ _ _)⟩
    · intro t1 u1 t2 u2 t3 u3 t4 u4
      obtain ⟨p, hp, vp, _⟩ := literal_operator_plus_view b t1 u1 lit a hl
      obtain ⟨x, hx, vx, cx⟩ := operator_plus_char_view b t2 u2 p ch
      obtain ⟨q, hq, vq, _⟩ := operator_plus_char_view b t3 u3 a ch
      obtain ⟨y, hy, vy, cy⟩ := literal_operator_plus_view b t4 u4 lit q hl
      rw [vp] at vx
      rw [vq] at vy
      exact ⟨p, x, q, y, hp, hx, hq, hy,
        same_buffer x y _ _ vx cx vy cy (List.append_assoc _ _ _)⟩
    · intro t1 u1 t2 u2 t3 u3 t4 u4
      obtain ⟨p, hp, vp, _⟩ := operator_plus_view b t1 u1 a c
      obtain ⟨x, hx, vx, cx⟩ := operator_plus_literal_view b t2 u2 p lit hl
      obtain ⟨q, hq, vq, _⟩ := operator_plus_literal_view b t3 u3 c lit hl
      obtain ⟨y, hy, vy, cy⟩ := operator_plus_view b t4 u4 a q
      rw [vp] at vx
      rw [vq] at vy
      exact ⟨p, x, q, y, hp, hx, hq, hy,
        same_buffer x y _ _ vx cx vy cy (List.append_assoc _ _ _)⟩
    · intro t1 u1 t2 u2 t3 u3 t4 u4
      obtain ⟨p, hp, vp, _⟩ := literal_operator_plus_view b t1 u1 lit a hl
      obtain ⟨x, hx, vx, cx⟩ := operator_plus_view b t2 u2 p d
      obtain ⟨q, hq, vq, _⟩ := operator_plus_view b t3 u3 a d
      obtain ⟨y, hy, vy, cy⟩ := literal_operator_plus_view b t4 u4 lit q hl
      rw [vp] at vx
      rw [vq] at vy
      exact ⟨p, x, q, y, hp, hx, hq, hy,
        same_buffer x y _ _ vx cx vy cy (List.append_assoc _ _ _)⟩
    · intro t1 u1 t2 u2 t3 u3 t4 u4
      obtain ⟨p, hp, vp, _⟩ := operator_plus_char_view b t1 u1 a ch
      obtain ⟨x, hx, vx, cx⟩ := operator_plus_literal_view b t2 u2 p lit hl
      obtain ⟨q, hq, vq, _⟩ := char_operator_plus_view b t3 u3 ch2 d
      obtain ⟨y, hy, vy, cy⟩ := literal_operator_plus_view b t4 u4 lit2 q hl2
      rw [vp] at vx
      rw [vq] at vy
      exact ⟨p, x, q, y, hp, hx, hq, hy, vx, vy,
        fun hsame => same_buffer x y _ _ vx cx vy cy hsame⟩
  · intro t1 u1 t2 u2 t3 u3 t4 u4
    by_cases h : b.expects = expects_expansion.nothing ∨ lit.cells[P]? = some 0
    · obtain ⟨p, hp, vp, _⟩ := (operator_plus_literal_outcome b t1 u1 a lit).1 h
      obtain ⟨x, hx, vx, cx⟩ := operator_plus_view b t2 u2 p d
      obtain ⟨q, hq, vq, _⟩ := (literal_operator_plus_outcome b t3 u3 lit d).1 h
      obtain ⟨y, hy, vy, cy⟩ := operator_plus_view b t4 u4 a q
      rw [vp] at vx
      rw [vq] at vy
      rw [hp, ok_bind, hx, hq, ok_bind, hy, map_ok, map_ok]
      exact congrArg Except.ok (same_buffer x y _ _ vx cx vy cy (List.append_assoc _ _ _)).1
    · rw [(operator_plus_literal_outcome b t1 u1 a lit).2 h,
        (literal_operator_plus_outcome b t3 u3 lit d).2 h, error_bind, error_bind,
        map_error, map_error]
  · intro t1 u1 t2 u2 t3 u3 t4 u4
    by_cases h : b.expects = expects_expansion.nothing ∨ lit.cells[P]? = some 0
    · obtain ⟨p, hp, vp, _⟩ := (literal_operator_plus_outcome b t1 u1 lit a).1 h
      by_cases h2 : b.expects = expects_expansion.nothing ∨ lit2.cells[Q]? = some 0
      · obtain ⟨x, hx, vx, cx⟩ := (operator_plus_literal_outcome b t2 u2 p lit2).1 h2
        obtain ⟨q, hq, vq, _⟩ := (operator_plus_literal_outcome b t3 u3 a lit2).1 h2
        obtain ⟨y, hy, vy, cy⟩ := (literal_operator_plus_outcome b t4 u4 lit q).1 h
        rw [vp] at vx
        rw [vq] at vy
        rw [hp, ok_bind, hx, hq, ok_bind, hy, map_ok, map_ok]
        exact congrArg Except.ok (same_buffer x y _ _ vx cx vy cy (List.append_assoc _ _ _)).1
      · rw [hp, ok_bind, (operator_plus_literal_outcome b t2 u2 p lit2).2 h2,
          (operator_plus_literal_outcome b t3 u3 a lit2).2 h2, error_bind, map_error, map_error]
    · rw [(literal_operator_plus_outcome b t1 u1 lit a).2 h, error_bind, map_error]
      by_cases h2 : b.expects = expects_expansion.nothing ∨ lit2.cells[Q]? = some 0
      · obtain ⟨q, hq, _, _⟩ := (operator_plus_literal_outcome b t3 u3 a lit2).1 h2
        rw [hq, ok_bind, (literal_operator_plus_outcome b t4 u4 lit q).2 h, map_error]
      · rw [(operator_plus_literal_outcome b t3 u3 a lit2).2 h2, error_bind, map_error]
  · intro t1 u1 t2 u2 t3 u3 t4 u4
    obtain ⟨p, hp, vp, _⟩ := char_operator_plus_view b t1 u1 ch a
    by_cases h : b.expects = expects_expansion.nothing ∨ lit.cells[P]? = some 0
    · obtain ⟨x, hx, vx, cx⟩ := (operator_plus_literal_outcome b t2 u2 p lit).1 h
      obtain ⟨q, hq, vq, _⟩ := (operator_plus_literal_outcome b t3 u3 a lit).1 h
      obtain ⟨y, hy, vy, cy⟩ := char_operator_plus_view b t4 u4 ch q
      rw [vp] at vx
      rw [vq] at vy
      rw [hp, ok_bind, hx, hq, ok_bind, hy, map_ok, map_ok]
      exact congrArg Except.ok (same_buffer x y _ _ vx cx vy cy (List.append_assoc _ _ _)).1
    · rw [hp, ok_bind, (operator_plus_literal_outcome b t2 u2 p lit).2 h,
        (operator_plus_literal_outcome b t3 u3 a lit).2 h, error_bind, map_error, map_error]
  · intro t1 u1 t2 u2 t3 u3 t4 u4
    by_cases h : b.expects = expects_expansion.nothing ∨ lit.cells[P]? = some 0
    · obtain ⟨p, hp, vp, _⟩ := (literal_operator_plus_outcome b t1 u1 lit a).1 h
      obtain ⟨x, hx, vx, cx⟩ := operator_plus_char_view b t2 u2 p ch
      obtain ⟨q, hq, vq, _⟩ := operator_plus_char_view b t3 u3 a ch
      obtain ⟨y, hy, vy, cy⟩ := (literal_operator_plus_outcome b t4 u4 lit q).1 h
      rw [vp] at vx
      rw [vq] at vy
      rw [hp, ok_bind, hx, hq, ok_bind, hy, map_ok, map_ok]
      exact congrArg Except.ok (same_buffer x y _ _ vx cx vy cy (List.append_assoc _ _ _)).1
    · obtain ⟨q, hq, _, _⟩ := operator_plus_char_view b t3 u3 a ch
      rw [(literal_operator_plus_outcome b t1 u1 lit a).2 h, error_bind, hq, ok_bind,
        (literal_operator_plus_outcome b t4 u4 lit q).2 h, map_error, map_error]
  · intro t1 u1 t2 u2 t3 u3 t4 u4
    obtain ⟨p, hp, vp, _⟩ := operator_plus_view b t1 u1 a c
    by_cases h : b.expects = expects_expansion.nothing ∨ lit.cells[P]? = some 0
    · obtain ⟨x, hx, vx, cx⟩ := (operator_plus_literal_outcome b t2 u2 p lit).1 h
      obtain ⟨q, hq, vq, _⟩ := (operator_plus_literal_outcome b t3 u3 c lit).1 h
      obtain ⟨y, hy, vy, cy⟩ := operator_plus_view b t4 u4 a q
      rw [vp] at vx
      rw [vq] at vy
      rw [hp, ok_bind, hx, hq, ok_bind, hy, map_ok, map_ok]
      exact congrArg Except.ok (same_buffer x y _ _ vx cx vy cy (List.append_assoc _ _ _)).1
    · rw [hp, ok_bind, (operator_plus_literal_outcome b t2 u2 p lit).2 h,
        (operator_plus_literal_outcome b t3 u3 c lit).2 h, error_bind, map_error, map_error]
  · intro t1 u1 t2 u2 t3 u3 t4 u4
    by_cases h : b.expects = expects_expansion.nothing ∨ lit.cells[P]? = some 0
    · obtain ⟨p, hp, vp, _⟩ := (literal_operator_plus_outcome b t1 u1 lit a).1 h
      obtain ⟨x, hx, vx, cx⟩ := operator_plus_view b t2 u2 p d
      obtain ⟨q, hq, vq, _⟩ := operator_plus_view b t3 u3 a d
      obtain ⟨y, hy, vy, cy⟩ := (literal_operator_plus_outcome b t4 u4 lit q).1 h
      rw [vp] at vx
      rw [vq] at vy
      rw [hp, ok_bind, hx, hq, ok_bind, hy, map_ok, map_ok]
      exact congrArg Except.ok (same_buffer x y _ _ vx cx vy cy (List.append_assoc _ _ _)).1
    · obtain ⟨q, hq, _, _⟩ := operator_plus_view b t3 u3 a d
      rw [(literal_operator_plus_outcome b t1 u1 lit a).2 h, error_bind, hq, ok_bind,
        (literal_operator_plus_outcome b t4 u4 lit q).2 h, map_error, map_error]

/-- C25 at the instances `"a"`, `"ab"`, `"c"`, the character `'b'` and the
literals `"c"` and `"a"` of the test: `"a" + e` and `e + "a"` hold the buffer of
`"a"`, and `("a" + 'b') + "c"` and `"a" + ('b' + "c")` hold the same buffer. -/
theorem concatenation_associative_identity_witness :
    (fs_a._data.cells[1]? = some 0 ∧ sl_c.cells[1]? = some 0 ∧ sl_a.cells[1]? = some 0 ∧
      fs_a.view ++ [98] ++ sl_c.cells.take 1 = sl_a.cells.take 1 ++ ([98] ++ fs_c.view)) ∧
    (∃ ae ea,
      operator_plus gnu_build (indeterminate (1 + 0)) (storage (1 + 0)) fs_a
        (basic_fixed_string.value_initialized Nat) = Except.ok ae ∧
      operator_plus gnu_build (indeterminate (0 + 1)) (storage (0 + 1))
        (basic_fixed_string.value_initialized Nat) fs_a = Except.ok ea ∧
      ae._data.cells = fs_a._data.cells ∧ ea._data.cells = fs_a._data.cells) ∧
    (∃ p x q y,
      operator_plus_char gnu_build (indeterminate (1 + 1)) (storage (1 + 1)) fs_a 98
        = Except.ok p ∧
      operator_plus_literal gnu_build (indeterminate (1 + 1 + (1 + 1 - 1)))
        (storage (1 + 1 + (1 + 1 - 1))) p sl_c = Except.ok x ∧
      char_operator_plus gnu_build (indeterminate (1 + 1)) (storage (1 + 1)) 98 fs_c
        = Except.ok q ∧
      literal_operator_plus gnu_build (indeterminate ((1 + 1 - 1) + (1 + 1)))
        (storage ((1 + 1 - 1) + (1 + 1))) sl_a q = Except.ok y ∧
      x._data.cells = y._data.cells ∧ operator_eq x y = true) := by
  have T := concatenation_associative_identity gnu_build fs_a fs_ab fs_c
    (basic_fixed_string.value_initialized Nat) 98 98 sl_c sl_a
    (indeterminate (1 + 2)) (storage (1 + 2)) (indeterminate (1 + 2 + 1)) (storage (1 + 2 + 1))
    (indeterminate (2 + 1)) (storage (2 + 1)) (indeterminate (1 + (2 + 1)))
    (storage (1 + (2 + 1))) (indeterminate (1 + 0)) (storage (1 + 0))
    (indeterminate (0 + 1)) (storage (0 + 1))
  have hsame : fs_a.view ++ [98] ++ sl_c.cells.take 1
      = sl_a.cells.take 1 ++ ([98] ++ fs_c.view) := by
    decide
  refine ⟨⟨by decide, by decide, by decide, hsame⟩, ?_, ?_⟩
  · obtain ⟨ae, ea, h1, h2, _, _, h3⟩ := T.2.1
    exact ⟨ae, ea, h1, h2, h3 (by decide)⟩
  · obtain ⟨p, x, q, y, hp, hx, hq, hy, _, _, h⟩ :=
      (T.2.2.2.2.2.2.1 (by decide) (by decide)).2.2.2.2.2.2
        (indeterminate (1 + 1)) (storage (1 + 1)) (indeterminate (1 + 1 + (1 + 1 - 1)))
        (storage (1 + 1 + (1 + 1 - 1))) (indeterminate (1 + 1)) (storage (1 + 1))
        (indeterminate ((1 + 1 - 1) + (1 + 1))) (storage ((1 + 1 - 1) + (1 + 1)))
    exact ⟨p, x, q, y, hp, hx, hq, hy, h hsame⟩

end claims

end mtp
